import Mathlib

/-!
Verification of the mail-auth DKIM core: header splitting/classification
(`common/headers.rs`), DKIM-Signature and DKIM record parsing
(`dkim/parse.rs`) and signature serialization (`dkim/sign.rs`),
shallowly embedded over byte lists (`List Nat`, each entry a byte value).
-/

namespace MailAuth

/-- Bytes of an ASCII string, as natural numbers. -/
def bytes (s : String) : List Nat := s.data.map Char.toNat

/-! ## Header splitter (`common/headers.rs`, `HeaderIterator`)

The Rust iterator walks the message with a peekable byte cursor; at entry
to `next` the cursor sits at `start_pos`.  We model one call to `next` as a
recursive scan over the suffix `hdr = message.drop start_pos`, tracking the
offset inside that suffix, the colon position once one was found
(`colon_pos == usize::MAX` becomes `none`), and `last_ch`. -/

/-- Outcome of one `HeaderIterator::next` call: a yielded `(name, value)`
pair together with the number of bytes consumed, the end-of-headers return
(blank line seen, bytes consumed), or exhaustion of the input. -/
inductive HeaderStep where
  | yieldH (name value : List Nat) (consumed : Nat)
  | endOfHeaders (consumed : Nat)
  | eof
deriving Repr, DecidableEq

/-- `self.iter.peek().map_or(true, |next| ![b' ', b'\t'].contains(next))`
negated: the next byte exists and is a space or tab. -/
def headIsWsp : List Nat → Bool
  | [] => false
  | c :: _ => c = 32 || c = 9

/-- One call of `HeaderIterator::next` (src/common/headers.rs lines 66-117)
scanning the remaining bytes `r` of the current-header suffix `hdr`;
`off` is the offset of `r`'s head inside `hdr`, `colonOff` the offset of
the first colon if already seen, `lastCh` the previously scanned byte. -/
def iterStep (hdr : List Nat) : List Nat → Nat → Option Nat → Nat → HeaderStep
  | [], _, _, _ => .eof
  | ch :: r, off, none, lastCh =>
    if ch = 58 then
      iterStep hdr r (off + 1) (some off) ch
    else if ch = 10 then
      if lastCh = 13 ∨ off = 0 then
        .endOfHeaders (off + 1)
      else if headIsWsp r then
        iterStep hdr r (off + 1) none ch
      else
        .yieldH (hdr.take (off + 1)) [] (off + 1)
    else
      iterStep hdr r (off + 1) none ch
  | ch :: r, off, some colonOff, _ =>
    if ch = 10 ∧ ¬ headIsWsp r then
      .yieldH (hdr.take colonOff) ((hdr.drop (colonOff + 1)).take (off - colonOff)) (off + 1)
    else
      iterStep hdr r (off + 1) (some colonOff) ch

/-- One `next` call of the iterator positioned at absolute offset `pos`. -/
def iterNext (msg : List Nat) (pos : Nat) : HeaderStep :=
  iterStep (msg.drop pos) (msg.drop pos) 0 none 0

/-- Driving `HeaderIterator` to exhaustion from position `pos`: the list of
yielded `(name, value)` pairs, the position right after the last yielded
header, and the final cursor position (`fuel` bounds the recursion; any
`fuel > msg.length - pos` is enough since every step consumes a byte). -/
def iterRunAux (msg : List Nat) : Nat → Nat → List (List Nat × List Nat) × Nat × Nat
  | 0, pos => ([], pos, pos)
  | fuel + 1, pos =>
    match iterNext msg pos with
    | .eof => ([], pos, msg.length)
    | .endOfHeaders c => ([], pos, pos + c)
    | .yieldH n v c =>
      let rest := iterRunAux msg fuel (pos + c)
      ((n, v) :: rest.1, rest.2)

/-- All headers yielded by `HeaderIterator`, the end of the header block,
and the final cursor position. -/
def iterRun (msg : List Nat) : List (List Nat × List Nat) × Nat × Nat :=
  iterRunAux msg (msg.length + 1) 0

/-- `HeaderIterator::body_offset` (src/common/headers.rs lines 58-61):
peek the exhausted iterator and report the position of the next byte. -/
def bodyOffset (msg : List Nat) : Option Nat :=
  let fp := (iterRun msg).2.2
  ((msg.drop fp).head?).map (fun _ => fp)

/-! ### Splitter totality (claim C2) -/

/-- How a yielded pair reappears in the message: a malformed header (empty
value) was yielded whole, a well-formed one lost exactly its `':'`. -/
def renderPair (p : List Nat × List Nat) : List Nat :=
  if p.2 = [] then p.1 else p.1 ++ 58 :: p.2

/-- The concatenation claimed by the spec: names and values only, plus the
body bytes. -/
def c2Concat (msg : List Nat) : List Nat :=
  (((iterRun msg).1.map (fun p => p.1 ++ p.2)).flatten) ++
    (match bodyOffset msg with
     | some i => msg.drop i
     | none => [])

/-! ## Header classifier (`common/headers.rs`, `HeaderParser`) -/

/-- `AuthenticatedHeader` variants (src/common/headers.rs lines 19-26);
the name slice is carried separately in our embedding. -/
inductive AHdr where
  | Ds | Aar | Ams | As | From | Other
deriving Repr, DecidableEq

/-- `FROM` hash constant (src/common/headers.rs line 237). -/
def FROM : Nat := 102 + 114 * 2 ^ 8 + 111 * 2 ^ 16 + 109 * 2 ^ 24

/-- `DKIM` hash constant (src/common/headers.rs lines 238-245). -/
def DKIM : Nat := 100 + 107 * 2 ^ 8 + 105 * 2 ^ 16 + 109 * 2 ^ 24 + 45 * 2 ^ 32 +
  115 * 2 ^ 40 + 105 * 2 ^ 48 + 103 * 2 ^ 56

/-- `AAR` hash constant (src/common/headers.rs lines 246-253). -/
def AAR : Nat := 97 + 114 * 2 ^ 8 + 99 * 2 ^ 16 + 45 * 2 ^ 24 + 97 * 2 ^ 32 +
  117 * 2 ^ 40 + 116 * 2 ^ 48 + 104 * 2 ^ 56

/-- `AMS` hash constant (src/common/headers.rs lines 254-261). -/
def AMS : Nat := 97 + 114 * 2 ^ 8 + 99 * 2 ^ 16 + 45 * 2 ^ 24 + 109 * 2 ^ 32 +
  101 * 2 ^ 40 + 115 * 2 ^ 48 + 115 * 2 ^ 56

/-- `AS` hash constant (src/common/headers.rs lines 262-269). -/
def AS : Nat := 97 + 114 * 2 ^ 8 + 99 * 2 ^ 16 + 45 * 2 ^ 24 + 115 * 2 ^ 32 +
  101 * 2 ^ 40 + 97 * 2 ^ 48 + 108 * 2 ^ 56

/-- `u64::MAX`, the poisoned hash value. -/
def U64MAX : Nat := 2 ^ 64 - 1

/-- The rolling-hash state of `HeaderParser::next`: `hash`/`hash_shift`
plus `token_start`/`token_end` (`usize::MAX` sentinels become `none`). -/
structure HState where
  hash : Nat
  shift : Nat
  ts : Option Nat
  te : Option Nat
deriving Repr, DecidableEq

/-- Initial rolling-hash state of one `next` call. -/
def initH : HState := ⟨0, 0, none, none⟩

/-- The name-byte arms of `HeaderParser::next`'s pre-colon match
(src/common/headers.rs lines 157-182): space/tab/CR skipped, ASCII letters
(lowercased) and `-` shifted into the hash while `hash_shift < 64`
(updating `token_start` once and `token_end` always), anything else
poisoning the hash with `u64::MAX`. -/
def stUpd (st : HState) (ch off : Nat) : HState :=
  if ch = 32 ∨ ch = 9 ∨ ch = 13 then st
  else if 65 ≤ ch ∧ ch ≤ 90 then
    if st.shift < 64 then
      { hash := st.hash ||| ((ch + 32) <<< st.shift), shift := st.shift + 8,
        ts := some (st.ts.getD off), te := some off }
    else { st with te := some off }
  else if (97 ≤ ch ∧ ch ≤ 122) ∨ ch = 45 then
    if st.shift < 64 then
      { hash := st.hash ||| (ch <<< st.shift), shift := st.shift + 8,
        ts := some (st.ts.getD off), te := some off }
    else { st with te := some off }
  else
    { st with hash := U64MAX }

/-- ASCII lowercasing of one byte. -/
def lowerB (c : Nat) : Nat := if 65 ≤ c ∧ c ≤ 90 then c + 32 else c

/-- `eq_ignore_ascii_case` on byte slices. -/
def eqIC : List Nat → List Nat → Bool
  | [], [] => true
  | x :: xs, y :: ys => lowerB x = lowerB y && eqIC xs ys
  | _, _ => false

/-- `message.get(a..b + 1).unwrap_or_default()`: the slice when the range
is valid, the empty slice otherwise. -/
def sliceGet (hdr : List Nat) (a b : Nat) : List Nat :=
  if a ≤ b ∧ b ≤ hdr.length then (hdr.drop a).take (b - a) else []

/-- The tail bytes `message[token_start + 8 .. token_end + 1]` used to
disambiguate headers sharing an 8-byte hashed prefix; empty when no token
was seen (then no guarded arm can match anyway). -/
def tailOf (hdr : List Nat) (st : HState) : List Nat :=
  match st.ts, st.te with
  | some a, some b => sliceGet hdr (a + 8) (b + 1)
  | _, _ => []

/-- The classification match of `HeaderParser::next`
(src/common/headers.rs lines 195-223). -/
def classifyAt (hdr : List Nat) (st : HState) : AHdr :=
  if st.hash = FROM then .From
  else if st.hash = AS then .As
  else if st.hash = AAR ∧ eqIC (tailOf hdr st) (bytes ("entication-Results")) then .Aar
  else if st.hash = AMS ∧ eqIC (tailOf hdr st) (bytes ("age-Signature")) then .Ams
  else if st.hash = DKIM ∧ eqIC (tailOf hdr st) (bytes ("nature")) then .Ds
  else .Other

/-- Outcome of one `HeaderParser::next` call: as `HeaderStep`, but a
yielded well-formed header carries its classification (a malformed one is
always `Other`, src line 154). -/
inductive PHeaderStep where
  | yieldH (cls : AHdr) (name value : List Nat) (consumed : Nat)
  | endOfHeaders (consumed : Nat)
  | eof
deriving Repr, DecidableEq

/-- One call of `HeaderParser::next` (src/common/headers.rs lines 123-234):
the byte walk of `HeaderIterator::next` plus the rolling-hash state. -/
def parserStep (hdr : List Nat) :
    List Nat → Nat → Option Nat → Nat → HState → PHeaderStep
  | [], _, _, _, _ => .eof
  | ch :: r, off, none, lastCh, st =>
    if ch = 58 then
      parserStep hdr r (off + 1) (some off) ch st
    else if ch = 10 then
      if lastCh = 13 ∨ off = 0 then
        .endOfHeaders (off + 1)
      else if headIsWsp r then
        parserStep hdr r (off + 1) none ch st
      else
        .yieldH .Other (hdr.take (off + 1)) [] (off + 1)
    else
      parserStep hdr r (off + 1) none ch (stUpd st ch off)
  | ch :: r, off, some colonOff, _, st =>
    if ch = 10 ∧ ¬ headIsWsp r then
      .yieldH (classifyAt hdr st) (hdr.take colonOff)
        ((hdr.drop (colonOff + 1)).take (off - colonOff)) (off + 1)
    else
      parserStep hdr r (off + 1) (some colonOff) ch st

/-- One `next` call of `HeaderParser` positioned at absolute offset `pos`. -/
def parserNext (msg : List Nat) (pos : Nat) : PHeaderStep :=
  parserStep (msg.drop pos) (msg.drop pos) 0 none 0 initH

/-- Driving `HeaderParser` to exhaustion (as `iterRunAux`). -/
def parserRunAux (msg : List Nat) :
    Nat → Nat → List ((AHdr × List Nat) × List Nat) × Nat × Nat
  | 0, pos => ([], pos, pos)
  | fuel + 1, pos =>
    match parserNext msg pos with
    | .eof => ([], pos, msg.length)
    | .endOfHeaders c => ([], pos, pos + c)
    | .yieldH cls n v c =>
      let rest := parserRunAux msg fuel (pos + c)
      (((cls, n), v) :: rest.1, rest.2)

/-- All classified headers yielded by `HeaderParser`, the end of the
header block, and the final cursor position. -/
def parserRun (msg : List Nat) : List ((AHdr × List Nat) × List Nat) × Nat × Nat :=
  parserRunAux msg (msg.length + 1) 0

/-- `HeaderParser::body_offset` (src/common/headers.rs lines 44-47). -/
def parserBodyOffset (msg : List Nat) : Option Nat :=
  let fp := (parserRun msg).2.2
  ((msg.drop fp).head?).map (fun _ => fp)

/-- The classifications assigned to a message's headers, in order. -/
def clsList (msg : List Nat) : List AHdr :=
  (parserRun msg).1.map (fun p => p.1.1)

/-- Two bytes equal up to ASCII letter case. -/
def caseEq (a b : Nat) : Prop := lowerB a = lowerB b

/-- The bytes that feed the rolling hash: everything except space, tab
and CR (which the name arms skip). -/
def nonWsCR (c : Nat) : Bool := ¬ (c = 32 ∨ c = 9 ∨ c = 13)

/-- The rolling-hash state accumulated over the name bytes of a header
(the bytes before the colon), exactly as the pre-colon arms of
`HeaderParser::next` accumulate it; a `'\n'` inside a name (a folded
name) falls through all state-updating arms. -/
def nameScanAux : List Nat → Nat → HState → HState
  | [], _, st => st
  | ch :: r, off, st =>
    nameScanAux r (off + 1) (if ch = 10 then st else stUpd st ch off)

/-- The classification `HeaderParser::next` computes for a well-formed
header whose name bytes are `nm`. -/
def classifyName (nm : List Nat) : AHdr :=
  classifyAt nm (nameScanAux nm 0 initH)

/-- The hash/shift effect of one non-skipped name byte, extracted from the
name-byte arms of `stUpd` (positions do not influence the hash). -/
def hashStep (hs : Nat × Nat) (ch : Nat) : Nat × Nat :=
  if 65 ≤ ch ∧ ch ≤ 90 then
    if hs.2 < 64 then (hs.1 ||| ((ch + 32) <<< hs.2), hs.2 + 8) else hs
  else if (97 ≤ ch ∧ ch ≤ 122) ∨ ch = 45 then
    if hs.2 < 64 then (hs.1 ||| (ch <<< hs.2), hs.2 + 8) else hs
  else (U64MAX, hs.2)

/-- Forgetting the classification attached to a parser step. -/
def PHeaderStep.toPlain : PHeaderStep → HeaderStep
  | .yieldH _ n v k => .yieldH n v k
  | .endOfHeaders k => .endOfHeaders k
  | .eof => .eof

/-- Two parser steps with the same shape, classification and consumption
(names and values may differ, e.g. in letter case). -/
def stepMatch : PHeaderStep → PHeaderStep → Prop
  | .yieldH c1 _ _ k1, .yieldH c2 _ _ k2 => c1 = c2 ∧ k1 = k2
  | .endOfHeaders k1, .endOfHeaders k2 => k1 = k2
  | .eof, .eof => True
  | _, _ => False

instance caseEqDec (a b : Nat) : Decidable (caseEq a b) :=
  decidable_of_iff (lowerB a = lowerB b) Iff.rfl

instance forall2CaseEqDec : ∀ (l1 l2 : List Nat), Decidable (List.Forall₂ caseEq l1 l2)
  | [], [] => isTrue List.Forall₂.nil
  | [], _ :: _ => isFalse fun h => by cases h
  | _ :: _, [] => isFalse fun h => by cases h
  | _ :: t1, _ :: t2 =>
    have := forall2CaseEqDec t1 t2
    decidable_of_iff _ List.forall₂_cons.symm

/-! ## Tag-list parser (spec section 4.3)

`Signature::parse` and `Record::parse` (both in src/dkim/parse.rs) drive a
byte-cursor parser from `common/parse.rs`, which is not part of the given
sources; its operations are modelled from the spec below.  Streams are
byte lists; each operation returns its result together with the remaining
stream. -/

/-- Rust `u8::is_ascii_whitespace`: space, tab, LF, FF, CR. -/
def isAsciiWs (c : Nat) : Bool := c = 32 || c = 9 || c = 10 || c = 12 || c = 13

/-- Modelled from the spec: the key-collection phase of `key()` — read the
tag key up to the `=` sign, skipping interior whitespace, ASCII
lowercasing each byte, and consuming the `=`. -/
def keyCollect : List Nat → List Nat × List Nat
  | [] => ([], [])
  | c :: r =>
    if c = 61 then ([], r)
    else if isAsciiWs c then keyCollect r
    else
      let (k, r') := keyCollect r
      (lowerB c :: k, r')

/-- Modelled from the spec: `key()` of the tag-list parser
(`common/parse.rs`, not under src/) — skip whitespace and `;`, then read
the next tag key; `none` at end of input.  The spec's packed integer code
is represented by the lowercased key bytes, which section 9 of the spec
declares an equivalent choice. -/
def keyFn : List Nat → Option (List Nat × List Nat)
  | [] => none
  | c :: r =>
    if isAsciiWs c ∨ c = 59 then keyFn r
    else some (keyCollect (c :: r))

/-- Consume the rest of a tag value up to and including the next `;`. -/
def skipTag : List Nat → List Nat
  | [] => []
  | c :: r => if c = 59 then r else skipTag r

/-- Modelled from the spec: `ignore()` — skip an unknown tag's value. -/
def ignoreFn (s : List Nat) : List Nat := skipTag s

/-- Modelled from the spec: the whitespace-tolerant tail of `number()`
after the digits, requiring `;` or end of input. -/
def numberTail (acc : Nat) : List Nat → Option Nat × List Nat
  | [] => (some acc, [])
  | c :: r =>
    if c = 59 then (some acc, r)
    else if isAsciiWs c then numberTail acc r
    else (none, skipTag r)

/-- Modelled from the spec: the digit phase of `number()`; arithmetic
wraps in 64 bits as the Rust `u64` accumulator does. -/
def numberDigits (acc : Nat) : List Nat → Option Nat × List Nat
  | [] => (some acc, [])
  | c :: r =>
    if 48 ≤ c ∧ c ≤ 57 then numberDigits ((acc * 10 + (c - 48)) % 2 ^ 64) r
    else if c = 59 then (some acc, r)
    else if isAsciiWs c then numberTail acc r
    else (none, skipTag r)

/-- Modelled from the spec: `number()` — a nonnegative decimal integer,
whitespace-tolerant, `none` on anything else (the tag is consumed up to
`;` or end of input either way). -/
def numberFn : List Nat → Option Nat × List Nat
  | [] => (none, [])
  | c :: r =>
    if isAsciiWs c then numberFn r
    else if 48 ≤ c ∧ c ≤ 57 then numberDigits (c - 48) r
    else (none, skipTag (c :: r))

/-- Modelled from the spec: `tag()` — the raw value up to the next `;` or
end of input (the `;` is consumed), with all ASCII whitespace, including
folding, dropped. -/
def tagFn : List Nat → List Nat × List Nat
  | [] => ([], [])
  | c :: r =>
    if c = 59 then ([], r)
    else if isAsciiWs c then tagFn r
    else
      let (v, r') := tagFn r
      (c :: v, r')

/-- Hexadecimal value of an ASCII digit byte. -/
def hexVal (c : Nat) : Option Nat :=
  if 48 ≤ c ∧ c ≤ 57 then some (c - 48)
  else if 65 ≤ c ∧ c ≤ 70 then some (c - 55)
  else if 97 ≤ c ∧ c ≤ 102 then some (c - 87)
  else none

/-- Modelled from the spec: `tag_qp()` — as `tag()` but decoding `=XX`
hex triplets into single bytes; an `=` not followed by two hex digits is
kept literally. -/
def tagQpFn : List Nat → List Nat × List Nat
  | [] => ([], [])
  | 61 :: h1 :: h2 :: r2 =>
    match hexVal h1, hexVal h2 with
    | some a, some b =>
      let (v, r') := tagQpFn r2
      ((a * 16 + b) :: v, r')
    | _, _ =>
      let (v, r') := tagQpFn (h1 :: h2 :: r2)
      (61 :: v, r')
  | c :: r =>
    if c = 59 then ([], r)
    else if isAsciiWs c then tagQpFn r
    else
      let (v, r') := tagQpFn r
      (c :: v, r')

/-- Modelled from the spec: `items()` — the colon-separated token list up
to `;` or end of input, whitespace dropped, empty items skipped.  The
in-repo parse tests fix the behaviour: case is preserved and
`h=Received : From : : ;` yields `[Received, From]`. -/
def itemsGo (cur : List Nat) : List Nat → List (List Nat) × List Nat
  | [] => (if cur = [] then [] else [cur.reverse], [])
  | c :: r =>
    if c = 59 then (if cur = [] then [] else [cur.reverse], r)
    else if c = 58 then
      let (ts, r') := itemsGo [] r
      (if cur = [] then ts else cur.reverse :: ts, r')
    else if isAsciiWs c then itemsGo cur r
    else itemsGo (c :: cur) r

/-- Modelled from the spec: `items()`. -/
def itemsFn (s : List Nat) : List (List Nat) × List Nat := itemsGo [] s

/-- Modelled from the spec: `headers_qp()` — the `|`-separated list used
for `z=`, each element quoted-printable decoded, whitespace dropped,
empty elements skipped. -/
def headersQpGo (cur : List Nat) : List Nat → List (List Nat) × List Nat
  | [] => (if cur = [] then [] else [cur.reverse], [])
  | 61 :: h1 :: h2 :: r2 =>
    match hexVal h1, hexVal h2 with
    | some a, some b => headersQpGo ((a * 16 + b) :: cur) r2
    | _, _ => headersQpGo (61 :: cur) (h1 :: h2 :: r2)
  | c :: r =>
    if c = 59 then (if cur = [] then [] else [cur.reverse], r)
    else if c = 124 then
      let (ts, r') := headersQpGo [] r
      (if cur = [] then ts else cur.reverse :: ts, r')
    else if isAsciiWs c then headersQpGo cur r
    else headersQpGo (c :: cur) r

/-- Modelled from the spec: `headers_qp()`. -/
def headersQpFn (s : List Nat) : List (List Nat) × List Nat := headersQpGo [] s

/-- Modelled from the spec: `matchBytes(literal)` — case-insensitive
literal match, consuming the matched bytes; interior ASCII whitespace in
the stream is skipped (the in-repo parse tests require `a = rsa - sha256`
to parse), and on a mismatch the cursor has advanced past the offending
byte, as an iterator-based scan does. -/
def matchBytesFn : List Nat → List Nat → Bool × List Nat
  | [], s => (true, s)
  | _ :: _, [] => (false, [])
  | l :: ls, c :: r =>
    if isAsciiWs c then matchBytesFn (l :: ls) r
    else if lowerB c = lowerB l then matchBytesFn ls r
    else (false, r)

/-- Modelled from the spec: `seekTagEnd()` — consume trailing whitespace
and require `;` (consumed) or end of input. -/
def seekTagEndFn : List Nat → Bool × List Nat
  | [] => (true, [])
  | c :: r =>
    if isAsciiWs c then seekTagEndFn r
    else if c = 59 then (true, r)
    else (false, r)

/-- Modelled from the spec: `next_skip_whitespaces()`. -/
def nextSkipWsFn : List Nat → Option Nat × List Nat
  | [] => (none, [])
  | c :: r => if isAsciiWs c then nextSkipWsFn r else (some c, r)

/-! ## Base64 (external `mail_parser` / `mail_builder` helpers) -/

/-- Base64 value of one alphabet byte. -/
def b64Val (c : Nat) : Option Nat :=
  if 65 ≤ c ∧ c ≤ 90 then some (c - 65)
  else if 97 ≤ c ∧ c ≤ 122 then some (c - 71)
  else if 48 ≤ c ∧ c ≤ 57 then some (c + 4)
  else if c = 43 then some 62
  else if c = 47 then some 63
  else none

/-- Modelled from the spec: the padding phase of `base64_decode_stream` —
after the first `=`, only further `=` and whitespace may precede the stop
byte or end of input. -/
def b64Pad (acc : List Nat) : List Nat → Option (List Nat) × List Nat
  | [] => (some acc.reverse, [])
  | c :: r =>
    if c = 59 then (some acc.reverse, r)
    else if isAsciiWs c ∨ c = 61 then b64Pad acc r
    else (none, skipTag r)

/-- Modelled from the spec: the collection phase of `base64_decode_stream`
(external crate `mail_parser`): gather alphabet characters, skipping
whitespace (so values may be folded across lines), until the stop byte
`;` (consumed) or end of input; only a genuinely invalid alphabet byte is
an error. -/
def b64Collect (acc : List Nat) : List Nat → Option (List Nat) × List Nat
  | [] => (some acc.reverse, [])
  | c :: r =>
    if c = 59 then (some acc.reverse, r)
    else if isAsciiWs c then b64Collect acc r
    else if c = 61 then b64Pad acc r
    else
      match b64Val c with
      | some v => b64Collect (v :: acc) r
      | none => (none, skipTag r)

/-- Decode collected 6-bit values into bytes (a trailing group of two or
three values yields one or two bytes; a single leftover is invalid). -/
def sexDecode : List Nat → Option (List Nat)
  | [] => some []
  | [_] => none
  | [a, b] => some [a * 4 + b / 16]
  | [a, b, c] => some [a * 4 + b / 16, b % 16 * 16 + c / 4]
  | a :: b :: c :: d :: rest =>
    match sexDecode rest with
    | some bs => some ((a * 4 + b / 16) :: (b % 16 * 16 + c / 4) :: (c % 4 * 64 + d) :: bs)
    | none => none

/-- Modelled from the spec: `base64_decode_stream(iter, len, b';')`. -/
def base64DecodeStream (s : List Nat) : Option (List Nat) × List Nat :=
  match b64Collect [] s with
  | (some vs, r) => (sexDecode vs, r)
  | (none, r) => (none, r)

/-- Base64 alphabet byte of one 6-bit value. -/
def b64Chr (v : Nat) : Nat :=
  if v < 26 then 65 + v
  else if v < 52 then 71 + v
  else if v < 62 then v - 4
  else if v = 62 then 43
  else 47

/-- Modelled from the spec: `mail_builder`'s `base64_encode` (external
crate) — standard alphabet, `=` padding, no line wrapping. -/
def base64Encode : List Nat → List Nat
  | [] => []
  | [a] => [b64Chr (a / 4), b64Chr (a % 4 * 16), 61, 61]
  | [a, b] => [b64Chr (a / 4), b64Chr (a % 4 * 16 + b / 16), b64Chr (b % 16 * 4), 61]
  | a :: b :: c :: rest =>
    b64Chr (a / 4) :: b64Chr (a % 4 * 16 + b / 16) ::
      b64Chr (b % 16 * 4 + c / 64) :: b64Chr (c % 64) :: base64Encode rest

deriving instance DecidableEq for Except

/-! ## DKIM data model (`dkim/mod.rs`, described by spec section 3) -/

/-- Header/body canonicalization. -/
inductive Canonicalization where
  | Simple | Relaxed
deriving Repr, DecidableEq

/-- Signing/verification algorithm. -/
inductive Algorithm where
  | RsaSha256 | RsaSha1 | Ed25519Sha256
deriving Repr, DecidableEq

/-- The error taxonomy (spec section 7); crypto errors carrying external
payloads are collapsed to their kind. -/
inductive Error where
  | UnsupportedVersion | UnsupportedAlgorithm | UnsupportedCanonicalization
  | UnsupportedKeyType | UnsupportedRecordVersion | Base64 | MissingParameters
  | PKCS | Ed25519 | Ed25519Signature | RSA | NoHeadersFound
  | BodyHashMismatch | FailedVerification | FailedAUIDMatch
  | SignatureExpired | RevokedPublicKey
deriving Repr, DecidableEq

/-- `Signature` (spec section 3).  `b`/`bh` hold base64-decoded bytes
after parsing but base64 text after signing, exactly as the Rust struct
is used. -/
structure Signature where
  v : Nat
  a : Algorithm
  d : List Nat
  s : List Nat
  i : List Nat
  b : List Nat
  bh : List Nat
  h : List (List Nat)
  z : List (List Nat)
  l : Nat
  x : Nat
  t : Nat
  ch : Canonicalization
  cb : Canonicalization
deriving Repr, DecidableEq

/-! ## DKIM-Signature parsing (`dkim/parse.rs`) -/

/-- The result assembly of `SignatureParser::canonicalization`
(src/dkim/parse.rs lines 135-143). -/
def canonFinish (ch cb : Canonicalization) (hasHeader : Bool)
    (c : Option Canonicalization) : Canonicalization × Canonicalization :=
  match c with
  | some c_ => if hasHeader then (ch, c_) else (c_, cb)
  | none => (ch, cb)

/-- The scan loop of `SignatureParser::canonicalization`
(src/dkim/parse.rs lines 103-133); `fuel` bounds the recursion (each
iteration consumes at least one byte, so the input length suffices). -/
def canonGo (fuel : Nat) (ch cb : Canonicalization) (hasHeader : Bool)
    (c : Option Canonicalization) :
    List Nat → Except Error ((Canonicalization × Canonicalization) × List Nat)
  | [] => .ok (canonFinish ch cb hasHeader c, [])
  | x :: r =>
    match fuel with
    | 0 => .ok (canonFinish ch cb hasHeader c, x :: r)
    | fuel + 1 =>
      if (x = 115 ∨ x = 83) ∧ c = none then
        match matchBytesFn (bytes ("imple")) r with
        | (true, r') => canonGo fuel ch cb hasHeader (some .Simple) r'
        | (false, _) => .error .UnsupportedCanonicalization
      else if (x = 114 ∨ x = 82) ∧ c = none then
        match matchBytesFn (bytes ("elaxed")) r with
        | (true, r') => canonGo fuel ch cb hasHeader (some .Relaxed) r'
        | (false, _) => .error .UnsupportedCanonicalization
      else if x = 47 ∧ c.isSome then
        canonGo fuel (c.getD ch) cb true none r
      else if x = 59 then
        .ok (canonFinish ch cb hasHeader c, r)
      else if isAsciiWs x then
        canonGo fuel ch cb hasHeader c r
      else
        .error .UnsupportedCanonicalization

/-- `SignatureParser::canonicalization(default)`
(src/dkim/parse.rs lines 93-144). -/
def canonicalization (default : Canonicalization) (s : List Nat) :
    Except Error ((Canonicalization × Canonicalization) × List Nat) :=
  canonGo (s.length + 1) default default false none s

/-- The final dispatch of `SignatureParser::algorithm`'s rsa digit loop
(src/dkim/parse.rs lines 169-173). -/
def rsaAlgoFinish (algo : Nat) (r : List Nat) :
    Except Error (Algorithm × List Nat) :=
  if algo = 256 then .ok (.RsaSha256, r)
  else if algo = 1 then .ok (.RsaSha1, r)
  else .error .UnsupportedAlgorithm

/-- The digit loop of `SignatureParser::algorithm`
(src/dkim/parse.rs lines 150-167). -/
def rsaAlgoLoop (algo : Nat) : List Nat → Except Error (Algorithm × List Nat)
  | [] => rsaAlgoFinish algo []
  | c :: r =>
    if c = 49 ∧ algo = 0 then rsaAlgoLoop 1 r
    else if c = 50 ∧ algo = 0 then rsaAlgoLoop 2 r
    else if c = 53 ∧ algo = 2 then rsaAlgoLoop 25 r
    else if c = 54 ∧ algo = 25 then rsaAlgoLoop 256 r
    else if c = 59 then rsaAlgoFinish algo r
    else if isAsciiWs c then rsaAlgoLoop algo r
    else .error .UnsupportedAlgorithm

/-- `SignatureParser::algorithm` (src/dkim/parse.rs lines 146-187). -/
def algorithmFn (s : List Nat) : Except Error (Algorithm × List Nat) :=
  match nextSkipWsFn s with
  | (some c, r) =>
    if c = 114 ∨ c = 82 then
      match matchBytesFn (bytes ("sa-sha")) r with
      | (true, r1) => rsaAlgoLoop 0 r1
      | (false, _) => .error .UnsupportedAlgorithm
    else if c = 101 ∨ c = 69 then
      match matchBytesFn (bytes ("d25519-sha256")) r with
      | (true, r1) =>
        match seekTagEndFn r1 with
        | (true, r2) => .ok (.Ed25519Sha256, r2)
        | (false, _) => .error .UnsupportedAlgorithm
      | (false, _) => .error .UnsupportedAlgorithm
    else .error .UnsupportedAlgorithm
  | (none, _) => .error .UnsupportedAlgorithm

/-- The initial `Signature` of `Signature::parse`
(src/dkim/parse.rs lines 16-31). -/
def sigInit : Signature :=
  ⟨0, .RsaSha256, [], [], [], [], [], [], [], 0, 0, 0, .Simple, .Simple⟩

/-- One iteration body of `Signature::parse`'s `while let Some(key)`
loop (src/dkim/parse.rs lines 36-68): dispatch on the lowercased tag key,
update the signature under construction, and return the remaining
stream (or the branch's error). -/
def parseSigTag (sig : Signature) (k r : List Nat) :
    Except Error (Signature × List Nat) :=
  if k = bytes ("v") then
    let (n, r') := numberFn r
    if n.getD 0 % 2 ^ 32 ≠ 1 then .error .UnsupportedVersion
    else .ok ({ sig with v := n.getD 0 % 2 ^ 32 }, r')
  else if k = bytes ("a") then
    match algorithmFn r with
    | .ok (a, r') => .ok ({ sig with a := a }, r')
    | .error e => .error e
  else if k = bytes ("b") then
    match base64DecodeStream r with
    | (some b, r') => .ok ({ sig with b := b }, r')
    | (none, _) => .error .Base64
  else if k = bytes ("bh") then
    match base64DecodeStream r with
    | (some b, r') => .ok ({ sig with bh := b }, r')
    | (none, _) => .error .Base64
  else if k = bytes ("c") then
    match canonicalization .Simple r with
    | .ok ((ch, cb), r') => .ok ({ sig with ch := ch, cb := cb }, r')
    | .error e => .error e
  else if k = bytes ("d") then
    let (v, r') := tagFn r
    .ok ({ sig with d := v }, r')
  else if k = bytes ("h") then
    let (v, r') := itemsFn r
    .ok ({ sig with h := v }, r')
  else if k = bytes ("i") then
    let (v, r') := tagQpFn r
    .ok ({ sig with i := v }, r')
  else if k = bytes ("l") then
    let (n, r') := numberFn r
    .ok ({ sig with l := n.getD 0 }, r')
  else if k = bytes ("s") then
    let (v, r') := tagFn r
    .ok ({ sig with s := v }, r')
  else if k = bytes ("t") then
    let (n, r') := numberFn r
    .ok ({ sig with t := n.getD 0 }, r')
  else if k = bytes ("x") then
    let (n, r') := numberFn r
    .ok ({ sig with x := n.getD 0 }, r')
  else if k = bytes ("z") then
    let (v, r') := headersQpFn r
    .ok ({ sig with z := v }, r')
  else
    .ok (sig, ignoreFn r)

/-- The `while let Some(key)` loop of `Signature::parse`
(src/dkim/parse.rs lines 35-69); `fuel` bounds the recursion (every
iteration consumes at least one byte, so the input length suffices). -/
def parseSigLoop : Nat → Signature → List Nat → Except Error Signature
  | 0, sig, _ => .ok sig
  | fuel + 1, sig, s =>
    match keyFn s with
    | none => .ok sig
    | some (k, r) =>
      match parseSigTag sig k r with
      | .ok (sig2, r') => parseSigLoop fuel sig2 r'
      | .error e => .error e

/-- The required-field check closing `Signature::parse`
(src/dkim/parse.rs lines 71-81). -/
def sigComplete (sig : Signature) : Bool :=
  sig.d ≠ [] ∧ sig.s ≠ [] ∧ sig.b ≠ [] ∧ sig.bh ≠ [] ∧ sig.h ≠ []

/-- `Signature::parse` (src/dkim/parse.rs lines 15-81). -/
def Signature.parse (s : List Nat) : Except Error Signature :=
  match parseSigLoop (s.length + 1) sigInit s with
  | .ok sig => if sigComplete sig then .ok sig else .error .MissingParameters
  | .error e => .error e

/-! ## DKIM record parsing (`dkim/parse.rs`, `Record::parse`) -/

/-- Record version (`v=DKIM1`). -/
inductive Version where
  | Dkim1
deriving Repr, DecidableEq

/-- The record's public key: revoked (empty `p=`), RSA, or Ed25519.  Key
objects of the external crypto crates are represented abstractly by the
bytes the import function accepted. -/
inductive PublicKey where
  | Revoked
  | Rsa (key : List Nat)
  | Ed25519 (key : List Nat)
deriving Repr, DecidableEq

/-- `Record` (spec section 3). -/
structure Record where
  v : Version
  p : PublicKey
  f : Nat
deriving Repr, DecidableEq

/-- Modelled from the spec: the record flag bit masks (`R_HASH_SHA1` etc.
are declared outside src/); only their disjointness is observable. -/
def R_HASH_SHA1 : Nat := 1

/-- Modelled from the spec: see `R_HASH_SHA1`. -/
def R_HASH_SHA256 : Nat := 2

/-- Modelled from the spec: see `R_HASH_SHA1`. -/
def R_SVC_ALL : Nat := 4

/-- Modelled from the spec: see `R_HASH_SHA1`. -/
def R_SVC_EMAIL : Nat := 8

/-- Modelled from the spec: see `R_HASH_SHA1`. -/
def R_FLAG_TESTING : Nat := 16

/-- Modelled from the spec: see `R_HASH_SHA1`. -/
def R_FLAG_MATCH_DOMAIN : Nat := 32

/-- `ItemParser for HashAlgorithm` (src/dkim/parse.rs lines 275-285),
returning the flag's bit value. -/
def hashAlgorithmParse (b : List Nat) : Option Nat :=
  if eqIC b (bytes ("sha256")) then some R_HASH_SHA256
  else if eqIC b (bytes ("sha1")) then some R_HASH_SHA1
  else none

/-- `ItemParser for Flag` (src/dkim/parse.rs lines 287-297). -/
def flagParse (b : List Nat) : Option Nat :=
  if eqIC b (bytes ("y")) then some R_FLAG_TESTING
  else if eqIC b (bytes ("s")) then some R_FLAG_MATCH_DOMAIN
  else none

/-- `ItemParser for Service` (src/dkim/parse.rs lines 299-309); `*` is
matched exactly, `email` case-insensitively. -/
def serviceParse (b : List Nat) : Option Nat :=
  if b = [42] then some R_SVC_ALL
  else if eqIC b (bytes ("email")) then some R_SVC_EMAIL
  else none

/-- Modelled from the spec: `flags<T>()` — colon-separated tokens mapped
through the item parser into a bit mask, unknown tokens contributing
nothing. -/
def flagsFn (p : List Nat → Option Nat) (s : List Nat) : Nat × List Nat :=
  let (ts, r) := itemsFn s
  (ts.foldl (fun acc t => acc ||| (p t).getD 0) 0, r)

/-- The `k=` key type accumulator of `Record::parse`
(src/dkim/parse.rs lines 190-194). -/
inductive KeyTypeK where
  | Rsa | Ed25519 | NoneSet
deriving Repr, DecidableEq

/-- One iteration body of `Record::parse`'s `while let Some(key)` loop
(src/dkim/parse.rs lines 210-250): accumulate flags, the key type and the
decoded `p=` bytes (`unwrap_or_default`: a failed base64 decode leaves
the key material empty). -/
def recordTag (rec : Record) (kt : KeyTypeK) (pk : List Nat)
    (k r : List Nat) :
    Except Error (Record × KeyTypeK × List Nat × List Nat) :=
  if k = bytes ("v") then
    match matchBytesFn (bytes ("DKIM1")) r with
    | (true, r1) =>
      match seekTagEndFn r1 with
      | (true, r2) => .ok (rec, kt, pk, r2)
      | (false, _) => .error .UnsupportedRecordVersion
    | (false, _) => .error .UnsupportedRecordVersion
  else if k = bytes ("h") then
    let (f, r') := flagsFn hashAlgorithmParse r
    .ok ({ rec with f := rec.f ||| f }, kt, pk, r')
  else if k = bytes ("p") then
    let (o, r') := base64DecodeStream r
    .ok (rec, kt, o.getD [], r')
  else if k = bytes ("s") then
    let (f, r') := flagsFn serviceParse r
    .ok ({ rec with f := rec.f ||| f }, kt, pk, r')
  else if k = bytes ("t") then
    let (f, r') := flagsFn flagParse r
    .ok ({ rec with f := rec.f ||| f }, kt, pk, r')
  else if k = bytes ("k") then
    match nextSkipWsFn r with
    | (some c, r1) =>
      if c = 114 ∨ c = 82 then
        match matchBytesFn (bytes ("sa")) r1 with
        | (true, r2) =>
          match seekTagEndFn r2 with
          | (true, r3) => .ok (rec, .Rsa, pk, r3)
          | (false, _) => .error .UnsupportedKeyType
        | (false, _) => .error .UnsupportedKeyType
      else if c = 101 ∨ c = 69 then
        match matchBytesFn (bytes ("d25519")) r1 with
        | (true, r2) =>
          match seekTagEndFn r2 with
          | (true, r3) => .ok (rec, .Ed25519, pk, r3)
          | (false, _) => .error .UnsupportedKeyType
        | (false, _) => .error .UnsupportedKeyType
      else if c = 59 then .ok (rec, kt, pk, r1)
      else .error .UnsupportedKeyType
    | (none, r1) => .ok (rec, kt, pk, r1)
  else
    .ok (rec, kt, pk, ignoreFn r)

/-- The `while let Some(key)` loop of `Record::parse`
(src/dkim/parse.rs lines 209-251). -/
def recordLoop : Nat → Record → KeyTypeK → List Nat → List Nat →
    Except Error (Record × KeyTypeK × List Nat)
  | 0, rec, kt, pk, _ => .ok (rec, kt, pk)
  | fuel + 1, rec, kt, pk, s =>
    match keyFn s with
    | none => .ok (rec, kt, pk)
    | some (k, r) =>
      match recordTag rec kt pk k r with
      | .ok (rec2, kt2, pk2, r') => recordLoop fuel rec2 kt2 pk2 r'
      | .error e => .error e

/-- `Record::parse` (src/dkim/parse.rs lines 196-268), parameterized by
the external RSA (`from_public_key_der` with pkcs1 fallback) and Ed25519
key-import functions. -/
def Record.parse (rsaDec edDec : List Nat → Option (List Nat))
    (s : List Nat) : Except Error Record :=
  match recordLoop (s.length + 1) ⟨.Dkim1, .Revoked, 0⟩ .NoneSet [] s with
  | .ok (rec, kt, pk) =>
    if pk ≠ [] then
      match kt with
      | .Rsa | .NoneSet =>
        match rsaDec pk with
        | some key => .ok { rec with p := .Rsa key }
        | none => .error .PKCS
      | .Ed25519 =>
        match edDec pk with
        | some key => .ok { rec with p := .Ed25519 key }
        | none => .error .Ed25519Signature
    else .ok rec
  | .error e => .error e

/-- The numeric value of a decimal digit-byte string under the wrapping
64-bit accumulator of `number()`. -/
def digitsVal (ds : List Nat) : Nat :=
  ds.foldl (fun a c => (a * 10 + (c - 48)) % 2 ^ 64) 0

/-! ## Signature serialization (`dkim/sign.rs`, `Signature::write`) -/

/-- `Canonicalization::serialize_name` (declared in `dkim/mod.rs`,
outside src/; the emitted values are fixed by the spec's wire format and
the in-src golden test). -/
def canonName : Canonicalization → List Nat
  | .Simple => bytes ("simple")
  | .Relaxed => bytes ("relaxed")

/-- The algorithm names of `Signature::write`
(src/dkim/sign.rs lines 224-228). -/
def algName : Algorithm → List Nat
  | .RsaSha256 => bytes ("rsa-sha256")
  | .RsaSha1 => bytes ("rsa-sha1")
  | .Ed25519Sha256 => bytes ("ed25519-sha256")

/-- The header name chosen by `Signature::write`
(src/dkim/sign.rs lines 218-221). -/
def hdrName (ch : Canonicalization) (asHeader : Bool) : List Nat :=
  if ch = .Relaxed ∧ asHeader = false then bytes ("dkim-signature:")
  else bytes ("DKIM-Signature: ")

/-- The continuation sequence chosen by `Signature::write`: a single
space when hashing under relaxed canonicalization, `CRLF TAB` otherwise. -/
def nlOf (ch : Canonicalization) (asHeader : Bool) : List Nat :=
  if ch = .Relaxed ∧ asHeader = false then [32] else [13, 10, 9]

/-- Decimal digit bytes of a positive number, most significant first
(`value.to_string()`); little-endian accumulation with `fuel ≥ n`. -/
def natDigitsRev : Nat → Nat → List Nat
  | 0, _ => []
  | fuel + 1, n => if n = 0 then [] else (n % 10 + 48) :: natDigitsRev fuel (n / 10)

/-- Decimal digit bytes of `n`, most significant first. -/
def natDigits (n : Nat) : List Nat := (natDigitsRev n n).reverse

/-- Uppercase hex digit byte of `v < 16` (`format!("{:02X}")`). -/
def hexChr (v : Nat) : Nat := if v < 10 then 48 + v else 55 + v

/-- One byte of the `i=` value as `Signature::write` emits it
(src/dkim/sign.rs lines 265-273): bytes `<= 0x20`, `;` and `>= 0x7F` are
escaped as `=XX`, everything else passes through. -/
def qpByte (c : Nat) : List Nat :=
  if c ≤ 32 ∨ c = 59 ∨ 127 ≤ c then [61, hexChr (c / 16), hexChr (c % 16)] else [c]

/-- The whole `i=` value quoted-printable encoded. -/
def qpEncode (i : List Nat) : List Nat := (i.map qpByte).flatten

/-- `h=` names joined by `:`. -/
def colonJoin : List (List Nat) → List Nat
  | [] => []
  | [x] => x
  | x :: rest => x ++ 58 :: colonJoin rest

/-- The `h=` emission loop of `Signature::write`
(src/dkim/sign.rs lines 241-253), threading the column counter `bw`;
`first` is `num == 0`. -/
def emitH (nl : List Nat) : List (List Nat) → Bool → Nat → List Nat × Nat
  | [], _, bw => ([], bw)
  | name :: rest, first, bw =>
    let pre := if bw + name.length + 1 ≥ 76 then nl else []
    let bw1 := if bw + name.length + 1 ≥ 76 then 1 else bw
    let sep := if first then bytes ("h=") else [58]
    let next := emitH nl rest false (bw1 + sep.length + name.length)
    (pre ++ sep ++ name ++ next.1, next.2)

/-- The `i=` byte loop of `Signature::write`
(src/dkim/sign.rs lines 265-278). -/
def emitIBody (nl : List Nat) : List Nat → Nat → List Nat × Nat
  | [], bw => ([], bw)
  | c :: rest, bw =>
    let enc := qpByte c
    let fold := if bw + enc.length ≥ 76 then nl else []
    let bw2 := if bw + enc.length ≥ 76 then 1 else bw + enc.length
    let next := emitIBody nl rest bw2
    (enc ++ fold ++ next.1, next.2)

/-- The `i=` section of `Signature::write`
(src/dkim/sign.rs lines 255-279). -/
def emitI (nl : List Nat) (i : List Nat) (bw : Nat) : List Nat × Nat :=
  if i = [] then ([], bw)
  else
    let sep := if bw + i.length + 3 ≥ 76 then [59] ++ nl else bytes ("; ")
    let bw1 := if bw + i.length + 3 ≥ 76 then 1 else bw + 2
    let body := emitIBody nl i (bw1 + 2)
    (sep ++ bytes ("i=") ++ body.1, body.2)

/-- One numeric tag (`t=`, `x=`, `l=`) of `Signature::write`
(src/dkim/sign.rs lines 281-299), emitted only when the value is
positive. -/
def emitNum (nl tag : List Nat) (value bw : Nat) : List Nat × Nat :=
  if value = 0 then ([], bw)
  else
    let ds := natDigits value
    let sep := if bw + 1 + tag.length + ds.length ≥ 76 then nl else [32]
    let bw2 := if bw + 1 + tag.length + ds.length ≥ 76 then 1 else bw + 2
    ([59] ++ sep ++ tag ++ ds, bw2 + tag.length + ds.length)

/-- The `bh=`/`b=` byte loops of `Signature::write`
(src/dkim/sign.rs lines 301-310). -/
def emitB64 (nl : List Nat) : List Nat → Nat → List Nat × Nat
  | [], bw => ([], bw)
  | c :: rest, bw =>
    let fold := if bw + 1 ≥ 76 then nl else []
    let bw2 := if bw + 1 ≥ 76 then 1 else bw + 1
    let next := emitB64 nl rest bw2
    (c :: (fold ++ next.1), next.2)

/-- `Signature::write` (src/dkim/sign.rs lines 217-317). -/
def Signature.write (sig : Signature) (asHeader : Bool) : List Nat :=
  let nl := nlOf sig.ch asHeader
  let hP := emitH nl sig.h true 1
  let iP := emitI nl sig.i hP.2
  let tP := emitNum nl (bytes ("t=")) sig.t iP.2
  let xP := emitNum nl (bytes ("x=")) sig.x tP.2
  let lP := emitNum nl (bytes ("l=")) sig.l xP.2
  let bhP := emitB64 nl sig.bh (lP.2 + 5)
  let bP := emitB64 nl sig.b (bhP.2 + 4)
  hdrName sig.ch asHeader ++ bytes ("v=1; a=") ++ algName sig.a ++
    bytes ("; s=") ++ sig.s ++ bytes ("; d=") ++ sig.d ++
    bytes ("; c=") ++ canonName sig.ch ++ [47] ++ canonName sig.cb ++ [59] ++ nl ++
    hP.1 ++ iP.1 ++ tP.1 ++ xP.1 ++ lP.1 ++
    bytes ("; bh=") ++ bhP.1 ++ bytes ("; b=") ++ bP.1 ++ [59] ++
    (if asHeader then [13, 10] else [])

/-- `ys` is `xs` with copies of the continuation sequence `nl` inserted
at some positions — the folding `Signature::write` performs. -/
inductive Folded (nl : List Nat) : List Nat → List Nat → Prop where
  | nil : Folded nl [] []
  | cons (c : Nat) {xs ys : List Nat} : Folded nl xs ys → Folded nl (c :: xs) (c :: ys)
  | fold {xs ys : List Nat} : Folded nl xs ys → Folded nl xs (nl ++ ys)

/-! ## Signing (`dkim/sign.rs`, `DKIMSigner::sign` / `sign_`) -/

/-- The signature assembly of `DKIMSigner::sign_`
(src/dkim/sign.rs lines 159-212), with the outputs of the
canonicalization pass (`body_len`, `signed_headers`, the body digest) and
the raw signature bytes passed as parameters, since body hashing lives in
`dkim/canonicalize.rs` (not under src/) and the RSA/Ed25519 primitives
are external crates; `keyPresent` reflects the `PrivateKey::None` check.
`sign` (lines 141-156) first rejects an empty domain or selector with
`MissingParameters`.  The `u64` additions wrap in 64 bits. -/
def signSig (a : Algorithm) (ch cb : Canonicalization) (d s i : List Nat)
    (x : Nat) (lFlag keyPresent : Bool) (now bodyLen : Nat)
    (signedHeaders : List (List Nat)) (bodyDigest sigBytes : List Nat) :
    Except Error Signature :=
  if d = [] ∨ s = [] then .error .MissingParameters
  else if signedHeaders = [] then .error .NoHeadersFound
  else if keyPresent = false then .error .MissingParameters
  else .ok
    { v := 1, a := a, d := d, s := s, i := i
      b := base64Encode sigBytes, bh := base64Encode bodyDigest
      h := signedHeaders, z := []
      t := now
      x := if 0 < x then (now + x) % 2 ^ 64 else 0
      l := if lFlag then bodyLen else 0
      ch := ch, cb := cb }

/-- Little-endian numeric value of ASCII digit bytes (proof helper for
the decimal round-trip). -/
def lvDigits : List Nat → Nat
  | [] => 0
  | d :: r => (d - 48) + 10 * lvDigits r

/-- Decimal accumulation over digit bytes without any wrap (proof
helper). -/
def pvDigits (acc : Nat) (ds : List Nat) : Nat :=
  ds.foldl (fun a c => a * 10 + (c - 48)) acc

/-- Decimal accumulation with the 64-bit wrap of `number()`, generalized
from `digitsVal` to a running accumulator (proof helper). -/
def accDigits (acc : Nat) (ds : List Nat) : Nat :=
  ds.foldl (fun a c => (a * 10 + (c - 48)) % 2 ^ 64) acc

/-! ## Theorems -/

theorem bytes_test : bytes ("ab:") = [97, 98, 58] := by decide

theorem iterRun_test1 :
    iterRun (bytes ("From: a\nTo: b\nEmpty:\nMulti: 1\n 2\nSubject: c\n\nNot-header: ignore\n")) =
      ([(bytes ("From"), bytes (" a\n")),
        (bytes ("To"), bytes (" b\n")),
        (bytes ("Empty"), bytes ("\n")),
        (bytes ("Multi"), bytes (" 1\n 2\n")),
        (bytes ("Subject"), bytes (" c\n"))], 44, 45) := by decide

theorem iterRun_test2 :
    (iterRun (bytes (": a\nTo: b\n \n \nc\n:\nFrom : d\nSubject: e\n\nNot-header: ignore\n"))).1 =
      [(bytes (""), bytes (" a\n")),
       (bytes ("To"), bytes (" b\n \n \n")),
       (bytes ("c\n"), bytes ("")),
       (bytes (""), bytes ("\n")),
       (bytes ("From "), bytes (" d\n")),
       (bytes ("Subject"), bytes (" e\n"))] := by decide

theorem iterRun_test3 :
    (iterRun (bytes ("A: X\r\nB : Y\t\r\n\tZ  \r\n\r\n C \r\nD \t E\r\n"))).1 =
      [(bytes ("A"), bytes (" X\r\n")),
       (bytes ("B "), bytes (" Y\t\r\n\tZ  \r\n"))] := by decide

theorem iterStep_sound (hdr : List Nat) (r : List Nat) :
    ∀ (off : Nat) (cOpt : Option Nat) (lastCh : Nat),
      r = hdr.drop off →
      (∀ c, cOpt = some c → c < off ∧ hdr[c]? = some 58) →
      (∀ n v k, iterStep hdr r off cOpt lastCh = .yieldH n v k →
          renderPair (n, v) = hdr.take k ∧ 0 < k ∧ k ≤ hdr.length) ∧
      (∀ k, iterStep hdr r off cOpt lastCh = .endOfHeaders k →
          0 < k ∧ k ≤ hdr.length) := by
  induction r with
  | nil =>
    intro off cOpt lastCh hr hc
    refine ⟨fun n v k h => ?_, fun k h => ?_⟩ <;>
      rcases cOpt with _ | c <;> simp [iterStep] at h
  | cons ch r ih =>
    intro off cOpt lastCh hr hc
    have hlen : off < hdr.length := by
      have h1 : (hdr.drop off).length = hdr.length - off := List.length_drop _ _
      rw [← hr] at h1
      simp at h1
      omega
    have hget : hdr[off]? = some ch := by
      have : (hdr.drop off)[0]? = hdr[off + 0]? := List.getElem?_drop hdr off 0
      rw [← hr] at this
      simpa using this.symm
    have hr' : r = hdr.drop (off + 1) := by
      have : hdr.drop (off + 1) = (hdr.drop off).drop 1 := by
        rw [← List.drop_drop]
      rw [this, ← hr]
      rfl
    rcases cOpt with _ | c
    · -- colon not yet found
      by_cases h58 : ch = 58
      · subst h58
        have step : iterStep hdr (58 :: r) off none lastCh =
            iterStep hdr r (off + 1) (some off) 58 := by
          simp [iterStep]
        rw [step]
        exact ih (off + 1) (some off) 58 hr'
          (fun c hc' => by cases hc'; exact ⟨Nat.lt_succ_self _, hget⟩)
      · by_cases h10 : ch = 10
        · subst h10
          by_cases hEnd : lastCh = 13 ∨ off = 0
          · have step : iterStep hdr (10 :: r) off none lastCh =
                .endOfHeaders (off + 1) := by
              simp [iterStep, h58, hEnd]
            refine ⟨fun n v k h => ?_, fun k h => ?_⟩ <;> rw [step] at h <;>
              cases h
            exact ⟨Nat.succ_pos _, hlen⟩
          · by_cases hW : headIsWsp r
            · have step : iterStep hdr (10 :: r) off none lastCh =
                  iterStep hdr r (off + 1) none 10 := by
                simp [iterStep, hEnd, hW]
              rw [step]
              exact ih (off + 1) none 10 hr' (fun c hc' => by cases hc')
            · have step : iterStep hdr (10 :: r) off none lastCh =
                  .yieldH (hdr.take (off + 1)) [] (off + 1) := by
                simp [iterStep, hEnd, hW]
              refine ⟨fun n v k h => ?_, fun k h => ?_⟩ <;> rw [step] at h <;>
                cases h
              exact ⟨by simp [renderPair], Nat.succ_pos _, hlen⟩
        · have step : iterStep hdr (ch :: r) off none lastCh =
              iterStep hdr r (off + 1) none ch := by
            simp [iterStep, h58, h10]
          rw [step]
          exact ih (off + 1) none ch hr' (fun c hc' => by cases hc')
    · -- colon found at c
      obtain ⟨hclt, hcget⟩ := hc c rfl
      by_cases hY : ch = 10 ∧ ¬ headIsWsp r
      · have step : iterStep hdr (ch :: r) off (some c) lastCh =
            .yieldH (hdr.take c) ((hdr.drop (c + 1)).take (off - c)) (off + 1) := by
          simp [iterStep, hY]
        refine ⟨fun n v k h => ?_, fun k h => ?_⟩ <;> rw [step] at h <;> cases h
        have hvne : (hdr.drop (c + 1)).take (off - c) ≠ [] := by
          have h1 : ((hdr.drop (c + 1)).take (off - c)).length =
              min (off - c) (hdr.length - (c + 1)) := by
            simp [List.length_take, List.length_drop]
          intro hcon
          rw [hcon] at h1
          simp at h1
          omega
        have hc58 : hdr[c] = 58 := by
          obtain ⟨hlt, he⟩ := List.getElem?_eq_some.mp hcget
          exact he
        constructor
        · show renderPair _ = _
          rw [renderPair]
          simp only [hvne, if_false]
          have hsplit : hdr.take (off + 1) =
              hdr.take c ++ (hdr.drop c).take (off + 1 - c) := by
            rw [← List.take_add]
            congr 1
            omega
          rw [hsplit]
          have hdropc : hdr.drop c = 58 :: hdr.drop (c + 1) := by
            rw [List.drop_eq_getElem_cons (by omega : c < hdr.length), hc58]
          rw [hdropc]
          have : off + 1 - c = (off - c) + 1 := by omega
          rw [this, List.take_succ_cons]
        · exact ⟨Nat.succ_pos _, hlen⟩
      · have step : iterStep hdr (ch :: r) off (some c) lastCh =
            iterStep hdr r (off + 1) (some c) ch := by
          simp only [iterStep]
          rw [if_neg hY]
        rw [step]
        exact ih (off + 1) (some c) ch hr'
          (fun c' hc' => by cases hc'; exact ⟨by omega, hcget⟩)

theorem iterRunAux_sound (msg : List Nat) :
    ∀ (fuel pos : Nat), msg.length - pos < fuel → pos ≤ msg.length →
      ((iterRunAux msg fuel pos).1.map renderPair).flatten =
          (msg.drop pos).take ((iterRunAux msg fuel pos).2.1 - pos) ∧
        pos ≤ (iterRunAux msg fuel pos).2.1 ∧
        (iterRunAux msg fuel pos).2.1 ≤ (iterRunAux msg fuel pos).2.2 ∧
        (iterRunAux msg fuel pos).2.2 ≤ msg.length := by
  intro fuel
  induction fuel with
  | zero => intro pos h; omega
  | succ fuel ih =>
    intro pos hfuel hpos
    have hstep := iterStep_sound (msg.drop pos) (msg.drop pos) 0 none 0 rfl
      (fun c hc => by cases hc)
    rcases hmatch : iterNext msg pos with ⟨n, v, k⟩ | ⟨k⟩ | _
    · -- yieldH
      obtain ⟨hrender, hkpos, hkle⟩ := hstep.1 n v k hmatch
      have hkle' : k ≤ msg.length - pos := by
        simpa [List.length_drop] using hkle
      have h1 : iterRunAux msg (fuel + 1) pos =
          ((n, v) :: (iterRunAux msg fuel (pos + k)).1,
            (iterRunAux msg fuel (pos + k)).2) := by
        simp [iterRunAux, hmatch]
      obtain ⟨hjoin, hple, hhe, hfp⟩ := ih (pos + k) (by omega) (by omega)
      rw [h1]
      have hdd : msg.drop (pos + k) = (msg.drop pos).drop k := by
        rw [List.drop_drop]
      refine ⟨?_, by dsimp only; omega, by dsimp only; exact hhe,
        by dsimp only; exact hfp⟩
      dsimp only
      rw [List.map_cons, List.flatten_cons, hrender, hjoin, hdd, ← List.take_add]
      congr 1
      omega
    · -- endOfHeaders
      obtain ⟨hkpos, hkle⟩ := hstep.2 k hmatch
      have hkle' : k ≤ msg.length - pos := by
        simpa [List.length_drop] using hkle
      have h1 : iterRunAux msg (fuel + 1) pos = ([], pos, pos + k) := by
        simp [iterRunAux, hmatch]
      rw [h1]
      refine ⟨by simp, ?_, ?_, ?_⟩ <;> dsimp only <;> omega
    · -- eof
      have h1 : iterRunAux msg (fuel + 1) pos = ([], pos, msg.length) := by
        simp [iterRunAux, hmatch]
      rw [h1]
      refine ⟨by simp, ?_, ?_, ?_⟩ <;> dsimp only <;> omega

theorem iterRun_sound (msg : List Nat) :
    ((iterRun msg).1.map renderPair).flatten = msg.take (iterRun msg).2.1 ∧
      (iterRun msg).2.1 ≤ (iterRun msg).2.2 ∧ (iterRun msg).2.2 ≤ msg.length := by
  have h := iterRunAux_sound msg (msg.length + 1) 0 (by omega) (by omega)
  simpa [iterRun] using h

theorem bodyOffset_eq (msg : List Nat) :
    bodyOffset msg = if (iterRun msg).2.2 < msg.length
      then some (iterRun msg).2.2 else none := by
  obtain ⟨hjoin, hle, hfp⟩ := iterRun_sound msg
  rw [bodyOffset]
  by_cases h : (iterRun msg).2.2 < msg.length
  · have : (msg.drop (iterRun msg).2.2) ≠ [] := by
      intro hcon
      have := List.drop_eq_nil_iff.mp hcon
      omega
    rcases hh : (msg.drop (iterRun msg).2.2).head? with _ | c
    · exact absurd (List.head?_eq_none_iff.mp hh) this
    · simp [hh, h]
  · have hnil : msg.drop (iterRun msg).2.2 = [] := by
      apply List.drop_eq_nil_of_le
      omega
    simp [hnil, h]

/-- C2, as stated, is false: for `"a:b\n\nz"` the splitter yields
`("a", "b\n")` and body `"z"`, so the claimed concatenation drops the `':'`
and the blank line. -/
theorem c2_counterexample :
    c2Concat (bytes ("a:b\n\nz")) ≠ bytes ("a:b\n\nz") := by decide

/-- C2 (amended): re-inserting the `':'` after each well-formed header name
(malformed headers, recognizable by their empty value, were yielded whole),
then appending the bytes of the header-terminator region (between the end
of the last header and the final cursor position) and the bytes from the
final cursor position, reproduces the message byte-for-byte; the body
offset is the final cursor position whenever any byte remains. -/
theorem c2_amended (msg : List Nat) :
    ((iterRun msg).1.map renderPair).flatten ++
        ((msg.drop (iterRun msg).2.1).take ((iterRun msg).2.2 - (iterRun msg).2.1)) ++
        msg.drop (iterRun msg).2.2 = msg ∧
      (bodyOffset msg = if (iterRun msg).2.2 < msg.length
        then some (iterRun msg).2.2 else none) := by
  obtain ⟨hjoin, hle, hfp⟩ := iterRun_sound msg
  constructor
  · rw [hjoin]
    have h1 : (msg.drop (iterRun msg).2.1).take ((iterRun msg).2.2 - (iterRun msg).2.1) ++
        msg.drop (iterRun msg).2.2 = msg.drop (iterRun msg).2.1 := by
      have h2 : msg.drop (iterRun msg).2.2 =
          (msg.drop (iterRun msg).2.1).drop ((iterRun msg).2.2 - (iterRun msg).2.1) := by
        rw [List.drop_drop]
        congr 1
        omega
      rw [h2, List.take_append_drop]
    rw [List.append_assoc, h1, List.take_append_drop]
  · exact bodyOffset_eq msg

set_option maxRecDepth 40000 in
theorem parserRun_test :
    clsList (bytes ("ARC-Message-Signature: i=1; a=rsa-sha256;\nARC-Authentication-Results: i=1;\nARC-Seal: i=1; a=rsa-sha256;\nDKIM-Signature: v=1; a=rsa-sha256; c=relaxed/simple;\nFrom: jdoe@domain\nF r o m : jane@domain.com\nARC-Authentication: i=1;\n\nhey")) =
      [.Ams, .Aar, .As, .Ds, .From, .From, .Other] := by decide

/-- C10: once the splitter is exhausted, `body_offset` returns `some i`
with `i` the final cursor position — the index of the first unconsumed
byte, which then exists — and returns `none` exactly when no byte
remains; in particular it is `none` both for a message ending without a
blank line and for a message whose body after the blank line is empty. -/
theorem c10_body_offset (msg : List Nat) :
    (bodyOffset msg = none ↔ msg.drop (iterRun msg).2.2 = []) ∧
      (∀ i, bodyOffset msg = some i →
        i = (iterRun msg).2.2 ∧ i < msg.length ∧ msg.drop i ≠ []) ∧
      bodyOffset (bytes ("A: B")) = none ∧
      bodyOffset (bytes ("A: B\r\n\r\n")) = none ∧
      bodyOffset (bytes ("A: B\r\n\r\nx")) = some 8 := by
  obtain ⟨hjoin, hle, hfp⟩ := iterRun_sound msg
  rw [bodyOffset_eq]
  refine ⟨?_, ?_, by decide, by decide, by decide⟩
  · by_cases h : (iterRun msg).2.2 < msg.length
    · simp only [h, if_true]
      constructor
      · intro hcon
        cases hcon
      · intro hcon
        have := List.drop_eq_nil_iff.mp hcon
        omega
    · simp only [h, if_false]
      have hnil : msg.drop (iterRun msg).2.2 = [] := by
        apply List.drop_eq_nil_of_le
        omega
      simp [hnil]
  · intro i hi
    by_cases h : (iterRun msg).2.2 < msg.length
    · simp only [h, if_true] at hi
      cases hi
      refine ⟨rfl, h, ?_⟩
      intro hcon
      have := List.drop_eq_nil_iff.mp hcon
      omega
    · simp only [h, if_false] at hi
      cases hi

theorem c10_witness :
    8 = (iterRun (bytes ("A: B\r\n\r\nx"))).2.2 ∧
      8 < (bytes ("A: B\r\n\r\nx")).length ∧
      (bytes ("A: B\r\n\r\nx")).drop 8 ≠ [] :=
  (c10_body_offset (bytes ("A: B\r\n\r\nx"))).2.1 8 (by decide)

/-! ### Parser/iterator refinement (claim C8) -/

theorem parserStep_toPlain (hdr : List Nat) (r : List Nat) :
    ∀ (off : Nat) (cOpt : Option Nat) (lastCh : Nat) (st : HState),
      (parserStep hdr r off cOpt lastCh st).toPlain = iterStep hdr r off cOpt lastCh := by
  induction r with
  | nil =>
    intro off cOpt lastCh st
    rcases cOpt with _ | c <;> simp [parserStep, iterStep, PHeaderStep.toPlain]
  | cons ch r ih =>
    intro off cOpt lastCh st
    rcases cOpt with _ | c
    · simp only [parserStep, iterStep]
      split_ifs <;> first | rfl | exact ih _ _ _ _
    · simp only [parserStep, iterStep]
      split_ifs <;> first | rfl | exact ih _ _ _ _

theorem parserRunAux_eq (msg : List Nat) :
    ∀ (fuel pos : Nat),
      (parserRunAux msg fuel pos).1.map (fun p => (p.1.2, p.2)) =
          (iterRunAux msg fuel pos).1 ∧
        (parserRunAux msg fuel pos).2 = (iterRunAux msg fuel pos).2 := by
  intro fuel
  induction fuel with
  | zero => intro pos; simp [parserRunAux, iterRunAux]
  | succ fuel ih =>
    intro pos
    have hstep : (parserNext msg pos).toPlain = iterNext msg pos :=
      parserStep_toPlain (msg.drop pos) (msg.drop pos) 0 none 0 initH
    rcases hmatch : parserNext msg pos with ⟨cls, n, v, k⟩ | ⟨k⟩ | _ <;>
      rw [hmatch] at hstep
    · have hi : iterNext msg pos = .yieldH n v k := by
        rw [← hstep]
        rfl
      have h1 : parserRunAux msg (fuel + 1) pos =
          (((cls, n), v) :: (parserRunAux msg fuel (pos + k)).1,
            (parserRunAux msg fuel (pos + k)).2) := by
        simp [parserRunAux, hmatch]
      have h2 : iterRunAux msg (fuel + 1) pos =
          ((n, v) :: (iterRunAux msg fuel (pos + k)).1,
            (iterRunAux msg fuel (pos + k)).2) := by
        simp [iterRunAux, hi]
      rw [h1, h2]
      obtain ⟨e1, e2⟩ := ih (pos + k)
      exact ⟨by simpa using e1, e2⟩
    · have hi : iterNext msg pos = .endOfHeaders k := by
        rw [← hstep]
        rfl
      simp [parserRunAux, iterRunAux, hmatch, hi]
    · have hi : iterNext msg pos = .eof := by
        rw [← hstep]
        rfl
      simp [parserRunAux, iterRunAux, hmatch, hi]

/-- C8: on every input, `HeaderParser` yields exactly the `(name, value)`
pairs of `HeaderIterator` — same slices, same count, same end-of-headers
and final positions, same body offset — differing only in the attached
classification variant. -/
theorem c8_parser_refines_iterator (msg : List Nat) :
    (parserRun msg).1.map (fun p => (p.1.2, p.2)) = (iterRun msg).1 ∧
      (parserRun msg).1.length = (iterRun msg).1.length ∧
      (parserRun msg).2 = (iterRun msg).2 ∧
      parserBodyOffset msg = bodyOffset msg := by
  obtain ⟨e1, e2⟩ := parserRunAux_eq msg (msg.length + 1) 0
  refine ⟨e1, ?_, e2, ?_⟩
  · have := congrArg List.length e1
    simpa using this
  · rw [parserBodyOffset, bodyOffset]
    have : (parserRun msg).2.2 = (iterRun msg).2.2 := by
      rw [parserRun, iterRun, e2]
    rw [this]

/-! ### Classifier stability (claim C6) -/

theorem lowerB_cases (a b : Nat) (h : lowerB a = lowerB b) :
    b = a ∨ (65 ≤ a ∧ a ≤ 90 ∧ b = a + 32) ∨ (65 ≤ b ∧ b ≤ 90 ∧ a = b + 32) := by
  unfold lowerB at h
  split_ifs at h <;> omega

theorem caseEq_eq_iff (a b k : Nat) (h : lowerB a = lowerB b)
    (hk : k < 65 ∨ (90 < k ∧ k < 97) ∨ 122 < k) : a = k ↔ b = k := by
  unfold lowerB at h
  split_ifs at h <;> omega

theorem stUpd_caseEq (st : HState) (off a b : Nat) (h : lowerB a = lowerB b) :
    stUpd st a off = stUpd st b off := by
  rcases lowerB_cases a b h with rfl | ⟨h1, h2, rfl⟩ | ⟨h1, h2, rfl⟩
  · rfl
  · unfold stUpd
    split_ifs <;> first | rfl | (exfalso; omega)
  · unfold stUpd
    split_ifs <;> first | rfl | (exfalso; omega)

theorem headIsWsp_caseEq {r1 r2 : List Nat} (h : List.Forall₂ caseEq r1 r2) :
    headIsWsp r1 = headIsWsp r2 := by
  cases h with
  | nil => rfl
  | cons hab _ =>
    simp only [headIsWsp]
    congr 1 <;> rw [decide_eq_decide]
    · exact caseEq_eq_iff _ _ 32 hab (by omega)
    · exact caseEq_eq_iff _ _ 9 hab (by omega)

theorem eqIC_caseEq {x y : List Nat} (h : List.Forall₂ caseEq x y) :
    ∀ l, eqIC x l = eqIC y l := by
  induction h with
  | nil => intro l; rfl
  | cons hab ht ih =>
    intro l
    cases l with
    | nil => rfl
    | cons c ls =>
      simp only [eqIC]
      rw [ih ls]
      congr 1
      rw [decide_eq_decide, hab]

theorem tailOf_caseEq {h1 h2 : List Nat} (hh : List.Forall₂ caseEq h1 h2)
    (st : HState) : List.Forall₂ caseEq (tailOf h1 st) (tailOf h2 st) := by
  have hlen := hh.length_eq
  rcases hts : st.ts with _ | a <;> rcases hte : st.te with _ | b <;>
    simp only [tailOf, hts, hte] <;> try exact List.Forall₂.nil
  unfold sliceGet
  by_cases hc : a + 8 ≤ b + 1 ∧ b + 1 ≤ h1.length
  · rw [if_pos hc, if_pos (by omega)]
    exact List.forall₂_take _ (List.forall₂_drop _ hh)
  · rw [if_neg hc, if_neg (by omega)]
    exact List.Forall₂.nil

theorem classifyAt_caseEq {h1 h2 : List Nat} (hh : List.Forall₂ caseEq h1 h2)
    (st : HState) : classifyAt h1 st = classifyAt h2 st := by
  unfold classifyAt
  rw [eqIC_caseEq (tailOf_caseEq hh st) (bytes ("entication-Results")),
    eqIC_caseEq (tailOf_caseEq hh st) (bytes ("age-Signature")),
    eqIC_caseEq (tailOf_caseEq hh st) (bytes ("nature"))]

theorem parserStep_caseEq (hdr1 hdr2 : List Nat)
    (hh : List.Forall₂ caseEq hdr1 hdr2) {r1 r2 : List Nat}
    (hr : List.Forall₂ caseEq r1 r2) :
    ∀ (off : Nat) (cOpt : Option Nat) (l1 l2 : Nat), lowerB l1 = lowerB l2 →
      ∀ (st : HState),
        stepMatch (parserStep hdr1 r1 off cOpt l1 st)
          (parserStep hdr2 r2 off cOpt l2 st) := by
  induction hr with
  | nil =>
    intro off cOpt l1 l2 hl st
    rcases cOpt with _ | c <;> exact trivial
  | @cons a b t1 t2 hab ht ih =>
    intro off cOpt l1 l2 hl st
    rcases cOpt with _ | c
    · by_cases h58 : a = 58
      · have h58b : b = 58 := (caseEq_eq_iff a b 58 hab (by omega)).mp h58
        subst h58 h58b
        have e1 : parserStep hdr1 (58 :: t1) off none l1 st =
            parserStep hdr1 t1 (off + 1) (some off) 58 st := by
          simp [parserStep]
        have e2 : parserStep hdr2 (58 :: t2) off none l2 st =
            parserStep hdr2 t2 (off + 1) (some off) 58 st := by
          simp [parserStep]
        rw [e1, e2]
        exact ih (off + 1) (some off) 58 58 rfl st
      · have h58b : ¬ b = 58 := fun hb =>
          h58 ((caseEq_eq_iff a b 58 hab (by omega)).mpr hb)
        by_cases h10 : a = 10
        · have h10b : b = 10 := (caseEq_eq_iff a b 10 hab (by omega)).mp h10
          subst h10 h10b
          by_cases hEnd : l1 = 13 ∨ off = 0
          · have hEnd2 : l2 = 13 ∨ off = 0 := by
              rcases hEnd with h | h
              · exact Or.inl ((caseEq_eq_iff l1 l2 13 hl (by omega)).mp h)
              · exact Or.inr h
            have e1 : parserStep hdr1 (10 :: t1) off none l1 st =
                .endOfHeaders (off + 1) := by
              simp [parserStep, hEnd]
            have e2 : parserStep hdr2 (10 :: t2) off none l2 st =
                .endOfHeaders (off + 1) := by
              simp [parserStep, hEnd2]
            rw [e1, e2]
            exact rfl
          · have hEnd2 : ¬ (l2 = 13 ∨ off = 0) := by
              intro hcon
              apply hEnd
              rcases hcon with h | h
              · exact Or.inl ((caseEq_eq_iff l1 l2 13 hl (by omega)).mpr h)
              · exact Or.inr h
            have hw := headIsWsp_caseEq ht
            by_cases hW : headIsWsp t1
            · have hW2 : headIsWsp t2 := by rw [← hw]; exact hW
              have e1 : parserStep hdr1 (10 :: t1) off none l1 st =
                  parserStep hdr1 t1 (off + 1) none 10 st := by
                simp [parserStep, hEnd, hW]
              have e2 : parserStep hdr2 (10 :: t2) off none l2 st =
                  parserStep hdr2 t2 (off + 1) none 10 st := by
                simp [parserStep, hEnd2, hW2]
              rw [e1, e2]
              exact ih (off + 1) none 10 10 rfl st
            · have hW2 : ¬ headIsWsp t2 = true := by rw [← hw]; exact hW
              have e1 : parserStep hdr1 (10 :: t1) off none l1 st =
                  .yieldH .Other (hdr1.take (off + 1)) [] (off + 1) := by
                simp [parserStep, hEnd, hW]
              have e2 : parserStep hdr2 (10 :: t2) off none l2 st =
                  .yieldH .Other (hdr2.take (off + 1)) [] (off + 1) := by
                simp [parserStep, hEnd2, hW2]
              rw [e1, e2]
              exact ⟨rfl, rfl⟩
        · have h10b : ¬ b = 10 := fun hb =>
            h10 ((caseEq_eq_iff a b 10 hab (by omega)).mpr hb)
          have e1 : parserStep hdr1 (a :: t1) off none l1 st =
              parserStep hdr1 t1 (off + 1) none a (stUpd st a off) := by
            simp [parserStep, h58, h10]
          have e2 : parserStep hdr2 (b :: t2) off none l2 st =
              parserStep hdr2 t2 (off + 1) none b (stUpd st b off) := by
            simp [parserStep, h58b, h10b]
          rw [e1, e2, stUpd_caseEq st off a b hab]
          exact ih (off + 1) none a b hab (stUpd st b off)
    · have hw := headIsWsp_caseEq ht
      by_cases hY : a = 10 ∧ ¬ headIsWsp t1
      · have hY2 : b = 10 ∧ ¬ headIsWsp t2 = true := by
          refine ⟨(caseEq_eq_iff a b 10 hab (by omega)).mp hY.1, ?_⟩
          rw [← hw]
          exact hY.2
        have e1 : parserStep hdr1 (a :: t1) off (some c) l1 st =
            .yieldH (classifyAt hdr1 st) (hdr1.take c)
              ((hdr1.drop (c + 1)).take (off - c)) (off + 1) := by
          simp [parserStep, hY]
        have e2 : parserStep hdr2 (b :: t2) off (some c) l2 st =
            .yieldH (classifyAt hdr2 st) (hdr2.take c)
              ((hdr2.drop (c + 1)).take (off - c)) (off + 1) := by
          simp [parserStep, hY2]
        rw [e1, e2]
        exact ⟨classifyAt_caseEq hh st, rfl⟩
      · have hY2 : ¬ (b = 10 ∧ ¬ headIsWsp t2 = true) := by
          intro hcon
          apply hY
          refine ⟨(caseEq_eq_iff a b 10 hab (by omega)).mpr hcon.1, ?_⟩
          rw [hw]
          exact hcon.2
        have e1 : parserStep hdr1 (a :: t1) off (some c) l1 st =
            parserStep hdr1 t1 (off + 1) (some c) a st := by
          simp only [parserStep]
          rw [if_neg hY]
        have e2 : parserStep hdr2 (b :: t2) off (some c) l2 st =
            parserStep hdr2 t2 (off + 1) (some c) b st := by
          simp only [parserStep]
          rw [if_neg hY2]
        rw [e1, e2]
        exact ih (off + 1) (some c) a b hab st

theorem parserRunAux_caseEq {m1 m2 : List Nat} (hm : List.Forall₂ caseEq m1 m2) :
    ∀ (fuel pos : Nat),
      (parserRunAux m1 fuel pos).1.map (fun p => p.1.1) =
          (parserRunAux m2 fuel pos).1.map (fun p => p.1.1) ∧
        (parserRunAux m1 fuel pos).2 = (parserRunAux m2 fuel pos).2 := by
  intro fuel
  induction fuel with
  | zero => intro pos; exact ⟨rfl, rfl⟩
  | succ fuel ih =>
    intro pos
    have hdrop : List.Forall₂ caseEq (m1.drop pos) (m2.drop pos) :=
      List.forall₂_drop pos hm
    have hsm : stepMatch (parserNext m1 pos) (parserNext m2 pos) :=
      parserStep_caseEq _ _ hdrop hdrop 0 none 0 0 rfl initH
    rcases e1 : parserNext m1 pos with ⟨c1, n1, v1, k1⟩ | ⟨k1⟩ | _ <;>
      rcases e2 : parserNext m2 pos with ⟨c2, n2, v2, k2⟩ | ⟨k2⟩ | _ <;>
      rw [e1, e2] at hsm <;> try exact hsm.elim
    · obtain ⟨hc, hk⟩ := hsm
      subst hc hk
      have g1 : parserRunAux m1 (fuel + 1) pos =
          (((c1, n1), v1) :: (parserRunAux m1 fuel (pos + k1)).1,
            (parserRunAux m1 fuel (pos + k1)).2) := by
        simp [parserRunAux, e1]
      have g2 : parserRunAux m2 (fuel + 1) pos =
          (((c1, n2), v2) :: (parserRunAux m2 fuel (pos + k1)).1,
            (parserRunAux m2 fuel (pos + k1)).2) := by
        simp [parserRunAux, e2]
      rw [g1, g2]
      obtain ⟨i1, i2⟩ := ih (pos + k1)
      exact ⟨by simp [i1], i2⟩
    · subst hsm
      have g1 : parserRunAux m1 (fuel + 1) pos = ([], pos, pos + k1) := by
        simp [parserRunAux, e1]
      have g2 : parserRunAux m2 (fuel + 1) pos = ([], pos, pos + k1) := by
        simp [parserRunAux, e2]
      rw [g1, g2]
      exact ⟨rfl, rfl⟩
    · have g1 : parserRunAux m1 (fuel + 1) pos = ([], pos, m1.length) := by
        simp [parserRunAux, e1]
      have g2 : parserRunAux m2 (fuel + 1) pos = ([], pos, m2.length) := by
        simp [parserRunAux, e2]
      rw [g1, g2, hm.length_eq]
      exact ⟨rfl, rfl⟩

theorem stUpd_hash (st : HState) (ch off : Nat)
    (hws : ¬ (ch = 32 ∨ ch = 9 ∨ ch = 13)) :
    ((stUpd st ch off).hash, (stUpd st ch off).shift) =
      hashStep (st.hash, st.shift) ch := by
  unfold stUpd hashStep
  split_ifs <;> first | rfl | (exfalso; omega)

theorem nameScan_hash (nm : List Nat) :
    ∀ (off : Nat) (st : HState),
      ((nameScanAux nm off st).hash, (nameScanAux nm off st).shift) =
        (nm.filter (fun c => nonWsCR c && c ≠ 10)).foldl hashStep
          (st.hash, st.shift) := by
  induction nm with
  | nil => intro off st; rfl
  | cons ch t ih =>
    intro off st
    by_cases h10 : ch = 10
    · subst h10
      have e1 : nameScanAux (10 :: t) off st = nameScanAux t (off + 1) st := by
        simp [nameScanAux]
      have e2 : (10 :: t).filter (fun c => nonWsCR c && c ≠ 10) =
          t.filter (fun c => nonWsCR c && c ≠ 10) := by
        simp [List.filter_cons]
      rw [e1, e2]
      exact ih (off + 1) st
    · by_cases hws : ch = 32 ∨ ch = 9 ∨ ch = 13
      · have hupd : stUpd st ch off = st := by
          unfold stUpd
          rw [if_pos hws]
        have e1 : nameScanAux (ch :: t) off st = nameScanAux t (off + 1) st := by
          simp [nameScanAux, h10, hupd]
        have hn : nonWsCR ch = false := by
          simp [nonWsCR, hws]
        have e2 : (ch :: t).filter (fun c => nonWsCR c && c ≠ 10) =
            t.filter (fun c => nonWsCR c && c ≠ 10) := by
          simp [List.filter_cons, hn]
        rw [e1, e2]
        exact ih (off + 1) st
      · have e1 : nameScanAux (ch :: t) off st =
            nameScanAux t (off + 1) (stUpd st ch off) := by
          simp [nameScanAux, h10]
        have hn : nonWsCR ch = true := by
          simp [nonWsCR, hws]
        have e2 : (ch :: t).filter (fun c => nonWsCR c && c ≠ 10) =
            ch :: t.filter (fun c => nonWsCR c && c ≠ 10) := by
          simp [List.filter_cons, hn, h10]
        rw [e1, e2, List.foldl_cons, ← stUpd_hash st ch off hws]
        exact ih (off + 1) (stUpd st ch off)

theorem classifyAt_from_iff (hdr : List Nat) (st : HState) :
    classifyAt hdr st = .From ↔ st.hash = FROM := by
  unfold classifyAt
  split_ifs with g1 g2 g3 g4 g5
  · simp [g1]
  · exact Iff.intro (fun h => nomatch h) (fun hf => absurd (g2.symm.trans hf) (by decide))
  · exact Iff.intro (fun h => nomatch h) (fun hf => absurd (g3.1.symm.trans hf) (by decide))
  · exact Iff.intro (fun h => nomatch h) (fun hf => absurd (g4.1.symm.trans hf) (by decide))
  · exact Iff.intro (fun h => nomatch h) (fun hf => absurd (g5.1.symm.trans hf) (by decide))
  · exact Iff.intro (fun h => nomatch h) (fun hf => absurd hf g1)

/-- C6, as stated, is false: inserting a single space inside the name
`DKIM-Signature` demotes the classification from `Ds` to `Other`, because
the disambiguating tail comparison reads the raw (space-containing)
message bytes. -/
theorem c6_counterexample :
    clsList (bytes ("DKIM-Signature: x\n\n")) = [.Ds] ∧
      clsList (bytes ("DKIM-Si gnature: x\n\n")) = [.Other] := by
  constructor <;> decide

/-- C6 (amended): header classification is invariant under changing the
ASCII letter case of any message byte (in particular of the name); the
rolling hash — and with it a `From` classification — is further invariant
under inserting or removing space, tab, or CR bytes in the name, so
`F r o m` in any letter case still classifies as `From`; the same is not
true of the tail-checked variants DkimSig/ArcAuthRes/ArcMsgSig/ArcSeal,
which internal whitespace can demote to `Other`. -/
theorem c6_amended :
    (∀ m1 m2 : List Nat, List.Forall₂ caseEq m1 m2 → clsList m1 = clsList m2) ∧
      (∀ nm1 nm2 : List Nat, nm1.filter nonWsCR = nm2.filter nonWsCR →
        (classifyName nm1 = .From ↔ classifyName nm2 = .From)) ∧
      classifyName (bytes ("F r o m ")) = .From ∧
      clsList (bytes ("f R o M : x\n\n")) = [.From] := by
  refine ⟨?_, ?_, by decide, by decide⟩
  · intro m1 m2 hm
    have hlen := hm.length_eq
    have h := (parserRunAux_caseEq hm (m1.length + 1) 0).1
    rw [clsList, clsList, parserRun, parserRun, ← hlen]
    exact h
  · intro nm1 nm2 hfil
    have hfil2 : nm1.filter (fun c => nonWsCR c && c ≠ 10) =
        nm2.filter (fun c => nonWsCR c && c ≠ 10) := by
      have e : ∀ nm : List Nat, nm.filter (fun c => nonWsCR c && c ≠ 10) =
          (nm.filter nonWsCR).filter (fun c => c ≠ 10) := by
        intro nm
        rw [List.filter_filter]
        congr 1
        funext a
        exact Bool.and_comm _ _
      rw [e, e, hfil]
    have hpair : ((nameScanAux nm1 0 initH).hash, (nameScanAux nm1 0 initH).shift) =
        ((nameScanAux nm2 0 initH).hash, (nameScanAux nm2 0 initH).shift) := by
      rw [nameScan_hash nm1 0 initH, nameScan_hash nm2 0 initH, hfil2]
    have hhash : (nameScanAux nm1 0 initH).hash = (nameScanAux nm2 0 initH).hash :=
      congrArg Prod.fst hpair
    simp only [classifyName, classifyAt_from_iff, hhash]

theorem c6_witness :
    clsList (bytes ("From: a\n\n")) = clsList (bytes ("fROM: a\n\n")) ∧
      (classifyName (bytes ("From")) = .From ↔
        classifyName (bytes ("F r o m")) = .From) :=
  ⟨c6_amended.1 _ _ (by decide), c6_amended.2.1 _ _ (by decide)⟩

set_option maxRecDepth 100000 in
theorem sigParse_test3 :
    Signature.parse (bytes ("v=1; a = rsa - sha256; s = brisbane; d = example.com;  \r\nc = simple / relaxed; q=dns/txt; i = \r\n joe=20@\r\n football.example.com; \r\nh=Received : From : To :\r\n Subject : : Date : Message-ID::;;;; \r\nbh=2jUSOH9NhtVGCQWNr9BrIAPreKQjO6Sn7XIkfJVOzv8=; \r\nb=AuUoFEfDxTDkHlLXSZEpZj79LICEps6eda7W3deTVFOk4yAUoqOB \r\n4nujc7YopdG5dWLSdNg6xNAZpOPr+kHxt1IrE+NahM6L/LbvaHut \r\nKVdkLLkpVaVVQPzeRDI009SO2Il5Lu7rDNH6mZckBdrIx0orEtZV \r\n4bmp/YzhwvcubU4=; l = 123")) =
      .ok { v := 1, a := .RsaSha256, d := bytes ("example.com"),
            s := bytes ("brisbane"), i := bytes ("joe @football.example.com"),
            b := [2, 229, 40, 20, 71, 195, 197, 48, 228, 30, 82, 215, 73, 145, 41, 102, 62, 253, 44, 128, 132, 166, 206, 158, 117, 174, 214, 221, 215, 147, 84, 83, 164, 227, 32, 20, 162, 163, 129, 226, 123, 163, 115, 182, 40, 165, 209, 185, 117, 98, 210, 116, 216, 58, 196, 208, 25, 164, 227, 235, 250, 65, 241, 183, 82, 43, 19, 227, 90, 132, 206, 139, 252, 182, 239, 104, 123, 173, 41, 87, 100, 44, 185, 41, 85, 165, 85, 64, 252, 222, 68, 50, 52, 211, 212, 142, 216, 137, 121, 46, 238, 235, 12, 209, 250, 153, 151, 36, 5, 218, 200, 199, 74, 43, 18, 214, 85, 225, 185, 169, 253, 140, 225, 194, 247, 46, 109, 78],
            bh := [218, 53, 18, 56, 127, 77, 134, 213, 70, 9, 5, 141, 175, 208, 107, 32, 3, 235, 120, 164, 35, 59, 164, 167, 237, 114, 36, 124, 149, 78, 206, 255],
            h := [bytes ("Received"), bytes ("From"), bytes ("To"),
              bytes ("Subject"), bytes ("Date"), bytes ("Message-ID")],
            z := [], l := 123, x := 0, t := 0,
            ch := .Simple, cb := .Relaxed } := by decide

set_option maxRecDepth 40000 in
theorem recordParse_test :
    Record.parse (fun der => some der) (fun k => some k)
        (bytes ("v=DKIM1; k=rsa; p=AQAB ; t= y : s :yy:x;s=*:email;; h= sha1:sha 256:other;; n=ignore these notes ")) =
      .ok { v := .Dkim1, p := .Rsa [1, 0, 1],
            f := R_HASH_SHA1 ||| R_HASH_SHA256 ||| R_SVC_ALL ||| R_SVC_EMAIL |||
              R_FLAG_MATCH_DOMAIN ||| R_FLAG_TESTING } := by decide

/-! ### Canonicalization defaults (claim C5) -/

/-- C5: with no `c=` tag a parsed signature has `simple/simple`
canonicalization; a bare `c=relaxed` yields `(relaxed, simple)`;
`c=relaxed/simple` yields `(relaxed, simple)`; and in general the
canonicalization parser fills an omitted side with the supplied default:
a bare value sets the header side and leaves the body side at the
default, an empty value leaves both at the default. -/
theorem c5_canonicalization_defaults :
    ((Signature.parse (bytes ("v=1; d=x; s=y; b=QQ==; bh=QQ==; h=a"))).toOption.map
        (fun g => (g.ch, g.cb)) = some (.Simple, .Simple)) ∧
      ((Signature.parse (bytes ("v=1; c=relaxed; d=x; s=y; b=QQ==; bh=QQ==; h=a"))).toOption.map
        (fun g => (g.ch, g.cb)) = some (.Relaxed, .Simple)) ∧
      ((Signature.parse (bytes ("v=1; c=relaxed/simple; d=x; s=y; b=QQ==; bh=QQ==; h=a"))).toOption.map
        (fun g => (g.ch, g.cb)) = some (.Relaxed, .Simple)) ∧
      (∀ d : Canonicalization,
        canonicalization d (bytes ("relaxed")) = .ok ((.Relaxed, d), []) ∧
          canonicalization d (bytes ("simple")) = .ok ((.Simple, d), []) ∧
          canonicalization d (bytes ("relaxed/simple")) = .ok ((.Relaxed, .Simple), []) ∧
          canonicalization d (bytes ("simple/relaxed")) = .ok ((.Simple, .Relaxed), []) ∧
          canonicalization d (bytes ("")) = .ok ((d, d), [])) := by
  refine ⟨by decide, by decide, by decide, ?_⟩
  intro d
  cases d <;> exact ⟨rfl, rfl, rfl, rfl, rfl⟩

/-! ### Required parameters (claim C4) -/

/-- C4: `Signature::parse` returns `Ok` exactly when the tag loop
completes and the accumulated `d`, `s`, `b`, `bh`, `h` are all non-empty;
when the loop completes with any of them empty it returns
`MissingParameters` (and when the loop itself fails, that error is
propagated unchanged). -/
theorem c4_missing_parameters (s : List Nat) :
    (∀ sig, Signature.parse s = .ok sig ↔
        (parseSigLoop (s.length + 1) sigInit s = .ok sig ∧ sig.d ≠ [] ∧
          sig.s ≠ [] ∧ sig.b ≠ [] ∧ sig.bh ≠ [] ∧ sig.h ≠ [])) ∧
      (∀ sig, parseSigLoop (s.length + 1) sigInit s = .ok sig →
        ¬ (sig.d ≠ [] ∧ sig.s ≠ [] ∧ sig.b ≠ [] ∧ sig.bh ≠ [] ∧ sig.h ≠ []) →
        Signature.parse s = .error .MissingParameters) ∧
      (∀ e, parseSigLoop (s.length + 1) sigInit s = .error e →
        Signature.parse s = .error e) := by
  refine ⟨?_, ?_, ?_⟩
  · intro sig
    rw [Signature.parse]
    rcases hl : parseSigLoop (s.length + 1) sigInit s with e | sig0
    · dsimp only
      constructor
      · intro h
        cases h
      · rintro ⟨h, -⟩
        cases h
    · dsimp only
      by_cases hc : sigComplete sig0
      · rw [if_pos hc]
        constructor
        · intro h
          cases h
          refine ⟨rfl, ?_⟩
          simpa [sigComplete] using hc
        · rintro ⟨h, -⟩
          cases h
          rfl
      · rw [if_neg hc]
        constructor
        · intro h
          cases h
        · rintro ⟨h, hfields⟩
          cases h
          exact absurd (by simpa [sigComplete] using hfields) hc
  · intro sig hl hfields
    rw [Signature.parse, hl]
    dsimp only
    rw [if_neg (by simpa [sigComplete] using hfields)]
  · intro e hl
    rw [Signature.parse, hl]

theorem c4_witness :
    Signature.parse (bytes ("v=1; d=x; b=QQ==; bh=QQ==; h=a")) =
      .error .MissingParameters :=
  (c4_missing_parameters (bytes ("v=1; d=x; b=QQ==; bh=QQ==; h=a"))).2.1
    ((parseSigLoop ((bytes ("v=1; d=x; b=QQ==; bh=QQ==; h=a")).length + 1)
        sigInit (bytes ("v=1; d=x; b=QQ==; bh=QQ==; h=a"))).toOption.getD sigInit)
    (by decide) (by decide)

/-! ### Version tag (claim C3) -/

theorem parseSigTag_v (sig : Signature) (k r : List Nat) (sig2 : Signature)
    (r' : List Nat) (hv : sig.v = 0 ∨ sig.v = 1)
    (h : parseSigTag sig k r = .ok (sig2, r')) : sig2.v = 0 ∨ sig2.v = 1 := by
  rw [parseSigTag] at h
  by_cases hK1 : k = bytes ("v")
  · rw [if_pos hK1] at h
    rcases hn : numberFn r with ⟨n, rr⟩
    rw [hn] at h
    dsimp only at h
    split_ifs at h with hg
    rw [Except.ok.injEq, Prod.mk.injEq] at h
    obtain ⟨hsig, -⟩ := h
    rw [← hsig]
    right
    dsimp only
    omega
  · rw [if_neg hK1] at h
    by_cases hK2 : k = bytes ("a")
    · rw [if_pos hK2] at h
      rcases hx2 : algorithmFn r with e | ⟨a2, rr⟩ <;> rw [hx2] at h <;>
        dsimp only at h
      · cases h
      · rw [Except.ok.injEq, Prod.mk.injEq] at h
        obtain ⟨hsig, -⟩ := h
        rw [← hsig]
        exact hv
    · rw [if_neg hK2] at h
      by_cases hK3 : k = bytes ("b")
      · rw [if_pos hK3] at h
        rcases hx3 : base64DecodeStream r with ⟨_ | bb, rr⟩ <;> rw [hx3] at h <;>
          dsimp only at h
        · cases h
        · rw [Except.ok.injEq, Prod.mk.injEq] at h
          obtain ⟨hsig, -⟩ := h
          rw [← hsig]
          exact hv
      · rw [if_neg hK3] at h
        by_cases hK4 : k = bytes ("bh")
        · rw [if_pos hK4] at h
          rcases hx4 : base64DecodeStream r with ⟨_ | bb, rr⟩ <;> rw [hx4] at h <;>
            dsimp only at h
          · cases h
          · rw [Except.ok.injEq, Prod.mk.injEq] at h
            obtain ⟨hsig, -⟩ := h
            rw [← hsig]
            exact hv
        · rw [if_neg hK4] at h
          by_cases hK5 : k = bytes ("c")
          · rw [if_pos hK5] at h
            rcases hx5 : canonicalization .Simple r with e | ⟨⟨ch2, cb2⟩, rr⟩ <;>
              rw [hx5] at h <;> dsimp only at h
            · cases h
            · rw [Except.ok.injEq, Prod.mk.injEq] at h
              obtain ⟨hsig, -⟩ := h
              rw [← hsig]
              exact hv
          · rw [if_neg hK5] at h
            by_cases hK6 : k = bytes ("d")
            · rw [if_pos hK6] at h
              rcases hx6 : tagFn r with ⟨v1, rr⟩
              rw [hx6] at h
              dsimp only at h
              rw [Except.ok.injEq, Prod.mk.injEq] at h
              obtain ⟨hsig, -⟩ := h
              rw [← hsig]
              exact hv
            · rw [if_neg hK6] at h
              by_cases hK7 : k = bytes ("h")
              · rw [if_pos hK7] at h
                rcases hx7 : itemsFn r with ⟨v1, rr⟩
                rw [hx7] at h
                dsimp only at h
                rw [Except.ok.injEq, Prod.mk.injEq] at h
                obtain ⟨hsig, -⟩ := h
                rw [← hsig]
                exact hv
              · rw [if_neg hK7] at h
                by_cases hK8 : k = bytes ("i")
                · rw [if_pos hK8] at h
                  rcases hx8 : tagQpFn r with ⟨v1, rr⟩
                  rw [hx8] at h
                  dsimp only at h
                  rw [Except.ok.injEq, Prod.mk.injEq] at h
                  obtain ⟨hsig, -⟩ := h
                  rw [← hsig]
                  exact hv
                · rw [if_neg hK8] at h
                  by_cases hK9 : k = bytes ("l")
                  · rw [if_pos hK9] at h
                    rcases hx9 : numberFn r with ⟨v1, rr⟩
                    rw [hx9] at h
                    dsimp only at h
                    rw [Except.ok.injEq, Prod.mk.injEq] at h
                    obtain ⟨hsig, -⟩ := h
                    rw [← hsig]
                    exact hv
                  · rw [if_neg hK9] at h
                    by_cases hK10 : k = bytes ("s")
                    · rw [if_pos hK10] at h
                      rcases hx10 : tagFn r with ⟨v1, rr⟩
                      rw [hx10] at h
                      dsimp only at h
                      rw [Except.ok.injEq, Prod.mk.injEq] at h
                      obtain ⟨hsig, -⟩ := h
                      rw [← hsig]
                      exact hv
                    · rw [if_neg hK10] at h
                      by_cases hK11 : k = bytes ("t")
                      · rw [if_pos hK11] at h
                        rcases hx11 : numberFn r with ⟨v1, rr⟩
                        rw [hx11] at h
                        dsimp only at h
                        rw [Except.ok.injEq, Prod.mk.injEq] at h
                        obtain ⟨hsig, -⟩ := h
                        rw [← hsig]
                        exact hv
                      · rw [if_neg hK11] at h
                        by_cases hK12 : k = bytes ("x")
                        · rw [if_pos hK12] at h
                          rcases hx12 : numberFn r with ⟨v1, rr⟩
                          rw [hx12] at h
                          dsimp only at h
                          rw [Except.ok.injEq, Prod.mk.injEq] at h
                          obtain ⟨hsig, -⟩ := h
                          rw [← hsig]
                          exact hv
                        · rw [if_neg hK12] at h
                          by_cases hK13 : k = bytes ("z")
                          · rw [if_pos hK13] at h
                            rcases hx13 : headersQpFn r with ⟨v1, rr⟩
                            rw [hx13] at h
                            dsimp only at h
                            rw [Except.ok.injEq, Prod.mk.injEq] at h
                            obtain ⟨hsig, -⟩ := h
                            rw [← hsig]
                            exact hv
                          · rw [if_neg hK13] at h
                            rw [Except.ok.injEq, Prod.mk.injEq] at h
                            obtain ⟨hsig, -⟩ := h
                            rw [← hsig]
                            exact hv

theorem parseSigLoop_v :
    ∀ (fuel : Nat) (sig : Signature) (s : List Nat) (sig' : Signature),
      sig.v = 0 ∨ sig.v = 1 → parseSigLoop fuel sig s = .ok sig' →
      sig'.v = 0 ∨ sig'.v = 1 := by
  intro fuel
  induction fuel with
  | zero =>
    intro sig s sig' hv h
    cases h
    exact hv
  | succ fuel ih =>
    intro sig s sig' hv h
    rw [parseSigLoop] at h
    rcases hk : keyFn s with _ | ⟨k, r⟩ <;> rw [hk] at h <;> dsimp only at h
    · cases h
      exact hv
    · rcases ht : parseSigTag sig k r with e | ⟨sig2, r2⟩ <;> rw [ht] at h <;>
        dsimp only at h
      · cases h
      · exact ih sig2 r2 sig' (parseSigTag_v sig k r sig2 r2 hv ht) h

theorem keyFn_v (t : List Nat) : keyFn (118 :: 61 :: t) = some ([118], t) := by
  simp [keyFn, keyCollect, isAsciiWs, lowerB]

theorem numberDigits_spec (rest : List Nat) :
    ∀ (ds : List Nat) (acc : Nat), (∀ c ∈ ds, 48 ≤ c ∧ c ≤ 57) →
      numberDigits acc (ds ++ 59 :: rest) =
        (some (ds.foldl (fun a c => (a * 10 + (c - 48)) % 2 ^ 64) acc), rest) := by
  intro ds
  induction ds with
  | nil =>
    intro acc h
    simp [numberDigits]
  | cons d ds ih =>
    intro acc h
    have hd := h d (List.mem_cons_self _ _)
    have e : numberDigits acc ((d :: ds) ++ 59 :: rest) =
        numberDigits ((acc * 10 + (d - 48)) % 2 ^ 64) (ds ++ 59 :: rest) := by
      simp only [List.cons_append, numberDigits]
      rw [if_pos hd]
      rfl
    rw [e, ih _ (fun c hc => h c (List.mem_cons_of_mem _ hc))]
    simp

theorem numberFn_digits (ds rest : List Nat) (hne : ds ≠ [])
    (hd : ∀ c ∈ ds, 48 ≤ c ∧ c ≤ 57) :
    numberFn (ds ++ 59 :: rest) = (some (digitsVal ds), rest) := by
  rcases ds with _ | ⟨d, ds⟩
  · exact absurd rfl hne
  · have hd0 := hd d (List.mem_cons_self _ _)
    have hnw : ¬ isAsciiWs d = true := by
      simp [isAsciiWs]
      omega
    have e : numberFn ((d :: ds) ++ 59 :: rest) =
        numberDigits (d - 48) (ds ++ 59 :: rest) := by
      simp only [List.cons_append, numberFn]
      rw [if_neg hnw, if_pos hd0]
      rfl
    rw [e, numberDigits_spec rest ds (d - 48)
      (fun c hc => hd c (List.mem_cons_of_mem _ hc))]
    have hacc : (0 * 10 + (d - 48)) % 2 ^ 64 = d - 48 := by
      have h1 : d - 48 < 2 ^ 64 := by omega
      simpa using Nat.mod_eq_of_lt h1
    rw [digitsVal, List.foldl_cons, hacc]

/-- C3, as stated, is false: an input with no `v=` tag at all still parses
`Ok`, with `v = 0` (the final check requires only `d`, `s`, `b`, `bh`,
`h`). -/
theorem c3_counterexample :
    (Signature.parse (bytes ("d=x; s=y; b=QQ==; bh=QQ==; h=a"))).toOption.map
      Signature.v = some 0 := by decide

/-- C3 (amended): a signature parsed `Ok` has `v = 1` if a `v=` tag was
processed and `v = 0` if none was — so `v ∈ {0, 1}` always; and an input
whose first tag is `v=` with decimal value whose low 32 bits differ from
1 is rejected with `UnsupportedVersion` (the Rust code compares after a
`u64`-to-`u32` cast). -/
theorem c3_amended :
    (∀ s sig, Signature.parse s = .ok sig → sig.v = 0 ∨ sig.v = 1) ∧
      (∀ ds rest, ds ≠ [] → (∀ c ∈ ds, 48 ≤ c ∧ c ≤ 57) →
        digitsVal ds % 2 ^ 32 ≠ 1 →
        Signature.parse (bytes ("v=") ++ ds ++ 59 :: rest) =
          .error .UnsupportedVersion) := by
  constructor
  · intro s sig h
    rw [Signature.parse] at h
    rcases hl : parseSigLoop (s.length + 1) sigInit s with e | sig0 <;>
      rw [hl] at h <;> dsimp only at h
    · cases h
    · split_ifs at h
      cases h
      exact parseSigLoop_v _ sigInit s _ (Or.inl rfl) hl
  · intro ds rest hne hdig hne1
    have hs : bytes ("v=") ++ ds ++ 59 :: rest = 118 :: 61 :: (ds ++ 59 :: rest) := by
      have hbv : bytes ("v=") = [118, 61] := by decide
      rw [hbv]
      rfl
    rw [hs, Signature.parse]
    simp only [parseSigLoop]
    rw [keyFn_v]
    dsimp only
    have hstep : parseSigTag sigInit [118] (ds ++ 59 :: rest) =
        .error .UnsupportedVersion := by
      rw [parseSigTag, if_pos (by decide : ([118] : List Nat) = bytes ("v")),
        numberFn_digits ds rest hne hdig]
      dsimp only [Option.getD]
      rw [if_pos hne1]
    rw [hstep]

theorem c3_witness :
    (((Signature.parse (bytes ("v=1; d=x; s=y; b=QQ==; bh=QQ==; h=a"))).toOption.getD
          sigInit).v = 0 ∨
        ((Signature.parse (bytes ("v=1; d=x; s=y; b=QQ==; bh=QQ==; h=a"))).toOption.getD
          sigInit).v = 1) ∧
      Signature.parse (bytes ("v=") ++ [50] ++ 59 :: []) =
        .error .UnsupportedVersion :=
  ⟨c3_amended.1 (bytes ("v=1; d=x; s=y; b=QQ==; bh=QQ==; h=a")) _ (by decide),
    c3_amended.2 [50] [] (by decide) (by decide) (by decide)⟩

/-! ### Record base64 tolerance (claim C9) -/

theorem recordTag_no_base64 (rec : Record) (kt : KeyTypeK) (pk : List Nat)
    (k r : List Nat) (e : Error) (h : recordTag rec kt pk k r = .error e) :
    e ≠ .Base64 := by
  rw [recordTag] at h
  by_cases hK1 : k = bytes ("v")
  · rw [if_pos hK1] at h
    rcases hm : matchBytesFn (bytes ("DKIM1")) r with ⟨_ | _, r1⟩ <;>
      rw [hm] at h <;> dsimp only at h
    · cases h
      decide
    · rcases hse : seekTagEndFn r1 with ⟨_ | _, r2⟩ <;> rw [hse] at h <;>
        dsimp only at h
      · cases h
        decide
      · cases h
  · rw [if_neg hK1] at h
    by_cases hK2 : k = bytes ("h")
    · rw [if_pos hK2] at h
      rcases hf : flagsFn hashAlgorithmParse r with ⟨f, r1⟩
      rw [hf] at h
      dsimp only at h
      cases h
    · rw [if_neg hK2] at h
      by_cases hK3 : k = bytes ("p")
      · rw [if_pos hK3] at h
        rcases hb : base64DecodeStream r with ⟨o, r1⟩
        rw [hb] at h
        dsimp only at h
        cases h
      · rw [if_neg hK3] at h
        by_cases hK4 : k = bytes ("s")
        · rw [if_pos hK4] at h
          rcases hf : flagsFn serviceParse r with ⟨f, r1⟩
          rw [hf] at h
          dsimp only at h
          cases h
        · rw [if_neg hK4] at h
          by_cases hK5 : k = bytes ("t")
          · rw [if_pos hK5] at h
            rcases hf : flagsFn flagParse r with ⟨f, r1⟩
            rw [hf] at h
            dsimp only at h
            cases h
          · rw [if_neg hK5] at h
            by_cases hK6 : k = bytes ("k")
            · rw [if_pos hK6] at h
              rcases hn : nextSkipWsFn r with ⟨_ | c, r1⟩ <;> rw [hn] at h <;>
                dsimp only at h
              · cases h
              · by_cases hc1 : c = 114 ∨ c = 82
                · rw [if_pos hc1] at h
                  rcases hm : matchBytesFn (bytes ("sa")) r1 with ⟨_ | _, r2⟩ <;>
                    rw [hm] at h <;> dsimp only at h
                  · cases h
                    decide
                  · rcases hse : seekTagEndFn r2 with ⟨_ | _, r3⟩ <;>
                      rw [hse] at h <;> dsimp only at h
                    · cases h
                      decide
                    · cases h
                · rw [if_neg hc1] at h
                  by_cases hc2 : c = 101 ∨ c = 69
                  · rw [if_pos hc2] at h
                    rcases hm : matchBytesFn (bytes ("d25519")) r1 with
                      ⟨_ | _, r2⟩ <;> rw [hm] at h <;> dsimp only at h
                    · cases h
                      decide
                    · rcases hse : seekTagEndFn r2 with ⟨_ | _, r3⟩ <;>
                        rw [hse] at h <;> dsimp only at h
                      · cases h
                        decide
                      · cases h
                  · rw [if_neg hc2] at h
                    by_cases hc3 : c = 59
                    · rw [if_pos hc3] at h
                      cases h
                    · rw [if_neg hc3] at h
                      cases h
                      decide
            · rw [if_neg hK6] at h
              cases h

theorem recordLoop_no_base64 :
    ∀ (fuel : Nat) (rec : Record) (kt : KeyTypeK) (pk s : List Nat) (e : Error),
      recordLoop fuel rec kt pk s = .error e → e ≠ .Base64 := by
  intro fuel
  induction fuel with
  | zero =>
    intro rec kt pk s e h
    cases h
  | succ fuel ih =>
    intro rec kt pk s e h
    rw [recordLoop] at h
    rcases hk : keyFn s with _ | ⟨k, r⟩ <;> rw [hk] at h <;> dsimp only at h
    · cases h
    · rcases ht : recordTag rec kt pk k r with e2 | ⟨rec2, kt2, pk2, r2⟩ <;>
        rw [ht] at h <;> dsimp only at h
      · cases h
        exact recordTag_no_base64 rec kt pk k r _ ht
      · exact ih rec2 kt2 pk2 r2 e h

/-- C9: `Record::parse` never reports a `Base64` error — a `p=` value
that fails base64 decoding leaves the key material empty
(`unwrap_or_default`) and hence the public key `Revoked`, exactly as an
explicitly empty `p=` does. -/
theorem c9_record_base64_tolerance :
    (∀ (rd ed : List Nat → Option (List Nat)) (s : List Nat) (e : Error),
        Record.parse rd ed s = .error e → e ≠ .Base64) ∧
      (∀ rd ed : List Nat → Option (List Nat),
        Record.parse rd ed (bytes ("k=rsa; p=*invalid*;")) =
            Record.parse rd ed (bytes ("k=rsa; p=;")) ∧
          Record.parse rd ed (bytes ("k=rsa; p=*invalid*;")) =
            .ok { v := .Dkim1, p := .Revoked, f := 0 }) := by
  constructor
  · intro rd ed s e h
    rw [Record.parse] at h
    rcases hl : recordLoop (s.length + 1) ⟨.Dkim1, .Revoked, 0⟩ .NoneSet [] s with
      e2 | ⟨rec, kt, pk⟩ <;> rw [hl] at h <;> dsimp only at h
    · cases h
      exact recordLoop_no_base64 _ _ _ _ _ _ hl
    · split_ifs at h
      · rcases kt <;> dsimp only at h
        · rcases hr : rd pk with _ | key <;> rw [hr] at h <;> dsimp only at h
          · cases h
            decide
          · cases h
        · rcases hr : ed pk with _ | key <;> rw [hr] at h <;> dsimp only at h
          · cases h
            decide
          · cases h
        · rcases hr : rd pk with _ | key <;> rw [hr] at h <;> dsimp only at h
          · cases h
            decide
          · cases h
  · intro rd ed
    exact ⟨rfl, rfl⟩

theorem c9_witness :
    (Error.PKCS ≠ Error.Base64) ∧
      Record.parse (fun _ => none) (fun _ => none) (bytes ("k=rsa; p=*invalid*;")) =
        .ok { v := .Dkim1, p := .Revoked, f := 0 } :=
  ⟨c9_record_base64_tolerance.1 (fun _ => none) (fun _ => none)
      (bytes ("p=AQAB")) .PKCS rfl,
    (c9_record_base64_tolerance.2 (fun _ => none) (fun _ => none)).2⟩

set_option maxRecDepth 100000 in
theorem sigWrite_test :
    Signature.write
        { v := 1, a := .RsaSha256, d := bytes ("stalw.art"), s := bytes ("default"),
          i := [],
          b := bytes ("F5fBuwEyirUQRZwpEP1fKGil5rNqxL2e5kExeyGdByAvS2lp5M5CqGNzoJ9Pj8sGuGGrdD18uL0xOduqYN7uxifmD4u0BuTzaUSBQhONWZxFq/BZ8rn6ylZCBS3NDuxFcRkcBtMAuZtGKOwito563yyb+Ujgtpc0DOZtntjyQGc="),
          bh := bytes ("QoiUNYyUV+1tZ/xUPRcE+gST2zAStvJx1OK078Ylm5s="),
          h := [bytes ("Subject"), bytes ("To"), bytes ("From")], z := [],
          l := 0, x := 0, t := 311923920, ch := .Relaxed, cb := .Relaxed }
        false =
      bytes ("dkim-signature:v=1; a=rsa-sha256; s=default; d=stalw.art; c=relaxed/relaxed; h=Subject:To:From; t=311923920; bh=QoiUNYyUV+1tZ/xUPRcE+gST2zAStvJx1OK078Yl m5s=; b=F5fBuwEyirUQRZwpEP1fKGil5rNqxL2e5kExeyGdByAvS2lp5M5CqGNzoJ9Pj8sGuGG rdD18uL0xOduqYN7uxifmD4u0BuTzaUSBQhONWZxFq/BZ8rn6ylZCBS3NDuxFcRkcBtMAuZtGKO wito563yyb+Ujgtpc0DOZtntjyQGc=;") := by
  decide

/-! ### Serialization layout (claim C7) -/

theorem Folded.refl (nl : List Nat) : ∀ xs, Folded nl xs xs
  | [] => .nil
  | c :: xs => .cons c (Folded.refl nl xs)

theorem Folded.prepend {nl xs ys : List Nat} (zs : List Nat)
    (h : Folded nl xs ys) : Folded nl (zs ++ xs) (zs ++ ys) := by
  induction zs with
  | nil => exact h
  | cons c zs ih => exact .cons c ih

theorem Folded.preFold {nl xs ys : List Nat} (p : List Nat)
    (hp : p = nl ∨ p = []) (h : Folded nl xs ys) : Folded nl xs (p ++ ys) := by
  rcases hp with rfl | rfl
  · exact .fold h
  · exact h

theorem emitH_folded (nl : List Nat) :
    ∀ (names : List (List Nat)) (first : Bool) (bw : Nat), names ≠ [] →
      Folded nl ((if first then bytes ("h=") else [58]) ++ colonJoin names)
        (emitH nl names first bw).1 := by
  intro names
  induction names with
  | nil =>
    intro first bw h
    exact absurd rfl h
  | cons name rest ih =>
    intro first bw _
    have hout : (emitH nl (name :: rest) first bw).1 =
        (if bw + name.length + 1 ≥ 76 then nl else []) ++
          ((if first then bytes ("h=") else [58]) ++ name ++
            (emitH nl rest false
              ((if bw + name.length + 1 ≥ 76 then 1 else bw) +
                (if first then bytes ("h=") else [58]).length + name.length)).1) := by
      rw [emitH]
      simp [List.append_assoc]
    rw [hout]
    apply Folded.preFold _ (by split_ifs <;> simp)
    rcases rest with _ | ⟨n2, r2⟩
    · have : (emitH nl ([] : List (List Nat)) false
          ((if bw + name.length + 1 ≥ 76 then 1 else bw) +
            (if first then bytes ("h=") else [58]).length + name.length)).1 = [] := rfl
      rw [this]
      simpa [colonJoin] using
        Folded.refl nl ((if first then bytes ("h=") else [58]) ++ name)
    · have base := ih false
        ((if bw + name.length + 1 ≥ 76 then 1 else bw) +
          (if first then bytes ("h=") else [58]).length + name.length)
        (by simp)
      have h2 := base.prepend ((if first then bytes ("h=") else [58]) ++ name)
      simpa [colonJoin, List.append_assoc] using h2

theorem emitIBody_folded (nl : List Nat) :
    ∀ (i : List Nat) (bw : Nat), Folded nl (qpEncode i) (emitIBody nl i bw).1 := by
  intro i
  induction i with
  | nil =>
    intro bw
    exact .nil
  | cons c rest ih =>
    intro bw
    have hout : (emitIBody nl (c :: rest) bw).1 =
        qpByte c ++ ((if bw + (qpByte c).length ≥ 76 then nl else []) ++
          (emitIBody nl rest
            (if bw + (qpByte c).length ≥ 76 then 1
              else bw + (qpByte c).length)).1) := by
      rw [emitIBody]
      simp [List.append_assoc]
    rw [hout]
    have h1 := @Folded.preFold nl _ _
      (if bw + (qpByte c).length ≥ 76 then nl else [])
      (by split_ifs <;> simp)
      (ih (if bw + (qpByte c).length ≥ 76 then 1 else bw + (qpByte c).length))
    have h2 := h1.prepend (qpByte c)
    simpa [qpEncode, List.append_assoc] using h2

theorem emitB64_folded (nl : List Nat) :
    ∀ (v : List Nat) (bw : Nat), Folded nl v (emitB64 nl v bw).1 := by
  intro v
  induction v with
  | nil =>
    intro bw
    exact .nil
  | cons c rest ih =>
    intro bw
    have hout : (emitB64 nl (c :: rest) bw).1 =
        [c] ++ ((if bw + 1 ≥ 76 then nl else []) ++
          (emitB64 nl rest (if bw + 1 ≥ 76 then 1 else bw + 1)).1) := by
      rw [emitB64]
      rfl
    rw [hout]
    exact (Folded.preFold _ (by split_ifs <;> simp)
      (ih (if bw + 1 ≥ 76 then 1 else bw + 1))).prepend [c]

/-- C7: `Signature::write` lays the value out as the fixed prefix
`v=1; a=<alg>; s=<s>; d=<d>; c=<ch>/<cb>;` (after the chosen header
name), followed in order by the `h=`, `i=`, `t=`, `x=`, `l=`, `bh=`,
`b=` sections and a final `;`, with `CRLF` appended exactly when a real
header is produced.  The `h=` section is the colon-joined name list, the
`i=` section the quoted-printable encoding escaping bytes `<= 0x20`,
`;` and `>= 0x7F`, and the numeric sections appear only for positive
values — each section up to insertions of the folding sequence. -/
theorem c7_write_layout (sig : Signature) (ah : Bool) :
    ∃ hseg iseg tseg xseg lseg bhseg bseg,
      Signature.write sig ah =
        hdrName sig.ch ah ++ bytes ("v=1; a=") ++ algName sig.a ++
          bytes ("; s=") ++ sig.s ++ bytes ("; d=") ++ sig.d ++
          bytes ("; c=") ++ canonName sig.ch ++ [47] ++ canonName sig.cb ++
          [59] ++ nlOf sig.ch ah ++
          hseg ++ iseg ++ tseg ++ xseg ++ lseg ++
          bytes ("; bh=") ++ bhseg ++ bytes ("; b=") ++ bseg ++ [59] ++
          (if ah then [13, 10] else []) ∧
        (sig.h = [] → hseg = []) ∧
        (sig.h ≠ [] →
          Folded (nlOf sig.ch ah) (bytes ("h=") ++ colonJoin sig.h) hseg) ∧
        (sig.i = [] → iseg = []) ∧
        (sig.i ≠ [] → ∃ sep pay, iseg = sep ++ bytes ("i=") ++ pay ∧
          (sep = [59] ++ nlOf sig.ch ah ∨ sep = bytes ("; ")) ∧
          Folded (nlOf sig.ch ah) (qpEncode sig.i) pay) ∧
        (sig.t = 0 → tseg = []) ∧
        (sig.t ≠ 0 → ∃ sep, tseg = [59] ++ sep ++ bytes ("t=") ++ natDigits sig.t ∧
          (sep = nlOf sig.ch ah ∨ sep = [32])) ∧
        (sig.x = 0 → xseg = []) ∧
        (sig.x ≠ 0 → ∃ sep, xseg = [59] ++ sep ++ bytes ("x=") ++ natDigits sig.x ∧
          (sep = nlOf sig.ch ah ∨ sep = [32])) ∧
        (sig.l = 0 → lseg = []) ∧
        (sig.l ≠ 0 → ∃ sep, lseg = [59] ++ sep ++ bytes ("l=") ++ natDigits sig.l ∧
          (sep = nlOf sig.ch ah ∨ sep = [32])) ∧
        Folded (nlOf sig.ch ah) sig.bh bhseg ∧
        Folded (nlOf sig.ch ah) sig.b bseg := by
  refine ⟨_, _, _, _, _, _, _, rfl, ?_, ?_, ?_, ?_, ?_, ?_, ?_, ?_, ?_, ?_,
    emitB64_folded _ _ _, emitB64_folded _ _ _⟩
  · intro h0
    rw [h0]
    rfl
  · intro hne
    simpa using emitH_folded (nlOf sig.ch ah) sig.h true 1 hne
  · intro h0
    simp [emitI, h0]
  · intro hne
    rw [emitI, if_neg hne]
    split
    · exact ⟨[59] ++ nlOf sig.ch ah, (emitIBody (nlOf sig.ch ah) sig.i (1 + 2)).1,
        by simp [List.append_assoc], Or.inl rfl, emitIBody_folded _ _ _⟩
    · exact ⟨bytes ("; "),
        (emitIBody (nlOf sig.ch ah) sig.i
          ((emitH (nlOf sig.ch ah) sig.h true 1).2 + 2 + 2)).1,
        by simp [List.append_assoc], Or.inr rfl, emitIBody_folded _ _ _⟩
  · intro h0
    simp [emitNum, h0]
  · intro hne
    rw [emitNum, if_neg hne]
    dsimp only
    split
    · exact ⟨nlOf sig.ch ah, by simp [List.append_assoc], Or.inl rfl⟩
    · exact ⟨[32], by simp [List.append_assoc], Or.inr rfl⟩
  · intro h0
    simp [emitNum, h0]
  · intro hne
    rw [emitNum, if_neg hne]
    dsimp only
    split
    · exact ⟨nlOf sig.ch ah, by simp [List.append_assoc], Or.inl rfl⟩
    · exact ⟨[32], by simp [List.append_assoc], Or.inr rfl⟩
  · intro h0
    simp [emitNum, h0]
  · intro hne
    rw [emitNum, if_neg hne]
    dsimp only
    split
    · exact ⟨nlOf sig.ch ah, by simp [List.append_assoc], Or.inl rfl⟩
    · exact ⟨[32], by simp [List.append_assoc], Or.inr rfl⟩

/-! ### Sign/write/parse round trip (claim C1) -/

theorem keyFn_skip (c : Nat) (s : List Nat) (h : isAsciiWs c = true ∨ c = 59) :
    keyFn (c :: s) = keyFn s := by
  rcases h with h | h <;> simp [keyFn, h]

theorem parseSigLoop_step (g : Nat) (sig sig2 : Signature) (s k r u : List Nat)
    (h1 : keyFn s = some (k, r)) (h2 : parseSigTag sig k r = .ok (sig2, u)) :
    parseSigLoop (g + 1) sig s = parseSigLoop g sig2 u := by
  rw [parseSigLoop, h1]
  dsimp only
  rw [h2]

theorem parseSigLoop_none (g : Nat) (sig : Signature) (s : List Nat)
    (h : keyFn s = none) : parseSigLoop (g + 1) sig s = .ok sig := by
  rw [parseSigLoop, h]

theorem semiExpose (sec w : List Nat) (h : sec = [] ∨ ∃ u, sec = 59 :: u) :
    sec ++ 59 :: w = 59 :: (sec ++ 59 :: w).tail := by
  rcases h with rfl | ⟨u, rfl⟩ <;> rfl

theorem lvDigits_natDigitsRev : ∀ f n, n ≤ f → lvDigits (natDigitsRev f n) = n := by
  intro f
  induction f with
  | zero =>
    intro n h
    interval_cases n
    rfl
  | succ f ih =>
    intro n h
    by_cases h0 : n = 0
    · subst h0
      simp [natDigitsRev, lvDigits]
    · rw [natDigitsRev, if_neg h0, lvDigits, ih (n / 10) (by omega)]
      omega

theorem pvDigits_cons (acc d : Nat) (ds : List Nat) :
    pvDigits acc (d :: ds) = pvDigits (acc * 10 + (d - 48)) ds := rfl

theorem pvDigits_reverse : ∀ (ys : List Nat) (acc : Nat),
    pvDigits acc ys.reverse = acc * 10 ^ ys.length + lvDigits ys := by
  intro ys
  induction ys with
  | nil => intro acc; simp [pvDigits, lvDigits]
  | cons d r ih =>
    intro acc
    have hrev : (d :: r).reverse = r.reverse ++ [d] := by simp
    rw [hrev]
    have happ : pvDigits acc (r.reverse ++ [d]) =
        pvDigits acc r.reverse * 10 + (d - 48) := by
      simp [pvDigits, List.foldl_append]
    rw [happ, ih acc, lvDigits, List.length_cons, pow_succ]
    ring

theorem pvDigits_le : ∀ (ds : List Nat) (acc : Nat), acc ≤ pvDigits acc ds := by
  intro ds
  induction ds with
  | nil => intro acc; exact le_refl _
  | cons d r ih =>
    intro acc
    calc acc ≤ acc * 10 + (d - 48) := by omega
    _ ≤ pvDigits (acc * 10 + (d - 48)) r := ih _
    _ = pvDigits acc (d :: r) := rfl

theorem accDigits_eq_pv : ∀ (ds : List Nat) (acc : Nat),
    pvDigits acc ds < 2 ^ 64 → accDigits acc ds = pvDigits acc ds := by
  intro ds
  induction ds with
  | nil => intro acc _; rfl
  | cons d r ih =>
    intro acc h
    have hle : acc * 10 + (d - 48) ≤ pvDigits acc (d :: r) := by
      rw [pvDigits_cons]
      exact pvDigits_le r _
    have hmod : (acc * 10 + (d - 48)) % 2 ^ 64 = acc * 10 + (d - 48) :=
      Nat.mod_eq_of_lt (by omega)
    show accDigits ((acc * 10 + (d - 48)) % 2 ^ 64) r = _
    rw [hmod, pvDigits_cons]
    exact ih _ (by rw [← pvDigits_cons]; exact h)

theorem natDigits_val (n : Nat) (h : n < 2 ^ 64) : pvDigits 0 (natDigits n) = n := by
  rw [natDigits, pvDigits_reverse, lvDigits_natDigitsRev n n (le_refl n)]
  simp

theorem natDigitsRev_digits : ∀ f n d, d ∈ natDigitsRev f n → 48 ≤ d ∧ d ≤ 57 := by
  intro f
  induction f with
  | zero => intro n d h; simp [natDigitsRev] at h
  | succ f ih =>
    intro n d h
    rw [natDigitsRev] at h
    split at h
    · simp at h
    · rcases List.mem_cons.mp h with rfl | h2
      · omega
      · exact ih _ _ h2

theorem natDigits_digits (n d : Nat) (h : d ∈ natDigits n) : 48 ≤ d ∧ d ≤ 57 :=
  natDigitsRev_digits n n d (by simpa [natDigits] using h)

theorem numberDigits_run : ∀ (ds : List Nat) (acc : Nat) (w : List Nat),
    (∀ d ∈ ds, 48 ≤ d ∧ d ≤ 57) →
    numberDigits acc (ds ++ 59 :: w) = (some (accDigits acc ds), w) := by
  intro ds
  induction ds with
  | nil =>
    intro acc w _
    simp [numberDigits, accDigits]
  | cons d r ih =>
    intro acc w h
    obtain ⟨h1, h2⟩ := h d (List.mem_cons_self d r)
    rw [List.cons_append, numberDigits, if_pos (by omega)]
    exact ih _ w (fun x hx => h x (List.mem_cons_of_mem d hx))

theorem numberFn_natDigits (n : Nat) (w : List Nat) (h0 : 0 < n)
    (h64 : n < 2 ^ 64) : numberFn (natDigits n ++ 59 :: w) = (some n, w) := by
  have hne : natDigits n ≠ [] := by
    rw [natDigits]
    simp only [ne_eq, List.reverse_eq_nil_iff]
    rcases n with _ | m
    · omega
    · rw [natDigitsRev, if_neg (by omega)]
      simp
  rcases hd : natDigits n with _ | ⟨d, ds⟩
  · exact absurd hd hne
  · have hdig : ∀ x ∈ d :: ds, 48 ≤ x ∧ x ≤ 57 := by
      rw [← hd]; exact fun x hx => natDigits_digits n x hx
    obtain ⟨hd1, hd2⟩ := hdig d (List.mem_cons_self d ds)
    have hws : isAsciiWs d = false := by
      simp only [isAsciiWs, Bool.or_eq_false_iff, decide_eq_false_iff_not]
      omega
    rw [List.cons_append, numberFn]
    rw [if_neg (by simp [hws]), if_pos (by omega)]
    rw [numberDigits_run ds (d - 48) w (fun x hx => hdig x (List.mem_cons_of_mem d hx))]
    have hpv : pvDigits 0 (d :: ds) = n := by rw [← hd]; exact natDigits_val n h64
    have hacc : accDigits (d - 48) ds = n := by
      have hz : accDigits 0 (d :: ds) = n := by
        rw [accDigits_eq_pv (d :: ds) 0 (by rw [hpv]; exact h64), hpv]
      rw [show accDigits 0 (d :: ds) =
          accDigits ((0 * 10 + (d - 48)) % 2 ^ 64) ds from rfl] at hz
      rwa [show (0 * 10 + (d - 48)) % 2 ^ 64 = d - 48 from by omega] at hz
    rw [hacc]

theorem tagFn_clean : ∀ (v w : List Nat),
    (∀ c ∈ v, isAsciiWs c = false ∧ c ≠ 59) → tagFn (v ++ 59 :: w) = (v, w) := by
  intro v
  induction v with
  | nil => intro w _; simp [tagFn]
  | cons c r ih =>
    intro w h
    obtain ⟨h1, h2⟩ := h c (List.mem_cons_self c r)
    rw [List.cons_append, tagFn, if_neg h2, if_neg (by simp [h1]),
      ih w (fun x hx => h x (List.mem_cons_of_mem c hx))]

theorem itemsGo_ws (c : Nat) (s cur : List Nat) (h : isAsciiWs c = true) :
    itemsGo cur (c :: s) = itemsGo cur s := by
  have h59 : c ≠ 59 := by
    simp only [isAsciiWs, Bool.or_eq_true, decide_eq_true_eq] at h
    omega
  have h58 : c ≠ 58 := by
    simp only [isAsciiWs, Bool.or_eq_true, decide_eq_true_eq] at h
    omega
  rw [itemsGo, if_neg h59, if_neg h58, if_pos h]

theorem itemsGo_name : ∀ (nm : List Nat) (s cur : List Nat),
    (∀ c ∈ nm, isAsciiWs c = false ∧ c ≠ 58 ∧ c ≠ 59) →
    itemsGo cur (nm ++ s) = itemsGo (nm.reverse ++ cur) s := by
  intro nm
  induction nm with
  | nil => intro s cur _; simp
  | cons c r ih =>
    intro s cur h
    obtain ⟨h1, h2, h3⟩ := h c (List.mem_cons_self c r)
    rw [List.cons_append, itemsGo, if_neg h3, if_neg h2, if_neg (by simp [h1]),
      ih s (c :: cur) (fun x hx => h x (List.mem_cons_of_mem c hx))]
    simp

theorem itemsGo_emitH : ∀ (hs : List (List Nat)) (bw : Nat) (cur w : List Nat),
    (∀ nm ∈ hs, nm ≠ [] ∧ ∀ c ∈ nm, isAsciiWs c = false ∧ c ≠ 58 ∧ c ≠ 59) →
    itemsGo cur ((emitH [13, 10, 9] hs false bw).1 ++ 59 :: w) =
      ((if cur = [] then [] else [cur.reverse]) ++ hs, w) := by
  intro hs
  induction hs with
  | nil =>
    intro bw cur w _
    rw [show (emitH [13, 10, 9] ([] : List (List Nat)) false bw).1 = [] from rfl]
    rw [List.nil_append, itemsGo, if_pos rfl]
    simp
  | cons nm rest ih =>
    intro bw cur w h
    obtain ⟨hne, hcl⟩ := h nm (List.mem_cons_self nm rest)
    have hout : (emitH [13, 10, 9] (nm :: rest) false bw).1 =
        (if bw + nm.length + 1 ≥ 76 then [13, 10, 9] else []) ++
          ([58] ++ (nm ++
            (emitH [13, 10, 9] rest false
              ((if bw + nm.length + 1 ≥ 76 then 1 else bw) +
                [58].length + nm.length)).1)) := by
      rw [emitH]
      simp [List.append_assoc]
    rw [hout]
    have hskip : ∀ z : List Nat,
        itemsGo cur ((if bw + nm.length + 1 ≥ 76 then [13, 10, 9] else []) ++ z) =
          itemsGo cur z := by
      intro z
      split
      · rw [show ([13, 10, 9] : List Nat) ++ z = 13 :: 10 :: 9 :: z from rfl]
        rw [itemsGo_ws 13 _ _ (by decide), itemsGo_ws 10 _ _ (by decide),
          itemsGo_ws 9 _ _ (by decide)]
      · rw [List.nil_append]
    simp only [List.append_assoc, List.cons_append, List.nil_append]
    rw [hskip]
    rw [itemsGo, if_neg (by omega), if_pos rfl]
    rw [itemsGo_name nm _ [] hcl, List.append_nil]
    rw [ih _ (nm.reverse) w (fun x hx => h x (List.mem_cons_of_mem nm hx))]
    have hrne : nm.reverse ≠ [] := by simpa using hne
    dsimp only
    rw [if_neg hrne, List.reverse_reverse]
    by_cases hcur : cur = []
    · rw [if_pos hcur, if_pos hcur]
      simp
    · rw [if_neg hcur, if_neg hcur]
      simp

theorem itemsFn_emitH (n1 : List Nat) (rest : List (List Nat)) (bw : Nat)
    (w : List Nat)
    (h1 : n1 ≠ []) (h1c : ∀ c ∈ n1, isAsciiWs c = false ∧ c ≠ 58 ∧ c ≠ 59)
    (h : ∀ nm ∈ rest, nm ≠ [] ∧ ∀ c ∈ nm, isAsciiWs c = false ∧ c ≠ 58 ∧ c ≠ 59) :
    itemsFn (n1 ++ ((emitH [13, 10, 9] rest false bw).1 ++ 59 :: w)) =
      (n1 :: rest, w) := by
  rw [itemsFn, itemsGo_name n1 _ [] h1c, List.append_nil, itemsGo_emitH rest bw _ w h]
  rw [if_neg (by simpa using h1), List.reverse_reverse]
  rfl

theorem keyFn_at_one (c : Nat) (r : List Nat) (h1 : isAsciiWs c = false)
    (h2 : c ≠ 59) (h3 : c ≠ 61) : keyFn (c :: 61 :: r) = some ([lowerB c], r) := by
  rw [keyFn, if_neg (by simp [h1, h2]), keyCollect, if_neg h3, if_neg (by simp [h1])]
  rw [show keyCollect (61 :: r) = ([], r) from by rw [keyCollect, if_pos rfl]]

theorem keyFn_at_two (c1 c2 : Nat) (r : List Nat)
    (h1 : isAsciiWs c1 = false) (h2 : c1 ≠ 59) (h3 : c1 ≠ 61)
    (h4 : isAsciiWs c2 = false) (h5 : c2 ≠ 61) :
    keyFn (c1 :: c2 :: 61 :: r) = some ([lowerB c1, lowerB c2], r) := by
  rw [keyFn, if_neg (by simp [h1, h2]), keyCollect, if_neg h3, if_neg (by simp [h1])]
  rw [show keyCollect (c2 :: 61 :: r) = ([lowerB c2], r) from by
    rw [keyCollect, if_neg h5, if_neg (by simp [h4]),
      show keyCollect (61 :: r) = ([], r) from by rw [keyCollect, if_pos rfl]]]

theorem hexVal_hexChr : ∀ v, v < 16 → hexVal (hexChr v) = some v := by decide

theorem tagQpFn_ws (c : Nat) (s : List Nat) (h : isAsciiWs c = true)
    (h61 : c ≠ 61) : tagQpFn (c :: s) = tagQpFn s := by
  have h59 : c ≠ 59 := by
    simp only [isAsciiWs, Bool.or_eq_true, decide_eq_true_eq] at h
    omega
  rw [tagQpFn.eq_def]
  split
  · simp_all
  · rename_i h1 h2 h3
    rw [List.cons.injEq] at h3
    exact absurd h3.1 h61
  · rename_i c2 r h1 h2
    rw [List.cons.injEq] at h2
    obtain ⟨rfl, rfl⟩ := h2
    rw [if_neg h59, if_pos h]

theorem tagQpFn_lit (c : Nat) (s : List Nat) (h : isAsciiWs c = false)
    (h59 : c ≠ 59) (h61 : c ≠ 61) :
    tagQpFn (c :: s) = (c :: (tagQpFn s).1, (tagQpFn s).2) := by
  rw [tagQpFn.eq_def]
  split
  · simp_all
  · rename_i h1 h2 h3
    rw [List.cons.injEq] at h3
    exact absurd h3.1 h61
  · rename_i c2 r h1 h2
    rw [List.cons.injEq] at h2
    obtain ⟨rfl, rfl⟩ := h2
    rw [if_neg h59, if_neg (by simp [h])]

theorem tagQpFn_semi (s : List Nat) : tagQpFn (59 :: s) = ([], s) := by
  rw [tagQpFn.eq_def]
  split
  · simp_all
  · rename_i h1 h2 h3
    rw [List.cons.injEq] at h3
    omega
  · rename_i c2 r h1 h2
    rw [List.cons.injEq] at h2
    obtain ⟨rfl, rfl⟩ := h2
    rw [if_pos rfl]

theorem tagQpFn_esc (h1 h2 : Nat) (s : List Nat) (a b : Nat)
    (ha : hexVal h1 = some a) (hb : hexVal h2 = some b) :
    tagQpFn (61 :: h1 :: h2 :: s) =
      ((a * 16 + b) :: (tagQpFn s).1, (tagQpFn s).2) := by
  rw [tagQpFn, ha, hb]

theorem c1Qp : ∀ (iv : List Nat) (bw : Nat) (w : List Nat),
    (∀ c ∈ iv, c < 256 ∧ c ≠ 61) →
    tagQpFn ((emitIBody [13, 10, 9] iv bw).1 ++ 59 :: w) = (iv, w) := by
  intro iv
  induction iv with
  | nil =>
    intro bw w _
    rw [show (emitIBody [13, 10, 9] ([] : List Nat) bw).1 = [] from rfl,
      List.nil_append, tagQpFn_semi]
  | cons c rest ih =>
    intro bw w h
    obtain ⟨hc, h61⟩ := h c (List.mem_cons_self c rest)
    have htail := ih (if bw + (qpByte c).length ≥ 76 then 1
        else bw + (qpByte c).length) w
      (fun x hx => h x (List.mem_cons_of_mem c hx))
    have hout : (emitIBody [13, 10, 9] (c :: rest) bw).1 =
        qpByte c ++ ((if bw + (qpByte c).length ≥ 76 then [13, 10, 9] else []) ++
          (emitIBody [13, 10, 9] rest
            (if bw + (qpByte c).length ≥ 76 then 1
              else bw + (qpByte c).length)).1) := by
      rw [emitIBody]
      simp [List.append_assoc]
    have hskip : ∀ z : List Nat,
        tagQpFn ((if bw + (qpByte c).length ≥ 76 then ([13, 10, 9] : List Nat)
            else []) ++ z) = tagQpFn z := by
      intro z
      split
      · rw [show ([13, 10, 9] : List Nat) ++ z = 13 :: 10 :: 9 :: z from rfl]
        rw [tagQpFn_ws 13 _ (by decide) (by decide),
          tagQpFn_ws 10 _ (by decide) (by decide),
          tagQpFn_ws 9 _ (by decide) (by decide)]
      · rw [List.nil_append]
    rw [hout]
    simp only [List.append_assoc]
    have hZtail : tagQpFn ((if bw + (qpByte c).length ≥ 76 then ([13, 10, 9] : List Nat)
        else []) ++ ((emitIBody [13, 10, 9] rest
          (if bw + (qpByte c).length ≥ 76 then 1
            else bw + (qpByte c).length)).1 ++ 59 :: w)) = (rest, w) := by
      rw [hskip, htail]
    revert hZtail
    generalize (if bw + (qpByte c).length ≥ 76 then ([13, 10, 9] : List Nat)
        else []) ++ ((emitIBody [13, 10, 9] rest
          (if bw + (qpByte c).length ≥ 76 then 1
            else bw + (qpByte c).length)).1 ++ 59 :: w) = T
    intro hZtail
    by_cases hesc : c ≤ 32 ∨ c = 59 ∨ 127 ≤ c
    · rw [show qpByte c = [61, hexChr (c / 16), hexChr (c % 16)] from by
        rw [qpByte, if_pos hesc]]
      simp only [List.cons_append, List.nil_append]
      rw [tagQpFn_esc _ _ _ (c / 16) (c % 16)
        (hexVal_hexChr _ (by omega)) (hexVal_hexChr _ (by omega)), hZtail]
      dsimp only
      rw [show c / 16 * 16 + c % 16 = c from by omega]
    · have hc59 : c ≠ 59 := by omega
      have hws : isAsciiWs c = false := by
        simp only [isAsciiWs, Bool.or_eq_false_iff, decide_eq_false_iff_not]
        omega
      rw [show qpByte c = [c] from by rw [qpByte, if_neg hesc]]
      simp only [List.cons_append, List.nil_append]
      rw [tagQpFn_lit c T hws hc59 h61, hZtail]

theorem b64Pad_skip (c : Nat) (s acc : List Nat)
    (h : isAsciiWs c = true ∨ c = 61) : b64Pad acc (c :: s) = b64Pad acc s := by
  rcases h with h | h
  · have h59 : c ≠ 59 := by
      simp only [isAsciiWs, Bool.or_eq_true, decide_eq_true_eq] at h
      omega
    rw [b64Pad, if_neg h59, if_pos (Or.inl (by simp [h]))]
  · subst h
    rw [b64Pad, if_neg (by omega), if_pos (Or.inr rfl)]

theorem b64Collect_ws (c : Nat) (s acc : List Nat) (h : isAsciiWs c = true) :
    b64Collect acc (c :: s) = b64Collect acc s := by
  have h59 : c ≠ 59 := by
    simp only [isAsciiWs, Bool.or_eq_true, decide_eq_true_eq] at h
    omega
  rw [b64Collect, if_neg h59, if_pos (by simp [h])]

theorem c1B64Pad : ∀ (p : List Nat) (bw : Nat) (acc w : List Nat),
    (∀ c ∈ p, c = 61) →
    b64Pad acc ((emitB64 [13, 10, 9] p bw).1 ++ 59 :: w) = (some acc.reverse, w) := by
  intro p
  induction p with
  | nil =>
    intro bw acc w _
    rw [show (emitB64 [13, 10, 9] ([] : List Nat) bw).1 = [] from rfl,
      List.nil_append, b64Pad, if_pos rfl]
  | cons c p2 ih =>
    intro bw acc w h
    have hc : c = 61 := h c (List.mem_cons_self c p2)
    subst hc
    have hout : (emitB64 [13, 10, 9] (61 :: p2) bw).1 =
        61 :: ((if bw + 1 ≥ 76 then [13, 10, 9] else []) ++
          (emitB64 [13, 10, 9] p2 (if bw + 1 ≥ 76 then 1 else bw + 1)).1) := by
      rw [emitB64]
    rw [hout, List.cons_append, b64Pad_skip 61 _ _ (Or.inr rfl),
      List.append_assoc]
    have hskip : ∀ z : List Nat,
        b64Pad acc ((if bw + 1 ≥ 76 then ([13, 10, 9] : List Nat) else []) ++ z) =
          b64Pad acc z := by
      intro z
      split
      · rw [show ([13, 10, 9] : List Nat) ++ z = 13 :: 10 :: 9 :: z from rfl]
        rw [b64Pad_skip 13 _ _ (Or.inl (by decide)),
          b64Pad_skip 10 _ _ (Or.inl (by decide)),
          b64Pad_skip 9 _ _ (Or.inl (by decide))]
      · rw [List.nil_append]
    rw [hskip, ih _ acc w (fun x hx => h x (List.mem_cons_of_mem 61 hx))]

theorem c1B64Collect : ∀ (e p : List Nat) (bw : Nat) (acc w : List Nat),
    (∀ c ∈ e, (b64Val c).isSome) → (∀ c ∈ p, c = 61) →
    b64Collect acc ((emitB64 [13, 10, 9] (e ++ p) bw).1 ++ 59 :: w) =
      (some (acc.reverse ++ e.map (fun c => (b64Val c).getD 0)), w) := by
  intro e
  induction e with
  | nil =>
    intro p bw acc w _ hp
    rw [List.nil_append, List.map_nil, List.append_nil]
    rcases p with _ | ⟨c0, p2⟩
    · rw [show (emitB64 [13, 10, 9] ([] : List Nat) bw).1 = [] from rfl,
        List.nil_append, b64Collect, if_pos rfl]
    · have hc : c0 = 61 := hp c0 (List.mem_cons_self c0 p2)
      subst hc
      have hout : (emitB64 [13, 10, 9] (61 :: p2) bw).1 =
          61 :: ((if bw + 1 ≥ 76 then [13, 10, 9] else []) ++
            (emitB64 [13, 10, 9] p2 (if bw + 1 ≥ 76 then 1 else bw + 1)).1) := by
        rw [emitB64]
      rw [hout, List.cons_append, b64Collect, if_neg (by omega),
        if_neg (by decide), if_pos rfl, List.append_assoc]
      have hskip : ∀ z : List Nat,
          b64Pad acc ((if bw + 1 ≥ 76 then ([13, 10, 9] : List Nat) else []) ++ z) =
            b64Pad acc z := by
        intro z
        split
        · rw [show ([13, 10, 9] : List Nat) ++ z = 13 :: 10 :: 9 :: z from rfl]
          rw [b64Pad_skip 13 _ _ (Or.inl (by decide)),
            b64Pad_skip 10 _ _ (Or.inl (by decide)),
            b64Pad_skip 9 _ _ (Or.inl (by decide))]
        · rw [List.nil_append]
      rw [hskip, c1B64Pad p2 _ acc w (fun x hx => hp x (List.mem_cons_of_mem 61 hx))]
  | cons c e2 ih =>
    intro p bw acc w ha hp
    have hc : (b64Val c).isSome := ha c (List.mem_cons_self c e2)
    obtain ⟨v, hv⟩ := Option.isSome_iff_exists.mp hc
    have h59 : c ≠ 59 := by
      rintro rfl
      simp [b64Val] at hv
    have h61 : c ≠ 61 := by
      rintro rfl
      simp [b64Val] at hv
    have hws : isAsciiWs c = false := by
      by_cases hB : isAsciiWs c = true
      · exfalso
        simp only [isAsciiWs, Bool.or_eq_true, decide_eq_true_eq] at hB
        rcases hB with ((((rfl | rfl) | rfl) | rfl) | rfl) <;> simp [b64Val] at hv
      · simpa using hB
    have hout : (emitB64 [13, 10, 9] (c :: (e2 ++ p)) bw).1 =
        c :: ((if bw + 1 ≥ 76 then [13, 10, 9] else []) ++
          (emitB64 [13, 10, 9] (e2 ++ p) (if bw + 1 ≥ 76 then 1 else bw + 1)).1) := by
      rw [emitB64]
    rw [List.cons_append, hout, List.cons_append, b64Collect, if_neg h59,
      if_neg (by simp [hws]), if_neg h61, hv]
    dsimp only
    rw [List.append_assoc]
    have hskip : ∀ z : List Nat,
        b64Collect (v :: acc)
            ((if bw + 1 ≥ 76 then ([13, 10, 9] : List Nat) else []) ++ z) =
          b64Collect (v :: acc) z := by
      intro z
      split
      · rw [show ([13, 10, 9] : List Nat) ++ z = 13 :: 10 :: 9 :: z from rfl]
        rw [b64Collect_ws 13 _ _ (by decide), b64Collect_ws 10 _ _ (by decide),
          b64Collect_ws 9 _ _ (by decide)]
      · rw [List.nil_append]
    rw [hskip, ih p _ (v :: acc) w (fun x hx => ha x (List.mem_cons_of_mem c hx)) hp]
    simp [hv]

theorem b64Val_b64Chr : ∀ v, v < 64 → b64Val (b64Chr v) = some v := by decide

theorem c1EncSplitAux : ∀ (n : Nat) (raw : List Nat), raw.length ≤ n →
    (∀ c ∈ raw, c < 256) →
    ∃ e p, base64Encode raw = e ++ p ∧ (∀ c ∈ e, (b64Val c).isSome) ∧
      (∀ c ∈ p, c = 61) ∧
      sexDecode (e.map (fun c => (b64Val c).getD 0)) = some raw := by
  intro n
  induction n with
  | zero =>
    intro raw hlen _
    have : raw = [] := List.length_eq_zero.mp (by omega)
    subst this
    exact ⟨[], [], rfl, by simp, by simp, rfl⟩
  | succ n ih =>
    intro raw hlen h
    rcases raw with _ | ⟨a, _ | ⟨b, _ | ⟨c, rest⟩⟩⟩
    · exact ⟨[], [], rfl, by simp, by simp, rfl⟩
    · have ha : a < 256 := h a (by simp)
      refine ⟨[b64Chr (a / 4), b64Chr (a % 4 * 16)], [61, 61], rfl, ?_, ?_, ?_⟩
      · intro x hx
        simp only [List.mem_cons, List.not_mem_nil, or_false] at hx
        rcases hx with rfl | rfl
        · rw [b64Val_b64Chr (a / 4) (by omega)]
          rfl
        · rw [b64Val_b64Chr (a % 4 * 16) (by omega)]
          rfl
      · intro x hx
        simp only [List.mem_cons, List.not_mem_nil, or_false] at hx
        rcases hx with rfl | rfl <;> rfl
      · rw [List.map_cons, List.map_cons, List.map_nil,
          b64Val_b64Chr (a / 4) (by omega), b64Val_b64Chr (a % 4 * 16) (by omega)]
        show sexDecode [a / 4, a % 4 * 16] = some [a]
        rw [sexDecode]
        congr 1
        rw [List.cons.injEq]
        constructor
        · omega
        · rfl
    · have ha : a < 256 := h a (by simp)
      have hb : b < 256 := h b (by simp)
      refine ⟨[b64Chr (a / 4), b64Chr (a % 4 * 16 + b / 16), b64Chr (b % 16 * 4)],
        [61], rfl, ?_, ?_, ?_⟩
      · intro x hx
        simp only [List.mem_cons, List.not_mem_nil, or_false] at hx
        rcases hx with rfl | rfl | rfl
        · rw [b64Val_b64Chr (a / 4) (by omega)]; rfl
        · rw [b64Val_b64Chr (a % 4 * 16 + b / 16) (by omega)]; rfl
        · rw [b64Val_b64Chr (b % 16 * 4) (by omega)]; rfl
      · intro x hx
        simp only [List.mem_cons, List.not_mem_nil, or_false] at hx
        rcases hx with rfl <;> rfl
      · rw [List.map_cons, List.map_cons, List.map_cons, List.map_nil,
          b64Val_b64Chr (a / 4) (by omega),
          b64Val_b64Chr (a % 4 * 16 + b / 16) (by omega),
          b64Val_b64Chr (b % 16 * 4) (by omega)]
        show sexDecode [a / 4, a % 4 * 16 + b / 16, b % 16 * 4] = some [a, b]
        rw [sexDecode]
        congr 1
        rw [List.cons.injEq, List.cons.injEq]
        refine ⟨by omega, by omega, rfl⟩
    · have ha : a < 256 := h a (by simp)
      have hb : b < 256 := h b (by simp)
      have hc : c < 256 := h c (by simp)
      obtain ⟨e2, p2, henc, ha2, hp2, hs2⟩ := ih rest
        (by simp only [List.length_cons] at hlen; omega)
        (fun x hx => h x (by simp [hx]))
      refine ⟨b64Chr (a / 4) :: b64Chr (a % 4 * 16 + b / 16) ::
          b64Chr (b % 16 * 4 + c / 64) :: b64Chr (c % 64) :: e2, p2, ?_, ?_, hp2, ?_⟩
      · rw [show base64Encode (a :: b :: c :: rest) =
            b64Chr (a / 4) :: b64Chr (a % 4 * 16 + b / 16) ::
              b64Chr (b % 16 * 4 + c / 64) :: b64Chr (c % 64) ::
                base64Encode rest from rfl, henc]
        rfl
      · intro x hx
        simp only [List.mem_cons] at hx
        rcases hx with rfl | rfl | rfl | rfl | h1
        · rw [b64Val_b64Chr (a / 4) (by omega)]; rfl
        · rw [b64Val_b64Chr (a % 4 * 16 + b / 16) (by omega)]; rfl
        · rw [b64Val_b64Chr (b % 16 * 4 + c / 64) (by omega)]; rfl
        · rw [b64Val_b64Chr (c % 64) (by omega)]; rfl
        · exact ha2 x h1
      · rw [List.map_cons, List.map_cons, List.map_cons, List.map_cons,
          b64Val_b64Chr (a / 4) (by omega),
          b64Val_b64Chr (a % 4 * 16 + b / 16) (by omega),
          b64Val_b64Chr (b % 16 * 4 + c / 64) (by omega),
          b64Val_b64Chr (c % 64) (by omega)]
        show sexDecode ((a / 4) :: (a % 4 * 16 + b / 16) ::
            (b % 16 * 4 + c / 64) :: (c % 64) ::
              e2.map (fun x => (b64Val x).getD 0)) = some (a :: b :: c :: rest)
        rw [sexDecode, hs2]
        dsimp only
        congr 1
        rw [List.cons.injEq, List.cons.injEq, List.cons.injEq]
        refine ⟨by omega, by omega, by omega, rfl⟩

theorem c1B64 (raw : List Nat) (bw : Nat) (w : List Nat)
    (h : ∀ c ∈ raw, c < 256) :
    base64DecodeStream ((emitB64 [13, 10, 9] (base64Encode raw) bw).1 ++ 59 :: w) =
      (some raw, w) := by
  obtain ⟨e, p, henc, ha, hp, hs⟩ := c1EncSplitAux raw.length raw (le_refl _) h
  rw [henc, base64DecodeStream, c1B64Collect e p bw [] w ha hp]
  simp [hs]

theorem c1Alg : ∀ (a : Algorithm) (z : List Nat),
    algorithmFn (algName a ++ 59 :: z) = .ok (a, z) := by
  intro a z
  have e1 : bytes ("sa-sha") = [115, 97, 45, 115, 104, 97] := by decide
  have e2 : bytes ("d25519-sha256") =
      [100, 50, 53, 53, 49, 57, 45, 115, 104, 97, 50, 53, 54] := by decide
  cases a
  · rw [show algName .RsaSha256 = [114, 115, 97, 45, 115, 104, 97, 50, 53, 54]
      from by decide]
    simp [algorithmFn, nextSkipWsFn, e1, matchBytesFn, isAsciiWs, lowerB,
      rsaAlgoLoop, rsaAlgoFinish]
  · rw [show algName .RsaSha1 = [114, 115, 97, 45, 115, 104, 97, 49]
      from by decide]
    simp [algorithmFn, nextSkipWsFn, e1, matchBytesFn, isAsciiWs, lowerB,
      rsaAlgoLoop, rsaAlgoFinish]
  · rw [show algName .Ed25519Sha256 =
      [101, 100, 50, 53, 53, 49, 57, 45, 115, 104, 97, 50, 53, 54] from by decide]
    simp [algorithmFn, nextSkipWsFn, e2, matchBytesFn, isAsciiWs, lowerB,
      seekTagEndFn]

theorem c1Canon : ∀ (f : Nat) (dflt : Canonicalization)
    (ch cb : Canonicalization) (z : List Nat),
    canonGo (f + 1 + 1 + 1 + 1) dflt dflt false none
        (canonName ch ++ 47 :: canonName cb ++ 59 :: z) =
      .ok ((ch, cb), z) := by
  intro f dflt ch cb z
  have e1 : bytes ("imple") = [105, 109, 112, 108, 101] := by decide
  have e2 : bytes ("elaxed") = [101, 108, 97, 120, 101, 100] := by decide
  have s1 : canonName .Simple = [115, 105, 109, 112, 108, 101] := by decide
  have s2 : canonName .Relaxed = [114, 101, 108, 97, 120, 101, 100] := by decide
  cases ch <;> cases cb <;>
    simp [s1, s2, canonGo, e1, e2, matchBytesFn, isAsciiWs, lowerB, canonFinish]

theorem tagDisp_v (sig : Signature) (r u : List Nat)
    (h : numberFn r = (some 1, u)) :
    parseSigTag sig [118] r = .ok ({ sig with v := 1 }, u) := by
  rw [parseSigTag, if_pos (by decide), h]
  dsimp only
  rw [if_neg (by decide)]
  rfl

theorem tagDisp_a (sig : Signature) (r u : List Nat) (a : Algorithm)
    (h : algorithmFn r = .ok (a, u)) :
    parseSigTag sig [97] r = .ok ({ sig with a := a }, u) := by
  rw [parseSigTag, if_neg (by decide), if_pos (by decide), h]

theorem tagDisp_bh (sig : Signature) (r u bv : List Nat)
    (h : base64DecodeStream r = (some bv, u)) :
    parseSigTag sig [98, 104] r = .ok ({ sig with bh := bv }, u) := by
  rw [parseSigTag, if_neg (by decide), if_neg (by decide), if_neg (by decide),
    if_pos (by decide), h]

theorem tagDisp_b (sig : Signature) (r u bv : List Nat)
    (h : base64DecodeStream r = (some bv, u)) :
    parseSigTag sig [98] r = .ok ({ sig with b := bv }, u) := by
  rw [parseSigTag, if_neg (by decide), if_neg (by decide), if_pos (by decide), h]

theorem tagDisp_c (sig : Signature) (r u : List Nat) (ch cb : Canonicalization)
    (h : canonicalization .Simple r = .ok ((ch, cb), u)) :
    parseSigTag sig [99] r = .ok ({ sig with ch := ch, cb := cb }, u) := by
  rw [parseSigTag, if_neg (by decide), if_neg (by decide), if_neg (by decide),
    if_neg (by decide), if_pos (by decide), h]

theorem tagDisp_d (sig : Signature) (r u dv : List Nat)
    (h : tagFn r = (dv, u)) :
    parseSigTag sig [100] r = .ok ({ sig with d := dv }, u) := by
  rw [parseSigTag, if_neg (by decide), if_neg (by decide), if_neg (by decide),
    if_neg (by decide), if_neg (by decide), if_pos (by decide), h]

theorem tagDisp_h (sig : Signature) (r u : List Nat) (hv : List (List Nat))
    (h : itemsFn r = (hv, u)) :
    parseSigTag sig [104] r = .ok ({ sig with h := hv }, u) := by
  rw [parseSigTag, if_neg (by decide), if_neg (by decide), if_neg (by decide),
    if_neg (by decide), if_neg (by decide), if_neg (by decide),
    if_pos (by decide), h]

theorem tagDisp_i (sig : Signature) (r u iv : List Nat)
    (h : tagQpFn r = (iv, u)) :
    parseSigTag sig [105] r = .ok ({ sig with i := iv }, u) := by
  rw [parseSigTag, if_neg (by decide), if_neg (by decide), if_neg (by decide),
    if_neg (by decide), if_neg (by decide), if_neg (by decide),
    if_neg (by decide), if_pos (by decide), h]

theorem tagDisp_l (sig : Signature) (r u : List Nat) (lv : Nat)
    (h : numberFn r = (some lv, u)) :
    parseSigTag sig [108] r = .ok ({ sig with l := lv }, u) := by
  rw [parseSigTag, if_neg (by decide), if_neg (by decide), if_neg (by decide),
    if_neg (by decide), if_neg (by decide), if_neg (by decide),
    if_neg (by decide), if_neg (by decide), if_pos (by decide), h]
  rfl

theorem tagDisp_s (sig : Signature) (r u sv : List Nat)
    (h : tagFn r = (sv, u)) :
    parseSigTag sig [115] r = .ok ({ sig with s := sv }, u) := by
  rw [parseSigTag, if_neg (by decide), if_neg (by decide), if_neg (by decide),
    if_neg (by decide), if_neg (by decide), if_neg (by decide),
    if_neg (by decide), if_neg (by decide), if_neg (by decide),
    if_pos (by decide), h]

theorem tagDisp_t (sig : Signature) (r u : List Nat) (tv : Nat)
    (h : numberFn r = (some tv, u)) :
    parseSigTag sig [116] r = .ok ({ sig with t := tv }, u) := by
  rw [parseSigTag, if_neg (by decide), if_neg (by decide), if_neg (by decide),
    if_neg (by decide), if_neg (by decide), if_neg (by decide),
    if_neg (by decide), if_neg (by decide), if_neg (by decide),
    if_neg (by decide), if_pos (by decide), h]
  rfl

theorem tagDisp_x (sig : Signature) (r u : List Nat) (xv : Nat)
    (h : numberFn r = (some xv, u)) :
    parseSigTag sig [120] r = .ok ({ sig with x := xv }, u) := by
  rw [parseSigTag, if_neg (by decide), if_neg (by decide), if_neg (by decide),
    if_neg (by decide), if_neg (by decide), if_neg (by decide),
    if_neg (by decide), if_neg (by decide), if_neg (by decide),
    if_neg (by decide), if_neg (by decide), if_pos (by decide), h]
  rfl

theorem emitNum_head (tag : List Nat) (v bw : Nat) :
    (emitNum [13, 10, 9] tag v bw).1 = [] ∨
      ∃ u, (emitNum [13, 10, 9] tag v bw).1 = 59 :: u := by
  by_cases h : v = 0
  · left
    rw [emitNum, if_pos h]
  · right
    rw [emitNum, if_neg h]
    exact ⟨_, rfl⟩

theorem emitI_head (iv : List Nat) (bw : Nat) :
    (emitI [13, 10, 9] iv bw).1 = [] ∨
      ∃ u, (emitI [13, 10, 9] iv bw).1 = 59 :: u := by
  by_cases h : iv = []
  · left
    rw [emitI, if_pos h]
  · right
    rw [emitI, if_neg h]
    dsimp only
    by_cases hbig : bw + iv.length + 3 ≥ 76
    · rw [if_pos hbig]
      exact ⟨_, rfl⟩
    · rw [if_neg hbig]
      rw [show bytes ("; ") = [59, 32] from by decide]
      exact ⟨_, rfl⟩

theorem c1StepBB (bhraw braw : List Nat)
    (hbh : ∀ c ∈ bhraw, c < 256) (hb : ∀ c ∈ braw, c < 256) :
    ∀ (f : Nat) (sig : Signature) (bw1 bw2 : Nat),
      parseSigLoop (f + 1 + 1 + 1) sig
          (32 :: 98 :: 104 :: 61 ::
            ((emitB64 [13, 10, 9] (base64Encode bhraw) bw1).1 ++
              59 :: 32 :: 98 :: 61 ::
                ((emitB64 [13, 10, 9] (base64Encode braw) bw2).1 ++ [59, 13, 10]))) =
        .ok { sig with bh := bhraw, b := braw } := by
  intro f sig bw1 bw2
  have h1 : keyFn (32 :: 98 :: 104 :: 61 ::
      ((emitB64 [13, 10, 9] (base64Encode bhraw) bw1).1 ++
        59 :: 32 :: 98 :: 61 ::
          ((emitB64 [13, 10, 9] (base64Encode braw) bw2).1 ++ [59, 13, 10]))) =
      some ([98, 104],
        (emitB64 [13, 10, 9] (base64Encode bhraw) bw1).1 ++
          59 :: 32 :: 98 :: 61 ::
            ((emitB64 [13, 10, 9] (base64Encode braw) bw2).1 ++ [59, 13, 10])) := by
    rw [keyFn_skip 32 _ (Or.inl (by decide)),
      keyFn_at_two 98 104 _ (by decide) (by decide) (by decide) (by decide)
        (by decide)]
    rfl
  have h2 : parseSigTag sig [98, 104]
      ((emitB64 [13, 10, 9] (base64Encode bhraw) bw1).1 ++
        59 :: 32 :: 98 :: 61 ::
          ((emitB64 [13, 10, 9] (base64Encode braw) bw2).1 ++ [59, 13, 10])) =
      .ok ({ sig with bh := bhraw },
        32 :: 98 :: 61 ::
          ((emitB64 [13, 10, 9] (base64Encode braw) bw2).1 ++ [59, 13, 10])) :=
    tagDisp_bh sig _ _ bhraw (c1B64 bhraw bw1 _ hbh)
  refine (parseSigLoop_step _ _ _ _ _ _ _ h1 h2).trans ?_
  have h3 : keyFn (32 :: 98 :: 61 ::
      ((emitB64 [13, 10, 9] (base64Encode braw) bw2).1 ++ [59, 13, 10])) =
      some ([98],
        (emitB64 [13, 10, 9] (base64Encode braw) bw2).1 ++ [59, 13, 10]) := by
    rw [keyFn_skip 32 _ (Or.inl (by decide)),
      keyFn_at_one 98 _ (by decide) (by decide) (by decide)]
    rfl
  have h4 : parseSigTag { sig with bh := bhraw } [98]
      ((emitB64 [13, 10, 9] (base64Encode braw) bw2).1 ++ [59, 13, 10]) =
      .ok ({ sig with bh := bhraw, b := braw }, [13, 10]) :=
    tagDisp_b _ _ _ braw (c1B64 braw bw2 [13, 10] hb)
  refine (parseSigLoop_step _ _ _ _ _ _ _ h3 h4).trans ?_
  exact parseSigLoop_none f _ _ (by decide)

theorem c1StepL (K : Nat) (F : Signature → Signature) (u : List Nat)
    (lv bw : Nat) (hlv : lv < 2 ^ 64)
    (cont : ∀ g sig2, parseSigLoop (g + K) sig2 u = .ok (F sig2)) :
    ∀ f sig, sig.l = 0 →
      parseSigLoop (f + K + 1) sig
          (((emitNum [13, 10, 9] (bytes ("l=")) lv bw).1 ++ 59 :: u).tail) =
        .ok (F { sig with l := lv }) := by
  intro f sig hl0
  by_cases h0 : lv = 0
  · subst h0
    rw [show (emitNum [13, 10, 9] (bytes ("l=")) 0 bw).1 = [] from by
      rw [emitNum, if_pos rfl], List.nil_append, List.tail_cons]
    have hsig : { sig with l := 0 } = sig := by
      rcases sig with ⟨v1, a1, d1, s1, i1, b1, bh1, h1, z1, l1, x1, t1, ch1, cb1⟩
      dsimp only at hl0
      subst hl0
      rfl
    rw [hsig, show f + K + 1 = (f + 1) + K from by omega]
    exact cont (f + 1) sig
  · rw [show bytes ("l=") = [108, 61] from by decide] at *
    rw [show (emitNum [13, 10, 9] [108, 61] lv bw).1 =
        59 :: (((if bw + 1 + [(108 : Nat), 61].length + (natDigits lv).length ≥ 76
          then [13, 10, 9] else [32]) ++ [108, 61]) ++ natDigits lv) from by
      rw [emitNum, if_neg h0]
      rfl]
    rw [List.cons_append, List.tail_cons, List.append_assoc, List.append_assoc]
    simp only [List.cons_append, List.nil_append]
    have hnum : numberFn (natDigits lv ++ 59 :: u) = (some lv, u) :=
      numberFn_natDigits lv u (by omega) hlv
    have hkey : keyFn ((if bw + 1 + [(108 : Nat), 61].length +
        (natDigits lv).length ≥ 76 then [13, 10, 9] else [32]) ++
          (108 :: 61 :: (natDigits lv ++ 59 :: u))) =
        some ([108], natDigits lv ++ 59 :: u) := by
      split
      · rw [show ([13, 10, 9] : List Nat) ++
            (108 :: 61 :: (natDigits lv ++ 59 :: u)) =
            13 :: 10 :: 9 :: (108 :: 61 :: (natDigits lv ++ 59 :: u)) from rfl]
        rw [keyFn_skip 13 _ (Or.inl (by decide)),
          keyFn_skip 10 _ (Or.inl (by decide)),
          keyFn_skip 9 _ (Or.inl (by decide)),
          keyFn_at_one 108 _ (by decide) (by decide) (by decide)]
        rfl
      · rw [show ([32] : List Nat) ++ (108 :: 61 :: (natDigits lv ++ 59 :: u)) =
            32 :: (108 :: 61 :: (natDigits lv ++ 59 :: u)) from rfl]
        rw [keyFn_skip 32 _ (Or.inl (by decide)),
          keyFn_at_one 108 _ (by decide) (by decide) (by decide)]
        rfl
    refine (parseSigLoop_step _ _ _ _ _ _ _ hkey
      (tagDisp_l sig _ _ lv hnum)).trans ?_
    exact cont f { sig with l := lv }

theorem c1StepX (K : Nat) (F : Signature → Signature) (u : List Nat)
    (xv bw : Nat) (hxv : xv < 2 ^ 64)
    (cont : ∀ g sig2, sig2.l = 0 → parseSigLoop (g + K) sig2 u = .ok (F sig2)) :
    ∀ f sig, sig.x = 0 → sig.l = 0 →
      parseSigLoop (f + K + 1) sig
          (((emitNum [13, 10, 9] (bytes ("x=")) xv bw).1 ++ 59 :: u).tail) =
        .ok (F { sig with x := xv }) := by
  intro f sig hx0 hl0
  by_cases h0 : xv = 0
  · subst h0
    rw [show (emitNum [13, 10, 9] (bytes ("x=")) 0 bw).1 = [] from by
      rw [emitNum, if_pos rfl], List.nil_append, List.tail_cons]
    have hsig : { sig with x := 0 } = sig := by
      rcases sig with ⟨v1, a1, d1, s1, i1, b1, bh1, h1, z1, l1, x1, t1, ch1, cb1⟩
      dsimp only at hx0
      subst hx0
      rfl
    rw [hsig, show f + K + 1 = (f + 1) + K from by omega]
    exact cont (f + 1) sig hl0
  · rw [show bytes ("x=") = [120, 61] from by decide] at *
    rw [show (emitNum [13, 10, 9] [120, 61] xv bw).1 =
        59 :: (((if bw + 1 + [(120 : Nat), 61].length + (natDigits xv).length ≥ 76
          then [13, 10, 9] else [32]) ++ [120, 61]) ++ natDigits xv) from by
      rw [emitNum, if_neg h0]
      rfl]
    rw [List.cons_append, List.tail_cons, List.append_assoc, List.append_assoc]
    simp only [List.cons_append, List.nil_append]
    have hnum : numberFn (natDigits xv ++ 59 :: u) = (some xv, u) :=
      numberFn_natDigits xv u (by omega) hxv
    have hkey : keyFn ((if bw + 1 + [(120 : Nat), 61].length +
        (natDigits xv).length ≥ 76 then [13, 10, 9] else [32]) ++
          (120 :: 61 :: (natDigits xv ++ 59 :: u))) =
        some ([120], natDigits xv ++ 59 :: u) := by
      split
      · rw [show ([13, 10, 9] : List Nat) ++
            (120 :: 61 :: (natDigits xv ++ 59 :: u)) =
            13 :: 10 :: 9 :: (120 :: 61 :: (natDigits xv ++ 59 :: u)) from rfl]
        rw [keyFn_skip 13 _ (Or.inl (by decide)),
          keyFn_skip 10 _ (Or.inl (by decide)),
          keyFn_skip 9 _ (Or.inl (by decide)),
          keyFn_at_one 120 _ (by decide) (by decide) (by decide)]
        rfl
      · rw [show ([32] : List Nat) ++ (120 :: 61 :: (natDigits xv ++ 59 :: u)) =
            32 :: (120 :: 61 :: (natDigits xv ++ 59 :: u)) from rfl]
        rw [keyFn_skip 32 _ (Or.inl (by decide)),
          keyFn_at_one 120 _ (by decide) (by decide) (by decide)]
        rfl
    refine (parseSigLoop_step _ _ _ _ _ _ _ hkey
      (tagDisp_x sig _ _ xv hnum)).trans ?_
    exact cont f { sig with x := xv } hl0

theorem c1StepT (K : Nat) (F : Signature → Signature) (u : List Nat)
    (tv bw : Nat) (htv : tv < 2 ^ 64)
    (cont : ∀ g sig2, sig2.x = 0 → sig2.l = 0 →
      parseSigLoop (g + K) sig2 u = .ok (F sig2)) :
    ∀ f sig, sig.t = 0 → sig.x = 0 → sig.l = 0 →
      parseSigLoop (f + K + 1) sig
          (((emitNum [13, 10, 9] (bytes ("t=")) tv bw).1 ++ 59 :: u).tail) =
        .ok (F { sig with t := tv }) := by
  intro f sig ht0 hx0 hl0
  by_cases h0 : tv = 0
  · subst h0
    rw [show (emitNum [13, 10, 9] (bytes ("t=")) 0 bw).1 = [] from by
      rw [emitNum, if_pos rfl], List.nil_append, List.tail_cons]
    have hsig : { sig with t := 0 } = sig := by
      rcases sig with ⟨v1, a1, d1, s1, i1, b1, bh1, h1, z1, l1, x1, t1, ch1, cb1⟩
      dsimp only at ht0
      subst ht0
      rfl
    rw [hsig, show f + K + 1 = (f + 1) + K from by omega]
    exact cont (f + 1) sig hx0 hl0
  · rw [show bytes ("t=") = [116, 61] from by decide] at *
    rw [show (emitNum [13, 10, 9] [116, 61] tv bw).1 =
        59 :: (((if bw + 1 + [(116 : Nat), 61].length + (natDigits tv).length ≥ 76
          then [13, 10, 9] else [32]) ++ [116, 61]) ++ natDigits tv) from by
      rw [emitNum, if_neg h0]
      rfl]
    rw [List.cons_append, List.tail_cons, List.append_assoc, List.append_assoc]
    simp only [List.cons_append, List.nil_append]
    have hnum : numberFn (natDigits tv ++ 59 :: u) = (some tv, u) :=
      numberFn_natDigits tv u (by omega) htv
    have hkey : keyFn ((if bw + 1 + [(116 : Nat), 61].length +
        (natDigits tv).length ≥ 76 then [13, 10, 9] else [32]) ++
          (116 :: 61 :: (natDigits tv ++ 59 :: u))) =
        some ([116], natDigits tv ++ 59 :: u) := by
      split
      · rw [show ([13, 10, 9] : List Nat) ++
            (116 :: 61 :: (natDigits tv ++ 59 :: u)) =
            13 :: 10 :: 9 :: (116 :: 61 :: (natDigits tv ++ 59 :: u)) from rfl]
        rw [keyFn_skip 13 _ (Or.inl (by decide)),
          keyFn_skip 10 _ (Or.inl (by decide)),
          keyFn_skip 9 _ (Or.inl (by decide)),
          keyFn_at_one 116 _ (by decide) (by decide) (by decide)]
        rfl
      · rw [show ([32] : List Nat) ++ (116 :: 61 :: (natDigits tv ++ 59 :: u)) =
            32 :: (116 :: 61 :: (natDigits tv ++ 59 :: u)) from rfl]
        rw [keyFn_skip 32 _ (Or.inl (by decide)),
          keyFn_at_one 116 _ (by decide) (by decide) (by decide)]
        rfl
    refine (parseSigLoop_step _ _ _ _ _ _ _ hkey
      (tagDisp_t sig _ _ tv hnum)).trans ?_
    exact cont f { sig with t := tv } hx0 hl0

theorem c1StepI (K : Nat) (F : Signature → Signature) (u : List Nat)
    (iv : List Nat) (bw : Nat) (hi : ∀ c ∈ iv, c < 256 ∧ c ≠ 61)
    (cont : ∀ g sig2, sig2.t = 0 → sig2.x = 0 → sig2.l = 0 →
      parseSigLoop (g + K) sig2 u = .ok (F sig2)) :
    ∀ f sig, sig.i = [] → sig.t = 0 → sig.x = 0 → sig.l = 0 →
      parseSigLoop (f + K + 1) sig
          (((emitI [13, 10, 9] iv bw).1 ++ 59 :: u).tail) =
        .ok (F { sig with i := iv }) := by
  intro f sig hi0 ht0 hx0 hl0
  by_cases h0 : iv = []
  · subst h0
    rw [show (emitI [13, 10, 9] [] bw).1 = [] from by rw [emitI, if_pos rfl],
      List.nil_append, List.tail_cons]
    have hsig : { sig with i := ([] : List Nat) } = sig := by
      rcases sig with ⟨v1, a1, d1, s1, i1, b1, bh1, h1, z1, l1, x1, t1, ch1, cb1⟩
      dsimp only at hi0
      subst hi0
      rfl
    rw [hsig, show f + K + 1 = (f + 1) + K from by omega]
    exact cont (f + 1) sig ht0 hx0 hl0
  · by_cases hbig : bw + iv.length + 3 ≥ 76
    · rw [show (emitI [13, 10, 9] iv bw).1 =
          59 :: 13 :: 10 :: 9 :: 105 :: 61 ::
            (emitIBody [13, 10, 9] iv (1 + 2)).1 from by
        rw [emitI, if_neg h0]
        dsimp only
        rw [if_pos hbig, if_pos hbig, show bytes ("i=") = [105, 61] from by decide]
        rfl]
      rw [List.cons_append, List.tail_cons]
      simp only [List.cons_append]
      have hkey : keyFn (13 :: 10 :: 9 :: 105 :: 61 ::
          ((emitIBody [13, 10, 9] iv (1 + 2)).1 ++ 59 :: u)) =
          some ([105], (emitIBody [13, 10, 9] iv (1 + 2)).1 ++ 59 :: u) := by
        rw [keyFn_skip 13 _ (Or.inl (by decide)),
          keyFn_skip 10 _ (Or.inl (by decide)),
          keyFn_skip 9 _ (Or.inl (by decide)),
          keyFn_at_one 105 _ (by decide) (by decide) (by decide)]
        rfl
      refine (parseSigLoop_step _ _ _ _ _ _ _ hkey
        (tagDisp_i sig _ _ iv (c1Qp iv (1 + 2) u hi))).trans ?_
      exact cont f { sig with i := iv } ht0 hx0 hl0
    · rw [show (emitI [13, 10, 9] iv bw).1 =
          59 :: 32 :: 105 :: 61 ::
            (emitIBody [13, 10, 9] iv (bw + 2 + 2)).1 from by
        rw [emitI, if_neg h0]
        dsimp only
        rw [if_neg hbig, if_neg hbig, show bytes ("; ") = [59, 32] from by decide,
          show bytes ("i=") = [105, 61] from by decide]
        rfl]
      rw [List.cons_append, List.tail_cons]
      simp only [List.cons_append]
      have hkey : keyFn (32 :: 105 :: 61 ::
          ((emitIBody [13, 10, 9] iv (bw + 2 + 2)).1 ++ 59 :: u)) =
          some ([105], (emitIBody [13, 10, 9] iv (bw + 2 + 2)).1 ++ 59 :: u) := by
        rw [keyFn_skip 32 _ (Or.inl (by decide)),
          keyFn_at_one 105 _ (by decide) (by decide) (by decide)]
        rfl
      refine (parseSigLoop_step _ _ _ _ _ _ _ hkey
        (tagDisp_i sig _ _ iv (c1Qp iv (bw + 2 + 2) u hi))).trans ?_
      exact cont f { sig with i := iv } ht0 hx0 hl0

theorem c1StepH (K : Nat) (F : Signature → Signature) (u : List Nat)
    (hs : List (List Nat)) (bw : Nat) (hne : hs ≠ [])
    (hnm : ∀ nm ∈ hs, nm ≠ [] ∧ ∀ c ∈ nm, isAsciiWs c = false ∧ c ≠ 58 ∧ c ≠ 59)
    (cont : ∀ g sig2, sig2.i = [] → sig2.t = 0 → sig2.x = 0 → sig2.l = 0 →
      parseSigLoop (g + K) sig2 u = .ok (F sig2)) :
    ∀ f sig, sig.i = [] → sig.t = 0 → sig.x = 0 → sig.l = 0 →
      parseSigLoop (f + K + 1) sig
          (13 :: 10 :: 9 :: ((emitH [13, 10, 9] hs true bw).1 ++ 59 :: u)) =
        .ok (F { sig with h := hs }) := by
  intro f sig hi0 ht0 hx0 hl0
  rcases hs with _ | ⟨n1, rest⟩
  · exact absurd rfl hne
  obtain ⟨hn1, hn1c⟩ := hnm n1 (List.mem_cons_self n1 rest)
  have hrest : ∀ nm ∈ rest, nm ≠ [] ∧
      ∀ c ∈ nm, isAsciiWs c = false ∧ c ≠ 58 ∧ c ≠ 59 :=
    fun nm hm => hnm nm (List.mem_cons_of_mem n1 hm)
  by_cases hbig : bw + n1.length + 1 ≥ 76
  · rw [show (emitH [13, 10, 9] (n1 :: rest) true bw).1 =
        13 :: 10 :: 9 :: 104 :: 61 :: (n1 ++
          (emitH [13, 10, 9] rest false
            (1 + (bytes ("h=")).length + n1.length)).1) from by
      rw [emitH]
      dsimp only
      rw [if_pos hbig, if_pos hbig, show bytes ("h=") = [104, 61] from by decide]
      rfl]
    simp only [List.cons_append]
    rw [List.append_assoc]
    have hkey : keyFn (13 :: 10 :: 9 :: 13 :: 10 :: 9 :: 104 :: 61 ::
        (n1 ++ ((emitH [13, 10, 9] rest false
          (1 + (bytes ("h=")).length + n1.length)).1 ++ 59 :: u))) =
        some ([104], n1 ++ ((emitH [13, 10, 9] rest false
          (1 + (bytes ("h=")).length + n1.length)).1 ++ 59 :: u)) := by
      rw [keyFn_skip 13 _ (Or.inl (by decide)),
        keyFn_skip 10 _ (Or.inl (by decide)),
        keyFn_skip 9 _ (Or.inl (by decide)),
        keyFn_skip 13 _ (Or.inl (by decide)),
        keyFn_skip 10 _ (Or.inl (by decide)),
        keyFn_skip 9 _ (Or.inl (by decide)),
        keyFn_at_one 104 _ (by decide) (by decide) (by decide)]
      rfl
    refine (parseSigLoop_step _ _ _ _ _ _ _ hkey
      (tagDisp_h sig _ _ (n1 :: rest)
        (itemsFn_emitH n1 rest _ u hn1 hn1c hrest))).trans ?_
    exact cont f { sig with h := n1 :: rest } hi0 ht0 hx0 hl0
  · rw [show (emitH [13, 10, 9] (n1 :: rest) true bw).1 =
        104 :: 61 :: (n1 ++
          (emitH [13, 10, 9] rest false
            (bw + (bytes ("h=")).length + n1.length)).1) from by
      rw [emitH]
      dsimp only
      rw [if_neg hbig, if_neg hbig, show bytes ("h=") = [104, 61] from by decide]
      rfl]
    simp only [List.cons_append]
    rw [List.append_assoc]
    have hkey : keyFn (13 :: 10 :: 9 :: 104 :: 61 ::
        (n1 ++ ((emitH [13, 10, 9] rest false
          (bw + (bytes ("h=")).length + n1.length)).1 ++ 59 :: u))) =
        some ([104], n1 ++ ((emitH [13, 10, 9] rest false
          (bw + (bytes ("h=")).length + n1.length)).1 ++ 59 :: u)) := by
      rw [keyFn_skip 13 _ (Or.inl (by decide)),
        keyFn_skip 10 _ (Or.inl (by decide)),
        keyFn_skip 9 _ (Or.inl (by decide)),
        keyFn_at_one 104 _ (by decide) (by decide) (by decide)]
      rfl
    refine (parseSigLoop_step _ _ _ _ _ _ _ hkey
      (tagDisp_h sig _ _ (n1 :: rest)
        (itemsFn_emitH n1 rest _ u hn1 hn1c hrest))).trans ?_
    exact cont f { sig with h := n1 :: rest } hi0 ht0 hx0 hl0

theorem c1CanonFull (ch cb : Canonicalization) (z : List Nat) :
    canonicalization .Simple (canonName ch ++ 47 :: canonName cb ++ 59 :: z) =
      .ok ((ch, cb), z) := by
  rw [canonicalization]
  have h6 : 6 ≤ (canonName ch).length := by cases ch <;> decide
  have hlen : (canonName ch ++ 47 :: canonName cb ++ 59 :: z).length + 1 =
      ((canonName ch ++ 47 :: canonName cb ++ 59 :: z).length + 1 - 4) +
        1 + 1 + 1 + 1 := by
    simp only [List.length_append, List.length_cons]
    omega
  rw [hlen]
  exact c1Canon _ _ ch cb z

theorem c1Chain (a : Algorithm) (ch cb : Canonicalization)
    (d s iv : List Nat) (hs : List (List Nat)) (tv xv lv : Nat)
    (bhraw braw : List Nat) (bwH bwI bwT bwX bwL bwBH bwB : Nat)
    (hsc : ∀ c ∈ s, isAsciiWs c = false ∧ c ≠ 59)
    (hdc : ∀ c ∈ d, isAsciiWs c = false ∧ c ≠ 59)
    (hhne : hs ≠ [])
    (hnm : ∀ nm ∈ hs, nm ≠ [] ∧ ∀ c ∈ nm, isAsciiWs c = false ∧ c ≠ 58 ∧ c ≠ 59)
    (hi : ∀ c ∈ iv, c < 256 ∧ c ≠ 61)
    (ht : tv < 2 ^ 64) (hx : xv < 2 ^ 64) (hl : lv < 2 ^ 64)
    (hbhc : ∀ c ∈ bhraw, c < 256) (hbc : ∀ c ∈ braw, c < 256) :
    ∀ f, parseSigLoop (f + 13) sigInit
        (32 :: 118 :: 61 :: 49 :: 59 :: 32 :: 97 :: 61 ::
          (algName a ++ 59 :: 32 :: 115 :: 61 ::
            (s ++ 59 :: 32 :: 100 :: 61 ::
              (d ++ 59 :: 32 :: 99 :: 61 ::
                (canonName ch ++ 47 :: canonName cb ++ 59 :: 13 :: 10 :: 9 ::
                  ((emitH [13, 10, 9] hs true bwH).1 ++
                    ((emitI [13, 10, 9] iv bwI).1 ++
                      ((emitNum [13, 10, 9] (bytes ("t=")) tv bwT).1 ++
                        ((emitNum [13, 10, 9] (bytes ("x=")) xv bwX).1 ++
                          ((emitNum [13, 10, 9] (bytes ("l=")) lv bwL).1 ++
                            59 :: 32 :: 98 :: 104 :: 61 :: ((emitB64 [13, 10, 9] (base64Encode bhraw) bwBH).1 ++ 59 :: 32 :: 98 :: 61 :: ((emitB64 [13, 10, 9] (base64Encode braw) bwB).1 ++ [59, 13, 10])))))))))))) =
      .ok ⟨1, a, d, s, iv, braw, bhraw, hs, [], lv, xv, tv, ch, cb⟩ := by
  intro f
  have hkv : keyFn (32 :: 118 :: 61 :: 49 :: 59 :: 32 :: 97 :: 61 ::
      (algName a ++ 59 :: 32 :: 115 :: 61 ::
        (s ++ 59 :: 32 :: 100 :: 61 ::
          (d ++ 59 :: 32 :: 99 :: 61 ::
            (canonName ch ++ 47 :: canonName cb ++ 59 :: 13 :: 10 :: 9 :: ((emitH [13, 10, 9] hs true bwH).1 ++ ((emitI [13, 10, 9] iv bwI).1 ++ ((emitNum [13, 10, 9] (bytes ("t=")) tv bwT).1 ++ ((emitNum [13, 10, 9] (bytes ("x=")) xv bwX).1 ++ ((emitNum [13, 10, 9] (bytes ("l=")) lv bwL).1 ++ 59 :: 32 :: 98 :: 104 :: 61 :: ((emitB64 [13, 10, 9] (base64Encode bhraw) bwBH).1 ++ 59 :: 32 :: 98 :: 61 :: ((emitB64 [13, 10, 9] (base64Encode braw) bwB).1 ++ [59, 13, 10])))))))))))) =
      some ([118], 49 :: 59 :: 32 :: 97 :: 61 ::
        (algName a ++ 59 :: 32 :: 115 :: 61 ::
          (s ++ 59 :: 32 :: 100 :: 61 ::
            (d ++ 59 :: 32 :: 99 :: 61 ::
              (canonName ch ++ 47 :: canonName cb ++ 59 :: 13 :: 10 :: 9 :: ((emitH [13, 10, 9] hs true bwH).1 ++ ((emitI [13, 10, 9] iv bwI).1 ++ ((emitNum [13, 10, 9] (bytes ("t=")) tv bwT).1 ++ ((emitNum [13, 10, 9] (bytes ("x=")) xv bwX).1 ++ ((emitNum [13, 10, 9] (bytes ("l=")) lv bwL).1 ++ 59 :: 32 :: 98 :: 104 :: 61 :: ((emitB64 [13, 10, 9] (base64Encode bhraw) bwBH).1 ++ 59 :: 32 :: 98 :: 61 :: ((emitB64 [13, 10, 9] (base64Encode braw) bwB).1 ++ [59, 13, 10])))))))))))) := by
    rw [keyFn_skip 32 _ (Or.inl (by decide)),
      keyFn_at_one 118 _ (by decide) (by decide) (by decide)]
    rfl
  have hnv : numberFn (49 :: 59 :: 32 :: 97 :: 61 ::
      (algName a ++ 59 :: 32 :: 115 :: 61 ::
        (s ++ 59 :: 32 :: 100 :: 61 ::
          (d ++ 59 :: 32 :: 99 :: 61 ::
            (canonName ch ++ 47 :: canonName cb ++ 59 :: 13 :: 10 :: 9 :: ((emitH [13, 10, 9] hs true bwH).1 ++ ((emitI [13, 10, 9] iv bwI).1 ++ ((emitNum [13, 10, 9] (bytes ("t=")) tv bwT).1 ++ ((emitNum [13, 10, 9] (bytes ("x=")) xv bwX).1 ++ ((emitNum [13, 10, 9] (bytes ("l=")) lv bwL).1 ++ 59 :: 32 :: 98 :: 104 :: 61 :: ((emitB64 [13, 10, 9] (base64Encode bhraw) bwBH).1 ++ 59 :: 32 :: 98 :: 61 :: ((emitB64 [13, 10, 9] (base64Encode braw) bwB).1 ++ [59, 13, 10])))))))))))) =
      (some 1, 32 :: 97 :: 61 ::
        (algName a ++ 59 :: 32 :: 115 :: 61 ::
          (s ++ 59 :: 32 :: 100 :: 61 ::
            (d ++ 59 :: 32 :: 99 :: 61 ::
              (canonName ch ++ 47 :: canonName cb ++ 59 :: 13 :: 10 :: 9 :: ((emitH [13, 10, 9] hs true bwH).1 ++ ((emitI [13, 10, 9] iv bwI).1 ++ ((emitNum [13, 10, 9] (bytes ("t=")) tv bwT).1 ++ ((emitNum [13, 10, 9] (bytes ("x=")) xv bwX).1 ++ ((emitNum [13, 10, 9] (bytes ("l=")) lv bwL).1 ++ 59 :: 32 :: 98 :: 104 :: 61 :: ((emitB64 [13, 10, 9] (base64Encode bhraw) bwBH).1 ++ 59 :: 32 :: 98 :: 61 :: ((emitB64 [13, 10, 9] (base64Encode braw) bwB).1 ++ [59, 13, 10])))))))))))) := by
    rw [numberFn, if_neg (by decide), if_pos (by decide), numberDigits,
      if_neg (by decide), if_pos rfl]
  refine (parseSigLoop_step _ _ _ _ _ _ _ hkv (tagDisp_v sigInit _ _ hnv)).trans ?_
  have hka : keyFn (32 :: 97 :: 61 ::
      (algName a ++ 59 :: 32 :: 115 :: 61 ::
        (s ++ 59 :: 32 :: 100 :: 61 ::
          (d ++ 59 :: 32 :: 99 :: 61 ::
            (canonName ch ++ 47 :: canonName cb ++ 59 :: 13 :: 10 :: 9 :: ((emitH [13, 10, 9] hs true bwH).1 ++ ((emitI [13, 10, 9] iv bwI).1 ++ ((emitNum [13, 10, 9] (bytes ("t=")) tv bwT).1 ++ ((emitNum [13, 10, 9] (bytes ("x=")) xv bwX).1 ++ ((emitNum [13, 10, 9] (bytes ("l=")) lv bwL).1 ++ 59 :: 32 :: 98 :: 104 :: 61 :: ((emitB64 [13, 10, 9] (base64Encode bhraw) bwBH).1 ++ 59 :: 32 :: 98 :: 61 :: ((emitB64 [13, 10, 9] (base64Encode braw) bwB).1 ++ [59, 13, 10])))))))))))) =
      some ([97], algName a ++ 59 :: 32 :: 115 :: 61 ::
        (s ++ 59 :: 32 :: 100 :: 61 ::
          (d ++ 59 :: 32 :: 99 :: 61 ::
            (canonName ch ++ 47 :: canonName cb ++ 59 :: 13 :: 10 :: 9 :: ((emitH [13, 10, 9] hs true bwH).1 ++ ((emitI [13, 10, 9] iv bwI).1 ++ ((emitNum [13, 10, 9] (bytes ("t=")) tv bwT).1 ++ ((emitNum [13, 10, 9] (bytes ("x=")) xv bwX).1 ++ ((emitNum [13, 10, 9] (bytes ("l=")) lv bwL).1 ++ 59 :: 32 :: 98 :: 104 :: 61 :: ((emitB64 [13, 10, 9] (base64Encode bhraw) bwBH).1 ++ 59 :: 32 :: 98 :: 61 :: ((emitB64 [13, 10, 9] (base64Encode braw) bwB).1 ++ [59, 13, 10]))))))))))) := by
    rw [keyFn_skip 32 _ (Or.inl (by decide)),
      keyFn_at_one 97 _ (by decide) (by decide) (by decide)]
    rfl
  refine (parseSigLoop_step _ _ _ _ _ _ _ hka
    (tagDisp_a _ _ _ a (c1Alg a _))).trans ?_
  have hks : keyFn (32 :: 115 :: 61 ::
      (s ++ 59 :: 32 :: 100 :: 61 ::
        (d ++ 59 :: 32 :: 99 :: 61 ::
          (canonName ch ++ 47 :: canonName cb ++ 59 :: 13 :: 10 :: 9 :: ((emitH [13, 10, 9] hs true bwH).1 ++ ((emitI [13, 10, 9] iv bwI).1 ++ ((emitNum [13, 10, 9] (bytes ("t=")) tv bwT).1 ++ ((emitNum [13, 10, 9] (bytes ("x=")) xv bwX).1 ++ ((emitNum [13, 10, 9] (bytes ("l=")) lv bwL).1 ++ 59 :: 32 :: 98 :: 104 :: 61 :: ((emitB64 [13, 10, 9] (base64Encode bhraw) bwBH).1 ++ 59 :: 32 :: 98 :: 61 :: ((emitB64 [13, 10, 9] (base64Encode braw) bwB).1 ++ [59, 13, 10]))))))))))) =
      some ([115], s ++ 59 :: 32 :: 100 :: 61 ::
        (d ++ 59 :: 32 :: 99 :: 61 ::
          (canonName ch ++ 47 :: canonName cb ++ 59 :: 13 :: 10 :: 9 :: ((emitH [13, 10, 9] hs true bwH).1 ++ ((emitI [13, 10, 9] iv bwI).1 ++ ((emitNum [13, 10, 9] (bytes ("t=")) tv bwT).1 ++ ((emitNum [13, 10, 9] (bytes ("x=")) xv bwX).1 ++ ((emitNum [13, 10, 9] (bytes ("l=")) lv bwL).1 ++ 59 :: 32 :: 98 :: 104 :: 61 :: ((emitB64 [13, 10, 9] (base64Encode bhraw) bwBH).1 ++ 59 :: 32 :: 98 :: 61 :: ((emitB64 [13, 10, 9] (base64Encode braw) bwB).1 ++ [59, 13, 10])))))))))) := by
    rw [keyFn_skip 32 _ (Or.inl (by decide)),
      keyFn_at_one 115 _ (by decide) (by decide) (by decide)]
    rfl
  refine (parseSigLoop_step _ _ _ _ _ _ _ hks
    (tagDisp_s _ _ _ s (tagFn_clean s _ hsc))).trans ?_
  have hkd : keyFn (32 :: 100 :: 61 ::
      (d ++ 59 :: 32 :: 99 :: 61 ::
        (canonName ch ++ 47 :: canonName cb ++ 59 :: 13 :: 10 :: 9 :: ((emitH [13, 10, 9] hs true bwH).1 ++ ((emitI [13, 10, 9] iv bwI).1 ++ ((emitNum [13, 10, 9] (bytes ("t=")) tv bwT).1 ++ ((emitNum [13, 10, 9] (bytes ("x=")) xv bwX).1 ++ ((emitNum [13, 10, 9] (bytes ("l=")) lv bwL).1 ++ 59 :: 32 :: 98 :: 104 :: 61 :: ((emitB64 [13, 10, 9] (base64Encode bhraw) bwBH).1 ++ 59 :: 32 :: 98 :: 61 :: ((emitB64 [13, 10, 9] (base64Encode braw) bwB).1 ++ [59, 13, 10])))))))))) =
      some ([100], d ++ 59 :: 32 :: 99 :: 61 ::
        (canonName ch ++ 47 :: canonName cb ++ 59 :: 13 :: 10 :: 9 :: ((emitH [13, 10, 9] hs true bwH).1 ++ ((emitI [13, 10, 9] iv bwI).1 ++ ((emitNum [13, 10, 9] (bytes ("t=")) tv bwT).1 ++ ((emitNum [13, 10, 9] (bytes ("x=")) xv bwX).1 ++ ((emitNum [13, 10, 9] (bytes ("l=")) lv bwL).1 ++ 59 :: 32 :: 98 :: 104 :: 61 :: ((emitB64 [13, 10, 9] (base64Encode bhraw) bwBH).1 ++ 59 :: 32 :: 98 :: 61 :: ((emitB64 [13, 10, 9] (base64Encode braw) bwB).1 ++ [59, 13, 10]))))))))) := by
    rw [keyFn_skip 32 _ (Or.inl (by decide)),
      keyFn_at_one 100 _ (by decide) (by decide) (by decide)]
    rfl
  refine (parseSigLoop_step _ _ _ _ _ _ _ hkd
    (tagDisp_d _ _ _ d (tagFn_clean d _ hdc))).trans ?_
  have hkc : keyFn (32 :: 99 :: 61 ::
      (canonName ch ++ 47 :: canonName cb ++ 59 :: 13 :: 10 :: 9 :: ((emitH [13, 10, 9] hs true bwH).1 ++ ((emitI [13, 10, 9] iv bwI).1 ++ ((emitNum [13, 10, 9] (bytes ("t=")) tv bwT).1 ++ ((emitNum [13, 10, 9] (bytes ("x=")) xv bwX).1 ++ ((emitNum [13, 10, 9] (bytes ("l=")) lv bwL).1 ++ 59 :: 32 :: 98 :: 104 :: 61 :: ((emitB64 [13, 10, 9] (base64Encode bhraw) bwBH).1 ++ 59 :: 32 :: 98 :: 61 :: ((emitB64 [13, 10, 9] (base64Encode braw) bwB).1 ++ [59, 13, 10]))))))))) =
      some ([99], canonName ch ++ 47 :: canonName cb ++ 59 :: 13 :: 10 :: 9 :: ((emitH [13, 10, 9] hs true bwH).1 ++ ((emitI [13, 10, 9] iv bwI).1 ++ ((emitNum [13, 10, 9] (bytes ("t=")) tv bwT).1 ++ ((emitNum [13, 10, 9] (bytes ("x=")) xv bwX).1 ++ ((emitNum [13, 10, 9] (bytes ("l=")) lv bwL).1 ++ 59 :: 32 :: 98 :: 104 :: 61 :: ((emitB64 [13, 10, 9] (base64Encode bhraw) bwBH).1 ++ 59 :: 32 :: 98 :: 61 :: ((emitB64 [13, 10, 9] (base64Encode braw) bwB).1 ++ [59, 13, 10])))))))) := by
    rw [keyFn_skip 32 _ (Or.inl (by decide)),
      keyFn_at_one 99 _ (by decide) (by decide) (by decide)]
    rfl
  refine (parseSigLoop_step _ _ _ _ _ _ _ hkc
    (tagDisp_c _ _ _ ch cb (c1CanonFull ch cb _))).trans ?_
  rw [semiExpose _ _ (emitNum_head (bytes ("l=")) lv bwL)]
  rw [semiExpose _ _ (emitNum_head (bytes ("x=")) xv bwX)]
  rw [semiExpose _ _ (emitNum_head (bytes ("t=")) tv bwT)]
  rw [semiExpose _ _ (emitI_head iv bwI)]
  exact c1StepH 7
    (fun s0 => { s0 with i := iv, t := tv, x := xv, l := lv, bh := bhraw, b := braw })
    _ hs bwH hhne hnm
    (fun g sig2 hi0 ht0 hx0 hl0 =>
      c1StepI 6
        (fun s0 => { s0 with t := tv, x := xv, l := lv, bh := bhraw, b := braw })
        _ iv bwI hi
        (fun g2 sig3 ht1 hx1 hl1 =>
          c1StepT 5
            (fun s0 => { s0 with x := xv, l := lv, bh := bhraw, b := braw })
            _ tv bwT ht
            (fun g3 sig4 hx2 hl2 =>
              c1StepX 4
                (fun s0 => { s0 with l := lv, bh := bhraw, b := braw })
                _ xv bwX hx
                (fun g4 sig5 hl3 =>
                  c1StepL 3
                    (fun s0 => { s0 with bh := bhraw, b := braw })
                    _ lv bwL hl
                    (fun g5 sig6 =>
                      c1StepBB bhraw braw hbhc hbc g5 sig6 bwBH bwB)
                    g4 sig5 hl3)
                g3 sig4 hx2 hl2)
            g2 sig3 ht1 hx1 hl1)
        g sig2 hi0 ht0 hx0 hl0)
    f _ rfl rfl rfl rfl

theorem nlOf_true (c : Canonicalization) : nlOf c true = [13, 10, 9] := by
  cases c <;> rfl

theorem hdrName_true (c : Canonicalization) :
    hdrName c true = bytes ("DKIM-Signature: ") := by
  cases c <;> rfl

theorem c1Roundtrip (a : Algorithm) (ch cb : Canonicalization)
    (d s iv : List Nat) (hs : List (List Nat)) (tv xv lv : Nat)
    (bhraw braw : List Nat)
    (hd : d ≠ []) (hdc : ∀ c ∈ d, isAsciiWs c = false ∧ c ≠ 59)
    (hsne : s ≠ []) (hsc : ∀ c ∈ s, isAsciiWs c = false ∧ c ≠ 59)
    (hhne : hs ≠ [])
    (hnm : ∀ nm ∈ hs, nm ≠ [] ∧ ∀ c ∈ nm, isAsciiWs c = false ∧ c ≠ 58 ∧ c ≠ 59)
    (hi : ∀ c ∈ iv, c < 256 ∧ c ≠ 61)
    (ht : tv < 2 ^ 64) (hx : xv < 2 ^ 64) (hl : lv < 2 ^ 64)
    (hbhne : bhraw ≠ []) (hbhc : ∀ c ∈ bhraw, c < 256)
    (hbne : braw ≠ []) (hbc : ∀ c ∈ braw, c < 256) :
    Signature.parse
        ((Signature.write
            ⟨1, a, d, s, iv, base64Encode braw, base64Encode bhraw, hs, [],
              lv, xv, tv, ch, cb⟩ true).drop 15) =
      .ok ⟨1, a, d, s, iv, braw, bhraw, hs, [], lv, xv, tv, ch, cb⟩ := by
  have hW : (Signature.write
      ⟨1, a, d, s, iv, base64Encode braw, base64Encode bhraw, hs, [],
        lv, xv, tv, ch, cb⟩ true).drop 15 =
      32 :: 118 :: 61 :: 49 :: 59 :: 32 :: 97 :: 61 ::
      (algName a ++ 59 :: 32 :: 115 :: 61 ::
        (s ++ 59 :: 32 :: 100 :: 61 ::
          (d ++ 59 :: 32 :: 99 :: 61 ::
            (canonName ch ++ 47 :: canonName cb ++ 59 :: 13 :: 10 :: 9 ::
              ((emitH [13, 10, 9] hs true 1).1 ++
                ((emitI [13, 10, 9] iv (emitH [13, 10, 9] hs true 1).2).1 ++
                  ((emitNum [13, 10, 9] (bytes ("t=")) tv (emitI [13, 10, 9] iv (emitH [13, 10, 9] hs true 1).2).2).1 ++
                    ((emitNum [13, 10, 9] (bytes ("x=")) xv (emitNum [13, 10, 9] (bytes ("t=")) tv (emitI [13, 10, 9] iv (emitH [13, 10, 9] hs true 1).2).2).2).1 ++
                      ((emitNum [13, 10, 9] (bytes ("l=")) lv (emitNum [13, 10, 9] (bytes ("x=")) xv (emitNum [13, 10, 9] (bytes ("t=")) tv (emitI [13, 10, 9] iv (emitH [13, 10, 9] hs true 1).2).2).2).2).1 ++
                        59 :: 32 :: 98 :: 104 :: 61 ::
                          ((emitB64 [13, 10, 9] (base64Encode bhraw) ((emitNum [13, 10, 9] (bytes ("l=")) lv (emitNum [13, 10, 9] (bytes ("x=")) xv (emitNum [13, 10, 9] (bytes ("t=")) tv (emitI [13, 10, 9] iv (emitH [13, 10, 9] hs true 1).2).2).2).2).2 + 5)).1 ++
                            59 :: 32 :: 98 :: 61 ::
                              ((emitB64 [13, 10, 9] (base64Encode braw) ((emitB64 [13, 10, 9] (base64Encode bhraw) ((emitNum [13, 10, 9] (bytes ("l=")) lv (emitNum [13, 10, 9] (bytes ("x=")) xv (emitNum [13, 10, 9] (bytes ("t=")) tv (emitI [13, 10, 9] iv (emitH [13, 10, 9] hs true 1).2).2).2).2).2 + 5)).2 + 4)).1 ++ [59, 13, 10]))))))))))) := by
    rw [Signature.write]
    dsimp only
    simp only [nlOf_true, hdrName_true, if_true]
    rw [show bytes ("DKIM-Signature: ") =
      bytes ("DKIM-Signature:") ++ [32] from by decide]
    simp only [List.append_assoc]
    rw [show (15 : Nat) = (bytes ("DKIM-Signature:")).length from by decide,
      List.drop_left]
    rw [show bytes ("v=1; a=") = [118, 61, 49, 59, 32, 97, 61] from by decide,
      show bytes ("; s=") = [59, 32, 115, 61] from by decide,
      show bytes ("; d=") = [59, 32, 100, 61] from by decide,
      show bytes ("; c=") = [59, 32, 99, 61] from by decide,
      show bytes ("; bh=") = [59, 32, 98, 104, 61] from by decide,
      show bytes ("; b=") = [59, 32, 98, 61] from by decide]
    simp only [List.append_assoc, List.cons_append, List.nil_append]
  rw [hW, Signature.parse]
  have hlen : 12 ≤ (32 :: 118 :: 61 :: 49 :: 59 :: 32 :: 97 :: 61 ::
      (algName a ++ 59 :: 32 :: 115 :: 61 ::
        (s ++ 59 :: 32 :: 100 :: 61 ::
          (d ++ 59 :: 32 :: 99 :: 61 ::
            (canonName ch ++ 47 :: canonName cb ++ 59 :: 13 :: 10 :: 9 ::
              ((emitH [13, 10, 9] hs true 1).1 ++
                ((emitI [13, 10, 9] iv (emitH [13, 10, 9] hs true 1).2).1 ++
                  ((emitNum [13, 10, 9] (bytes ("t=")) tv (emitI [13, 10, 9] iv (emitH [13, 10, 9] hs true 1).2).2).1 ++
                    ((emitNum [13, 10, 9] (bytes ("x=")) xv (emitNum [13, 10, 9] (bytes ("t=")) tv (emitI [13, 10, 9] iv (emitH [13, 10, 9] hs true 1).2).2).2).1 ++
                      ((emitNum [13, 10, 9] (bytes ("l=")) lv (emitNum [13, 10, 9] (bytes ("x=")) xv (emitNum [13, 10, 9] (bytes ("t=")) tv (emitI [13, 10, 9] iv (emitH [13, 10, 9] hs true 1).2).2).2).2).1 ++
                        59 :: 32 :: 98 :: 104 :: 61 ::
                          ((emitB64 [13, 10, 9] (base64Encode bhraw) ((emitNum [13, 10, 9] (bytes ("l=")) lv (emitNum [13, 10, 9] (bytes ("x=")) xv (emitNum [13, 10, 9] (bytes ("t=")) tv (emitI [13, 10, 9] iv (emitH [13, 10, 9] hs true 1).2).2).2).2).2 + 5)).1 ++
                            59 :: 32 :: 98 :: 61 ::
                              ((emitB64 [13, 10, 9] (base64Encode braw) ((emitB64 [13, 10, 9] (base64Encode bhraw) ((emitNum [13, 10, 9] (bytes ("l=")) lv (emitNum [13, 10, 9] (bytes ("x=")) xv (emitNum [13, 10, 9] (bytes ("t=")) tv (emitI [13, 10, 9] iv (emitH [13, 10, 9] hs true 1).2).2).2).2).2 + 5)).2 + 4)).1 ++ [59, 13, 10])))))))))))).length := by
    simp only [List.length_cons, List.length_append]
    omega
  have hfe : (32 :: 118 :: 61 :: 49 :: 59 :: 32 :: 97 :: 61 ::
      (algName a ++ 59 :: 32 :: 115 :: 61 ::
        (s ++ 59 :: 32 :: 100 :: 61 ::
          (d ++ 59 :: 32 :: 99 :: 61 ::
            (canonName ch ++ 47 :: canonName cb ++ 59 :: 13 :: 10 :: 9 ::
              ((emitH [13, 10, 9] hs true 1).1 ++
                ((emitI [13, 10, 9] iv (emitH [13, 10, 9] hs true 1).2).1 ++
                  ((emitNum [13, 10, 9] (bytes ("t=")) tv (emitI [13, 10, 9] iv (emitH [13, 10, 9] hs true 1).2).2).1 ++
                    ((emitNum [13, 10, 9] (bytes ("x=")) xv (emitNum [13, 10, 9] (bytes ("t=")) tv (emitI [13, 10, 9] iv (emitH [13, 10, 9] hs true 1).2).2).2).1 ++
                      ((emitNum [13, 10, 9] (bytes ("l=")) lv (emitNum [13, 10, 9] (bytes ("x=")) xv (emitNum [13, 10, 9] (bytes ("t=")) tv (emitI [13, 10, 9] iv (emitH [13, 10, 9] hs true 1).2).2).2).2).1 ++
                        59 :: 32 :: 98 :: 104 :: 61 ::
                          ((emitB64 [13, 10, 9] (base64Encode bhraw) ((emitNum [13, 10, 9] (bytes ("l=")) lv (emitNum [13, 10, 9] (bytes ("x=")) xv (emitNum [13, 10, 9] (bytes ("t=")) tv (emitI [13, 10, 9] iv (emitH [13, 10, 9] hs true 1).2).2).2).2).2 + 5)).1 ++
                            59 :: 32 :: 98 :: 61 ::
                              ((emitB64 [13, 10, 9] (base64Encode braw) ((emitB64 [13, 10, 9] (base64Encode bhraw) ((emitNum [13, 10, 9] (bytes ("l=")) lv (emitNum [13, 10, 9] (bytes ("x=")) xv (emitNum [13, 10, 9] (bytes ("t=")) tv (emitI [13, 10, 9] iv (emitH [13, 10, 9] hs true 1).2).2).2).2).2 + 5)).2 + 4)).1 ++ [59, 13, 10])))))))))))).length + 1 =
      ((32 :: 118 :: 61 :: 49 :: 59 :: 32 :: 97 :: 61 ::
      (algName a ++ 59 :: 32 :: 115 :: 61 ::
        (s ++ 59 :: 32 :: 100 :: 61 ::
          (d ++ 59 :: 32 :: 99 :: 61 ::
            (canonName ch ++ 47 :: canonName cb ++ 59 :: 13 :: 10 :: 9 ::
              ((emitH [13, 10, 9] hs true 1).1 ++
                ((emitI [13, 10, 9] iv (emitH [13, 10, 9] hs true 1).2).1 ++
                  ((emitNum [13, 10, 9] (bytes ("t=")) tv (emitI [13, 10, 9] iv (emitH [13, 10, 9] hs true 1).2).2).1 ++
                    ((emitNum [13, 10, 9] (bytes ("x=")) xv (emitNum [13, 10, 9] (bytes ("t=")) tv (emitI [13, 10, 9] iv (emitH [13, 10, 9] hs true 1).2).2).2).1 ++
                      ((emitNum [13, 10, 9] (bytes ("l=")) lv (emitNum [13, 10, 9] (bytes ("x=")) xv (emitNum [13, 10, 9] (bytes ("t=")) tv (emitI [13, 10, 9] iv (emitH [13, 10, 9] hs true 1).2).2).2).2).1 ++
                        59 :: 32 :: 98 :: 104 :: 61 ::
                          ((emitB64 [13, 10, 9] (base64Encode bhraw) ((emitNum [13, 10, 9] (bytes ("l=")) lv (emitNum [13, 10, 9] (bytes ("x=")) xv (emitNum [13, 10, 9] (bytes ("t=")) tv (emitI [13, 10, 9] iv (emitH [13, 10, 9] hs true 1).2).2).2).2).2 + 5)).1 ++
                            59 :: 32 :: 98 :: 61 ::
                              ((emitB64 [13, 10, 9] (base64Encode braw) ((emitB64 [13, 10, 9] (base64Encode bhraw) ((emitNum [13, 10, 9] (bytes ("l=")) lv (emitNum [13, 10, 9] (bytes ("x=")) xv (emitNum [13, 10, 9] (bytes ("t=")) tv (emitI [13, 10, 9] iv (emitH [13, 10, 9] hs true 1).2).2).2).2).2 + 5)).2 + 4)).1 ++ [59, 13, 10])))))))))))).length + 1 - 13) + 13 := by
    omega
  rw [hfe, c1Chain a ch cb d s iv hs tv xv lv bhraw braw
    1 (emitH [13, 10, 9] hs true 1).2 (emitI [13, 10, 9] iv (emitH [13, 10, 9] hs true 1).2).2 (emitNum [13, 10, 9] (bytes ("t=")) tv (emitI [13, 10, 9] iv (emitH [13, 10, 9] hs true 1).2).2).2 (emitNum [13, 10, 9] (bytes ("x=")) xv (emitNum [13, 10, 9] (bytes ("t=")) tv (emitI [13, 10, 9] iv (emitH [13, 10, 9] hs true 1).2).2).2).2 ((emitNum [13, 10, 9] (bytes ("l=")) lv (emitNum [13, 10, 9] (bytes ("x=")) xv (emitNum [13, 10, 9] (bytes ("t=")) tv (emitI [13, 10, 9] iv (emitH [13, 10, 9] hs true 1).2).2).2).2).2 + 5) ((emitB64 [13, 10, 9] (base64Encode bhraw) ((emitNum [13, 10, 9] (bytes ("l=")) lv (emitNum [13, 10, 9] (bytes ("x=")) xv (emitNum [13, 10, 9] (bytes ("t=")) tv (emitI [13, 10, 9] iv (emitH [13, 10, 9] hs true 1).2).2).2).2).2 + 5)).2 + 4)
    hsc hdc hhne hnm hi ht hx hl hbhc hbc
    ((32 :: 118 :: 61 :: 49 :: 59 :: 32 :: 97 :: 61 ::
      (algName a ++ 59 :: 32 :: 115 :: 61 ::
        (s ++ 59 :: 32 :: 100 :: 61 ::
          (d ++ 59 :: 32 :: 99 :: 61 ::
            (canonName ch ++ 47 :: canonName cb ++ 59 :: 13 :: 10 :: 9 ::
              ((emitH [13, 10, 9] hs true 1).1 ++
                ((emitI [13, 10, 9] iv (emitH [13, 10, 9] hs true 1).2).1 ++
                  ((emitNum [13, 10, 9] (bytes ("t=")) tv (emitI [13, 10, 9] iv (emitH [13, 10, 9] hs true 1).2).2).1 ++
                    ((emitNum [13, 10, 9] (bytes ("x=")) xv (emitNum [13, 10, 9] (bytes ("t=")) tv (emitI [13, 10, 9] iv (emitH [13, 10, 9] hs true 1).2).2).2).1 ++
                      ((emitNum [13, 10, 9] (bytes ("l=")) lv (emitNum [13, 10, 9] (bytes ("x=")) xv (emitNum [13, 10, 9] (bytes ("t=")) tv (emitI [13, 10, 9] iv (emitH [13, 10, 9] hs true 1).2).2).2).2).1 ++
                        59 :: 32 :: 98 :: 104 :: 61 ::
                          ((emitB64 [13, 10, 9] (base64Encode bhraw) ((emitNum [13, 10, 9] (bytes ("l=")) lv (emitNum [13, 10, 9] (bytes ("x=")) xv (emitNum [13, 10, 9] (bytes ("t=")) tv (emitI [13, 10, 9] iv (emitH [13, 10, 9] hs true 1).2).2).2).2).2 + 5)).1 ++
                            59 :: 32 :: 98 :: 61 ::
                              ((emitB64 [13, 10, 9] (base64Encode braw) ((emitB64 [13, 10, 9] (base64Encode bhraw) ((emitNum [13, 10, 9] (bytes ("l=")) lv (emitNum [13, 10, 9] (bytes ("x=")) xv (emitNum [13, 10, 9] (bytes ("t=")) tv (emitI [13, 10, 9] iv (emitH [13, 10, 9] hs true 1).2).2).2).2).2 + 5)).2 + 4)).1 ++ [59, 13, 10])))))))))))).length + 1 - 13)]
  dsimp only
  rw [if_pos (by simp [sigComplete, hd, hsne, hbne, hbhne, hhne])]

/-- C1 is false as stated: `sign` accepts any agent user identifier, but
`Signature::write` does not escape `=` in the `i=` value while
`Signature::parse` decodes `=XX` hex sequences there, so a sign-produced
signature with `i = "=41"` serializes to `i==41` and parses back with
`i = "A"` — the round-trip does not return an equivalent `Signature`. -/
theorem c1_counterexample :
    ∃ sig, signSig .RsaSha256 .Relaxed .Relaxed (bytes ("d")) (bytes ("s"))
        (bytes ("=41")) 0 false true 0 0 [bytes ("from")] [1] [2] = .ok sig ∧
      ∃ p, Signature.parse ((Signature.write sig true).drop 15) = .ok p ∧
        p.i ≠ sig.i := by
  refine ⟨⟨1, .RsaSha256, [100], [115], [61, 52, 49], [65, 103, 61, 61],
      [65, 81, 61, 61], [[102, 114, 111, 109]], [], 0, 0, 0, .Relaxed,
      .Relaxed⟩, by decide,
    ⟨1, .RsaSha256, [100], [115], [65], [2], [1], [[102, 114, 111, 109]],
      [], 0, 0, 0, .Relaxed, .Relaxed⟩, ?_, by decide⟩
  set_option maxRecDepth 10000 in decide

/-- C1 (amended): a `Signature` produced by a successful sign operation
round-trips through `Signature::write` (as a real header, the parser
reading the value after the colon) and `Signature::parse`, provided the
signer inputs are well-formed: domain and selector free of whitespace and
`;`, signed header names nonempty and free of whitespace, `:` and `;`,
the agent user identifier made of bytes below 256 other than `=`
(`write` quoted-printable-escapes bytes `<= 0x20`, `;` and `>= 0x7F` but
passes `=` through, which the parser would decode — the counterexample),
and nonempty digest/signature byte strings.  The parsed signature then
agrees with the signed one on every field except `b`/`bh`, which hold the
base64-decoding of the emitted values: the raw signature and body-digest
bytes. -/
theorem c1_amended (a : Algorithm) (ch cb : Canonicalization)
    (d s iv : List Nat) (x : Nat) (lFlag keyPresent : Bool)
    (now bodyLen : Nat) (hs : List (List Nat))
    (bodyDigest sigBytes : List Nat) (sig : Signature)
    (hsign : signSig a ch cb d s iv x lFlag keyPresent now bodyLen hs
      bodyDigest sigBytes = .ok sig)
    (hdc : ∀ c ∈ d, isAsciiWs c = false ∧ c ≠ 59)
    (hsc : ∀ c ∈ s, isAsciiWs c = false ∧ c ≠ 59)
    (hnm : ∀ nm ∈ hs, nm ≠ [] ∧ ∀ c ∈ nm, isAsciiWs c = false ∧ c ≠ 58 ∧ c ≠ 59)
    (hi : ∀ c ∈ iv, c < 256 ∧ c ≠ 61)
    (hnow : now < 2 ^ 64) (hblen : bodyLen < 2 ^ 64)
    (hbh : bodyDigest ≠ []) (hbhc : ∀ c ∈ bodyDigest, c < 256)
    (hb : sigBytes ≠ []) (hbc : ∀ c ∈ sigBytes, c < 256) :
    Signature.parse ((Signature.write sig true).drop 15) =
      .ok { sig with b := sigBytes, bh := bodyDigest } := by
  rw [signSig] at hsign
  by_cases h1 : d = [] ∨ s = []
  · rw [if_pos h1] at hsign
    exact (Except.noConfusion hsign)
  · rw [if_neg h1] at hsign
    by_cases h2 : hs = []
    · rw [if_pos h2] at hsign
      exact (Except.noConfusion hsign)
    · rw [if_neg h2] at hsign
      by_cases h3 : keyPresent = false
      · rw [if_pos h3] at hsign
        exact (Except.noConfusion hsign)
      · rw [if_neg h3] at hsign
        rw [Except.ok.injEq] at hsign
        subst hsign
        have hd : d ≠ [] := fun hc => h1 (Or.inl hc)
        have hsne : s ≠ [] := fun hc => h1 (Or.inr hc)
        have hxv : (if 0 < x then (now + x) % 2 ^ 64 else 0) < 2 ^ 64 := by
          split
          · exact Nat.mod_lt _ (by norm_num)
          · norm_num
        have hlv : (if lFlag then bodyLen else 0) < 2 ^ 64 := by
          split
          · exact hblen
          · norm_num
        exact c1Roundtrip a ch cb d s iv hs now
          (if 0 < x then (now + x) % 2 ^ 64 else 0)
          (if lFlag then bodyLen else 0)
          bodyDigest sigBytes hd hdc hsne hsc h2 hnm hi hnow hxv hlv
          hbh hbhc hb hbc

theorem c1_witness :
    Signature.parse ((Signature.write
        ⟨1, .RsaSha256, bytes ("example.com"), bytes ("sel"), bytes ("a"),
          base64Encode [9, 8, 7], base64Encode [1, 2, 3], [bytes ("from")],
          [], 0, 0, 5, .Relaxed, .Relaxed⟩ true).drop 15) =
      .ok ⟨1, .RsaSha256, bytes ("example.com"), bytes ("sel"), bytes ("a"),
        [9, 8, 7], [1, 2, 3], [bytes ("from")], [], 0, 0, 5, .Relaxed,
        .Relaxed⟩ :=
  c1_amended .RsaSha256 .Relaxed .Relaxed (bytes ("example.com"))
    (bytes ("sel")) (bytes ("a")) 0 false true 5 0 [bytes ("from")]
    [1, 2, 3] [9, 8, 7]
    ⟨1, .RsaSha256, bytes ("example.com"), bytes ("sel"), bytes ("a"),
      base64Encode [9, 8, 7], base64Encode [1, 2, 3], [bytes ("from")],
      [], 0, 0, 5, .Relaxed, .Relaxed⟩
    (by decide) (by decide) (by decide) (by decide) (by decide)
    (by decide) (by decide) (by decide) (by decide) (by decide) (by decide)

end MailAuth
